import Mathlib

/-! Portfolio scoring engine of `script.js`.

A shallow embedding of the computing part of `src/script.js` (the object `app`):
`performAnalysis` and the six sub-scorers it calls, the three insight generators,
`analyzeLanguages`, `identifyTopRepos`, the tier of `displayOverallScore`, the timeline of
`displayActivity`, `extractUsername` and the input checks of `startAnalysis`.

Modelling conventions.

* The numbers of the scorers are exact rationals (`ℚ`); counters are natural numbers.  The
  divisions of the scorers are guarded by a non-zero test; the quotients of
  `checkNamingConsistency` and the fork ratio of `identifyRedFlags` are not, they go through
  `jsDiv` and keep the `NaN` and `Infinity` results of a division by zero.
* A field that the API delivers as a string or `null` is an `Option String`; a test
  such as `if (repo.homepage)` is `truthy`, false for `null` and for the empty string.
* `String.length` of JavaScript counts UTF-16 code units: `jsLength`.
* Timestamps are milliseconds since the epoch; the ambient `new Date()` of
  `analyzeActivity` is the explicit argument `now`.  What the `Date` object computes with
  the calendar (the six-month mark of `identifyRedFlags`, the dates of `displayActivity`)
  is an argument of the function that uses it.
* `Array.prototype.sort` is a stable sort: `jsSort`.  An object used as a counter is the
  list of its own properties in creation order: `objGet`, `objSet`; `Object.entries` lists
  them with the array indices first: `objEntries`.
* The percentages of `analyzeLanguages` are printed from doubles: the quotient and the
  product of `(count / total) * 100` are each rounded to the nearest double, `toDouble`.
* The object `langCount` of `analyzeLanguages` starts as `{}` and inherits from
  `Object.prototype`.  A language called `__proto__` leaves it unchanged; a language called
  like an inherited function puts a string in the place of a count, and from there on the
  result depends on the engine and is left open: `none`.
-/

namespace PortfolioAnalyzer

/-! ## JavaScript primitives -/

/-- Number of UTF-16 code units of a string, the `.length` of a JavaScript string. -/
def jsLength (s : String) : Nat :=
  (s.data.map fun c => if c.val.toNat < 65536 then 1 else 2).sum

/-- Truthiness of a value that is a string or `null`: the empty string and `null` are falsy. -/
def truthy : Option String → Bool
  | none => false
  | some s => !(s.data.isEmpty)

/-- The `.length` of a string-or-null field, read only behind a `truthy` guard. -/
def strLength : Option String → Nat
  | none => 0
  | some s => jsLength s

/-- The `Math.round` of JavaScript: nearest integer, halves towards plus infinity. -/
def jsRound (x : ℚ) : ℤ := ⌊x + 1 / 2⌋

/-- Result of dividing two non-negative numbers in JavaScript. -/
inductive JSNum where
  | nan : JSNum
  | posInf : JSNum
  | num : ℚ → JSNum
  deriving DecidableEq

/-- The quotient `a / b` of two counts: `0 / 0` is `NaN`, `a / 0` is `Infinity` for `a > 0`. -/
def jsDiv (a b : Nat) : JSNum :=
  if b = 0 then (if a = 0 then JSNum.nan else JSNum.posInf) else JSNum.num ((a : ℚ) / (b : ℚ))

/-- The comparison `x > c` against a finite constant: false for `NaN`. -/
def JSNum.gt (x : JSNum) (c : ℚ) : Bool :=
  match x with
  | JSNum.nan => false
  | JSNum.posInf => true
  | JSNum.num q => decide (c < q)

/-! ## Data model -/

/-- The fields of the user record that the scorers read. -/
structure Profile where
  bio : Option String
  location : Option String
  blog : Option String
  company : Option String
  deriving DecidableEq

/-- The fields of a repository record that the scorers read. -/
structure Repo where
  name : String
  fork : Bool
  description : Option String
  size : Nat
  homepage : Option String
  topics : Option (List String)
  language : Option String
  stargazers_count : Nat
  forks_count : Nat
  watchers_count : Nat
  created_at : Int
  deriving DecidableEq

/-- An activity event: only its creation time (milliseconds) is read. -/
structure Event where
  created_at : Int
  deriving DecidableEq

/-- The object every sub-scorer returns. -/
structure SubMetric where
  score : ℚ
  maxScore : ℚ
  details : String
  deriving DecidableEq

/-- The object `analysis.metrics` with its six fixed keys (`structure_` is the key
`structure`, a reserved word here). -/
structure Metrics where
  documentation : SubMetric
  structure_ : SubMetric
  activity : SubMetric
  organization : SubMetric
  impact : SubMetric
  technicalDepth : SubMetric
  deriving DecidableEq

/-- The scoring part of the object `analysis` built by `performAnalysis`. -/
structure Analysis where
  profile : Profile
  repos : List Repo
  events : List Event
  metrics : Metrics
  overallScore : ℤ

/-! ## The six sub-scorers -/

/-- Body of the `forEach` callback of `analyzeDocumentation`: the value of `repoScore`. -/
def analyzeDocumentation.repoScore (repo : Repo) : Nat :=
  let repoScore := 0
  let repoScore :=
    if truthy repo.description && decide (strLength repo.description > 20) then repoScore + 4
    else if truthy repo.description then repoScore + 2
    else repoScore
  let repoScore := if repo.size > 0 then repoScore + 3 else repoScore
  let repoScore := if truthy repo.homepage then repoScore + 2 else repoScore
  let repoScore :=
    match repo.topics with
    | some ts => if ts.length > 0 then repoScore + 1 else repoScore
    | none => repoScore
  repoScore

/-- The loop of `analyzeDocumentation`: the pair `(totalScore, count)` after the `forEach`. -/
def analyzeDocumentation.loop (repos : List Repo) : Nat × Nat :=
  repos.foldl (fun acc repo => (acc.1 + analyzeDocumentation.repoScore repo, acc.2 + 1)) (0, 0)

/-- The scorer `analyzeDocumentation(repos)`. -/
def analyzeDocumentation (repos : List Repo) : SubMetric :=
  let totalScore := (analyzeDocumentation.loop repos).1
  let count := (analyzeDocumentation.loop repos).2
  let avgScore : ℚ := if count > 0 then ((totalScore : ℚ) / (count : ℚ) / 10) * 20 else 0
  { score := min 20 avgScore
    maxScore := 20
    details := toString count ++ " repositories analyzed for documentation quality" }

/-- Body of the `forEach` callback of `analyzeStructure`: the final value of `hasStructure`. -/
def analyzeStructure.hasStructure (repo : Repo) : Bool :=
  let hasStructure := false
  let hasStructure := if repo.size > 100 then true else hasStructure
  let hasStructure :=
    match repo.topics with
    | some ts => if ts.length ≥ 2 then true else hasStructure
    | none => hasStructure
  let hasStructure := if repo.stargazers_count > 0 then true else hasStructure
  hasStructure

/-- The loop of `analyzeStructure`: the counter `structuredRepos` after the `forEach`. -/
def analyzeStructure.loop (repos : List Repo) : Nat :=
  repos.foldl (fun structuredRepos repo =>
    if analyzeStructure.hasStructure repo then structuredRepos + 1 else structuredRepos) 0

/-- The scorer `analyzeStructure(repos)`. -/
def analyzeStructure (repos : List Repo) : SubMetric :=
  let structuredRepos := analyzeStructure.loop repos
  let score : ℚ :=
    if repos.length > 0 then ((structuredRepos : ℚ) / (repos.length : ℚ)) * 20 else 0
  { score := (jsRound score : ℚ)
    maxScore := 20
    details := toString structuredRepos ++ " out of " ++ toString repos.length ++
      " repos show good structure" }

/-- The scorer `analyzeActivity(events, repos)`, with the clock reading `now` made explicit. -/
def analyzeActivity (events : List Event) (_repos : List Repo) (now : Int) : SubMetric :=
  let thirtyDaysAgo := now - 30 * 24 * 60 * 60 * 1000
  let ninetyDaysAgo := now - 90 * 24 * 60 * 60 * 1000
  let recentEvents := events.filter fun e => decide (e.created_at > thirtyDaysAgo)
  let mediumEvents := events.filter fun e => decide (e.created_at > ninetyDaysAgo)
  let score : Nat := 0
  let score :=
    if recentEvents.length ≥ 20 then score + 10
    else if recentEvents.length ≥ 10 then score + 7
    else if recentEvents.length ≥ 5 then score + 5
    else if recentEvents.length ≥ 1 then score + 3
    else score
  let score :=
    if mediumEvents.length ≥ 40 then score + 10
    else if mediumEvents.length ≥ 20 then score + 7
    else if mediumEvents.length ≥ 10 then score + 5
    else if mediumEvents.length ≥ 5 then score + 3
    else score
  { score := ((min 20 score : Nat) : ℚ)
    maxScore := 20
    details := toString recentEvents.length ++ " events in last 30 days, " ++
      toString mediumEvents.length ++ " in last 90 days" }

/-- The test `name.includes(c)` for a one-character needle. -/
def includes (s : String) (c : Char) : Bool := s.data.contains c

/-- The helper `checkNamingConsistency(repos)`. -/
def checkNamingConsistency (repos : List Repo) : Bool :=
  let kebabCase := (repos.filter fun r => includes r.name '-').length
  let snakeCase := (repos.filter fun r => includes r.name '_').length
  let total := repos.length
  (jsDiv kebabCase total).gt 0.6 || (jsDiv snakeCase total).gt 0.6

/-- The scorer `analyzeOrganization(profile, repos)`. -/
def analyzeOrganization (profile : Profile) (repos : List Repo) : SubMetric :=
  let score : Nat := 0
  let score := if truthy profile.bio then score + 2 else score
  let score := if truthy profile.location then score + 1 else score
  let score := if truthy profile.blog then score + 1 else score
  let score := if truthy profile.company then score + 1 else score
  let qualityRepos := repos.filter fun r =>
    decide (r.stargazers_count > 0) ||
      (truthy r.description && decide (strLength r.description > 30))
  let score :=
    if qualityRepos.length ≥ 6 then score + 5
    else if qualityRepos.length ≥ 3 then score + 3
    else if qualityRepos.length ≥ 1 then score + 1
    else score
  let hasConsistentNaming := checkNamingConsistency repos
  let score := if hasConsistentNaming then score + 5 else score + 2
  { score := ((min 15 score : Nat) : ℚ)
    maxScore := 15
    details := "Profile completeness and repository organization" }

/-- The scorer `analyzeImpact(repos)`. -/
def analyzeImpact (repos : List Repo) : SubMetric :=
  let score : Nat := 0
  let totalStars := repos.foldl (fun (sum : Nat) r => sum + r.stargazers_count) 0
  let score :=
    if totalStars ≥ 100 then score + 7
    else if totalStars ≥ 50 then score + 5
    else if totalStars ≥ 20 then score + 4
    else if totalStars ≥ 10 then score + 3
    else if totalStars ≥ 5 then score + 2
    else if totalStars ≥ 1 then score + 1
    else score
  let totalForks := repos.foldl (fun (sum : Nat) r => sum + r.forks_count) 0
  let score :=
    if totalForks ≥ 20 then score + 4
    else if totalForks ≥ 10 then score + 3
    else if totalForks ≥ 5 then score + 2
    else if totalForks ≥ 1 then score + 1
    else score
  let totalWatchers := repos.foldl (fun (sum : Nat) r => sum + r.watchers_count) 0
  let score :=
    if totalWatchers ≥ 20 then score + 4
    else if totalWatchers ≥ 10 then score + 3
    else if totalWatchers ≥ 5 then score + 2
    else if totalWatchers ≥ 1 then score + 1
    else score
  { score := ((min 15 score : Nat) : ℚ)
    maxScore := 15
    details := toString totalStars ++ " stars, " ++ toString totalForks ++
      " forks across all repositories" }

/-- The method `Set.prototype.add` on a set kept as the list of its members in insertion order. -/
def setAdd (languages : List String) (l : String) : List String :=
  if l ∈ languages then languages else languages ++ [l]

/-- The loop of `analyzeTechnicalDepth`: the set `languages` after the `forEach`. -/
def analyzeTechnicalDepth.loop (repos : List Repo) : List String :=
  repos.foldl (fun languages r =>
    if truthy r.language then
      match r.language with
      | some l => setAdd languages l
      | none => languages
    else languages) []

/-- The scorer `analyzeTechnicalDepth(repos)`. -/
def analyzeTechnicalDepth (repos : List Repo) : SubMetric :=
  let languages := analyzeTechnicalDepth.loop repos
  let score : Nat := 0
  let score :=
    if languages.length ≥ 5 then score + 5
    else if languages.length ≥ 3 then score + 3
    else if languages.length ≥ 2 then score + 2
    else if languages.length ≥ 1 then score + 1
    else score
  let score :=
    if repos.length ≥ 20 then score + 5
    else if repos.length ≥ 10 then score + 4
    else if repos.length ≥ 5 then score + 3
    else if repos.length ≥ 3 then score + 2
    else if repos.length ≥ 1 then score + 1
    else score
  { score := ((min 10 score : Nat) : ℚ)
    maxScore := 10
    details := toString languages.length ++ " different languages, " ++
      toString repos.length ++ " repositories" }

/-! ## The aggregator -/

/-- The scoring part of `performAnalysis(profile, repos, events)`: the six sub-metrics over
the non-fork repositories (the activity scorer gets the unfiltered list) and the rounded sum. -/
def performAnalysis (profile : Profile) (repos : List Repo) (events : List Event)
    (now : Int) : Analysis :=
  let originalRepos := repos.filter fun r => !r.fork
  let docScore := analyzeDocumentation originalRepos
  let structureScore := analyzeStructure originalRepos
  let activityScore := analyzeActivity events repos now
  let orgScore := analyzeOrganization profile originalRepos
  let impactScore := analyzeImpact originalRepos
  let depthScore := analyzeTechnicalDepth originalRepos
  { profile := profile
    repos := repos
    events := events
    metrics :=
      { documentation := docScore
        structure_ := structureScore
        activity := activityScore
        organization := orgScore
        impact := impactScore
        technicalDepth := depthScore }
    overallScore := jsRound (docScore.score + structureScore.score + activityScore.score +
      orgScore.score + impactScore.score + depthScore.score) }

/-! ## The insight generators -/

/-- Sentence pushed by the documentation check of `identifyStrengths`. -/
def strengthDocumentation : String :=
  "Excellent documentation across repositories with clear descriptions and README files"

/-- Sentence pushed by the activity check of `identifyStrengths`. -/
def strengthActivity : String :=
  "Consistent and recent commit activity showing active development"

/-- Sentence pushed by the impact check of `identifyStrengths`. -/
def strengthImpact : String :=
  "Strong community engagement with stars and forks on repositories"

/-- Sentence pushed by the technical-depth check of `identifyStrengths`. -/
def strengthDepth : String :=
  "Diverse technical skill set demonstrated across multiple programming languages"

/-- Sentence pushed by the profile check of `identifyStrengths`. -/
def strengthProfile : String :=
  "Complete and professional GitHub profile with detailed information"

/-- Sentence pushed by the repository-count check of `identifyStrengths`. -/
def strengthPortfolio : String :=
  "Substantial portfolio with multiple original projects"

/-- Sentence returned by `identifyStrengths` when nothing was pushed. -/
def strengthFallback : String :=
  "Active GitHub presence with room for improvement"

/-- The method `identifyStrengths(analysis)`. -/
def identifyStrengths (analysis : Analysis) : List String :=
  let metrics := analysis.metrics
  let profile := analysis.profile
  let repos := analysis.repos
  let strengths : List String := []
  let strengths :=
    if metrics.documentation.score ≥ 15 then strengths ++ [strengthDocumentation] else strengths
  let strengths :=
    if metrics.activity.score ≥ 15 then strengths ++ [strengthActivity] else strengths
  let strengths :=
    if metrics.impact.score ≥ 10 then strengths ++ [strengthImpact] else strengths
  let strengths :=
    if metrics.technicalDepth.score ≥ 7 then strengths ++ [strengthDepth] else strengths
  let strengths :=
    if truthy profile.bio && truthy profile.location &&
        (truthy profile.blog || truthy profile.company) then strengths ++ [strengthProfile]
    else strengths
  let strengths :=
    if (repos.filter fun r => !r.fork).length ≥ 10 then strengths ++ [strengthPortfolio]
    else strengths
  if strengths.length > 0 then strengths else [strengthFallback]

/-- Sentence pushed by the documentation check of `identifyRedFlags`. -/
def flagDocumentation : String :=
  "Many repositories lack proper documentation and descriptions"

/-- Sentence pushed by the activity check of `identifyRedFlags`. -/
def flagActivity : String :=
  "Limited recent activity - recruiters look for consistent contributions"

/-- Sentence pushed by the impact check of `identifyRedFlags`. -/
def flagImpact : String :=
  "Repositories have minimal community engagement (stars/forks)"

/-- Sentence pushed by the profile check of `identifyRedFlags`. -/
def flagProfile : String :=
  "Incomplete profile information - missing bio or location"

/-- Sentence pushed by the fork-ratio check of `identifyRedFlags`. -/
def flagForks : String :=
  "High proportion of forked repositories - showcase more original work"

/-- Sentence pushed by the technical-depth check of `identifyRedFlags`. -/
def flagDepth : String :=
  "Limited language diversity - consider exploring different technologies"

/-- Sentence pushed by the recent-repository check of `identifyRedFlags`. -/
def flagRecent : String :=
  "No new repositories in the past 6 months"

/-- Sentence returned by `identifyRedFlags` when nothing was pushed. -/
def flagFallback : String :=
  "No major red flags identified"

/-- The method `identifyRedFlags(analysis)`.  The argument `sixMonthsAgo` is the time value
of the `Date` that the filter callback builds with `new Date()` followed by
`setMonth(getMonth() - 6)`: it depends on the clock and on the calendar of the local time
zone, which are not part of the program. -/
def identifyRedFlags (analysis : Analysis) (sixMonthsAgo : Int) : List String :=
  let metrics := analysis.metrics
  let profile := analysis.profile
  let repos := analysis.repos
  let redFlags : List String := []
  let redFlags :=
    if metrics.documentation.score < 10 then redFlags ++ [flagDocumentation] else redFlags
  let redFlags :=
    if metrics.activity.score < 8 then redFlags ++ [flagActivity] else redFlags
  let redFlags :=
    if metrics.impact.score < 5 then redFlags ++ [flagImpact] else redFlags
  let redFlags :=
    if !(truthy profile.bio) || !(truthy profile.location) then redFlags ++ [flagProfile]
    else redFlags
  let forkRatio := jsDiv (repos.filter fun r => r.fork).length repos.length
  let redFlags :=
    if forkRatio.gt 0.7 && decide (repos.length > 5) then redFlags ++ [flagForks]
    else redFlags
  let redFlags :=
    if metrics.technicalDepth.score < 4 then redFlags ++ [flagDepth] else redFlags
  let recentRepos := repos.filter fun r => decide (r.created_at > sixMonthsAgo)
  let redFlags :=
    if recentRepos.length = 0 ∧ repos.length > 0 then redFlags ++ [flagRecent] else redFlags
  if redFlags.length > 0 then redFlags else [flagFallback]

/-- The three values of the field `priority` of a recommendation. -/
inductive Priority where
  | high : Priority
  | medium : Priority
  | low : Priority
  deriving DecidableEq, Repr

/-- A record of the list built by `generateRecommendations`. -/
structure Recommendation where
  title : String
  description : String
  priority : Priority
  impact : String
  deriving DecidableEq

/-- The table `priorityOrder` of the comparator of `generateRecommendations`. -/
def priorityOrder : Priority → Int
  | Priority.high => 0
  | Priority.medium => 1
  | Priority.low => 2

/-- Insertion of `a` into a sorted list, before the first element that `a` does not
follow in the order of the comparator. -/
def sortInsert {α : Type} (cmp : α → α → Int) (a : α) : List α → List α
  | [] => [a]
  | b :: l => if cmp a b ≤ 0 then a :: b :: l else b :: sortInsert cmp a l

/-- The method `Array.prototype.sort(cmp)`: a stable sort, here by insertion from the right,
so that of two elements that compare equal the earlier stays first. -/
def jsSort {α : Type} (cmp : α → α → Int) (l : List α) : List α :=
  l.foldr (sortInsert cmp) []

/-- The record pushed when `metrics.documentation.score < 15`. -/
def recDocumentation : Recommendation :=
  { title := "Improve Repository Documentation"
    description := "Add comprehensive README files with project descriptions, setup instructions, usage examples, and screenshots. Include badges for build status, license, and code coverage."
    priority := Priority.high
    impact := "High - Documentation is the first thing recruiters check" }

/-- The record pushed when `metrics.activity.score < 12`. -/
def recActivity : Recommendation :=
  { title := "Increase Commit Consistency"
    description := "Maintain regular commits even if small. Aim for consistent activity rather than irregular bursts. Use GitHub contribution calendar to track your streak."
    priority := Priority.high
    impact := "High - Shows dedication and active skill development" }

/-- The record pushed when bio, location or blog is missing. -/
def recProfile : Recommendation :=
  { title := "Complete Your Profile"
    description := "Add a professional bio, location, personal website/portfolio, and relevant social links. Consider adding a profile README (username/username repository)."
    priority := Priority.medium
    impact := "Medium - First impression matters" }

/-- The record pushed when `metrics.impact.score < 8`. -/
def recImpact : Recommendation :=
  { title := "Build Projects with Real-World Impact"
    description := "Create projects that solve real problems, contribute to open source, or showcase practical applications. Add project demos and deployment links."
    priority := Priority.high
    impact := "High - Demonstrates practical problem-solving ability" }

/-- The record about pinned repositories, always pushed. -/
def recPin : Recommendation :=
  { title := "Pin Your Best Repositories"
    description := "Use GitHub\x27s pin feature to showcase your top 6 projects. Choose diverse projects that demonstrate different skills and technologies."
    priority := Priority.medium
    impact := "Medium - Controls recruiter\x27s first impression" }

/-- The record pushed when `metrics.technicalDepth.score < 6`. -/
def recStack : Recommendation :=
  { title := "Diversify Your Technical Stack"
    description := "Explore additional programming languages and frameworks. Build projects using different technologies to show versatility and learning ability."
    priority := Priority.low
    impact := "Medium - Shows adaptability and continuous learning" }

/-- The record pushed when `metrics.organization.score < 10`. -/
def recOrganization : Recommendation :=
  { title := "Organize Your Repositories"
    description := "Archive or delete old/incomplete projects. Use consistent naming conventions (kebab-case recommended). Add topics/tags to all repositories for discoverability."
    priority := Priority.medium
    impact := "Medium - Shows attention to detail" }

/-- The record about testing and continuous integration, always pushed. -/
def recTesting : Recommendation :=
  { title := "Add Automated Testing & CI/CD"
    description := "Implement unit tests and set up GitHub Actions for continuous integration. Add test coverage badges to READMEs to demonstrate code quality."
    priority := Priority.low
    impact := "High - Signals professional development practices" }

/-- The array `recommendations` of `generateRecommendations` after the last `push`. -/
def generateRecommendations.pushed (analysis : Analysis) : List Recommendation :=
  let metrics := analysis.metrics
  let profile := analysis.profile
  let recommendations : List Recommendation := []
  let recommendations :=
    if metrics.documentation.score < 15 then recommendations ++ [recDocumentation]
    else recommendations
  let recommendations :=
    if metrics.activity.score < 12 then recommendations ++ [recActivity] else recommendations
  let recommendations :=
    if !(truthy profile.bio) || !(truthy profile.location) || !(truthy profile.blog) then
      recommendations ++ [recProfile]
    else recommendations
  let recommendations :=
    if metrics.impact.score < 8 then recommendations ++ [recImpact] else recommendations
  let recommendations := recommendations ++ [recPin]
  let recommendations :=
    if metrics.technicalDepth.score < 6 then recommendations ++ [recStack] else recommendations
  let recommendations :=
    if metrics.organization.score < 10 then recommendations ++ [recOrganization]
    else recommendations
  let recommendations := recommendations ++ [recTesting]
  recommendations

/-- The method `generateRecommendations(analysis)`: the pushed records sorted by
`priorityOrder` and cut to the first six by `slice(0, 6)`. -/
def generateRecommendations (analysis : Analysis) : List Recommendation :=
  (jsSort (fun a b => priorityOrder a.priority - priorityOrder b.priority)
    (generateRecommendations.pushed analysis)).take 6

/-! ## The tier of the overall score -/

/-- The four texts that `displayOverallScore` writes into the page. -/
structure ScoreDisplay where
  title : String
  description : String
  badge : String
  className : String
  deriving DecidableEq

/-- The branch of `displayOverallScore(analysis)` that chooses title, description and badge
from `analysis.overallScore`; the animation of the page is left out. -/
def displayOverallScore (score : Int) : ScoreDisplay :=
  if score ≥ 80 then
    { title := "Excellent Profile! \uf8ff\u00fc\u00e5\u00fc"
      description := "Your GitHub profile is impressive and recruiter-ready. Keep up the great work!"
      badge := "Recruiter Ready"
      className := "badge" }
  else if score ≥ 60 then
    { title := "Good Profile! \uf8ff\u00fc\u00eb\u00e7"
      description := "Your profile is solid with room for improvement. Follow the recommendations to stand out more."
      badge := "Above Average"
      className := "badge" }
  else if score ≥ 40 then
    { title := "Average Profile"
      description := "Your profile needs attention. Focus on the high-priority recommendations below."
      badge := "Needs Work"
      className := "badge" }
  else
    { title := "Profile Needs Improvement"
      description := "Significant improvements needed to be competitive. Start with the recommendations below."
      badge := "Work in Progress"
      className := "badge" }

/-! ## The account name of the input -/

/-- Match of a literal at the start of a string: the rest of the string after it. -/
def matchLit : List Char → List Char → Option (List Char)
  | [], s => some s
  | _ :: _, [] => none
  | p :: ps, c :: cs => if p = c then matchLit ps cs else none

/-- Match of an optional literal followed by the continuation `k`: first with the literal,
then, when that fails, without it. -/
def matchOpt (lit : List Char) (k : List Char → Option (List Char)) (s : List Char) :
    Option (List Char) :=
  match (matchLit lit s).bind k with
  | some r => some r
  | none => k s

/-- Match of the anchored pattern `^https?:\/\/(www\.)?github\.com\/`: the rest of the
input after the match. -/
def matchGithubUrl (s : List Char) : Option (List Char) :=
  (matchLit "http".data s).bind
    (matchOpt "s".data fun s1 =>
      (matchLit "://".data s1).bind
        (matchOpt "www.".data fun s2 => matchLit "github.com/".data s2))

/-- The call `input.replace(/^https?:\/\/(www\.)?github\.com\//, '')`. -/
def replaceGithubUrl (s : List Char) : List Char :=
  match matchGithubUrl s with
  | some rest => rest
  | none => s

/-- The call `input.replace(/\/$/, '')`: one slash at the end of the input is removed. -/
def replaceTrailingSlash (s : List Char) : List Char :=
  if s.getLast? = some '/' then s.dropLast else s

/-- The first element of `input.split('/')`. -/
def firstPart (s : List Char) : List Char := s.takeWhile fun c => c != '/'

/-- The method `extractUsername(input)` on the characters of the input; `none` is `null`. -/
def extractUsernameChars (input : List Char) : Option (List Char) :=
  let input := replaceGithubUrl input
  let input := replaceTrailingSlash input
  let part0 := firstPart input
  if part0.isEmpty then none else some part0

/-- The method `extractUsername(input)`; `none` is `null`. -/
def extractUsername (input : String) : Option String :=
  (extractUsernameChars input.data).map String.mk

/-! ## The top repositories -/

/-- The sorted array of `identifyTopRepos`: `repos.sort(...)` with the comparator
`scoreB - scoreA` of the two weighted counts. -/
def identifyTopRepos.sorted (repos : List Repo) : List Repo :=
  jsSort (fun a b =>
    let scoreA : Int := (a.stargazers_count * 3) + (a.forks_count * 2) + a.watchers_count
    let scoreB : Int := (b.stargazers_count * 3) + (b.forks_count * 2) + b.watchers_count
    scoreB - scoreA) repos

/-- The method `identifyTopRepos(repos)`: the sorted array cut by `slice(0, 5)`. -/
def identifyTopRepos (repos : List Repo) : List Repo :=
  (identifyTopRepos.sorted repos).take 5

/-! ## Objects used as counters

The objects `langCount` and `activityMap` are created empty and only written by
`o[k] = (o[k] || 0) + 1`.  The own properties of such an object are held as a list in the
order of their creation.  The keys of `activityMap` are dates written `YYYY-MM-DD`; the
keys of `langCount` are language names, which are arbitrary strings: see `objEntries` for
the order in which they are listed and `analyzeLanguages.langCount` for the names that
`Object.prototype` already knows. -/

/-- The read `o[k]` of an own property, `none` being `undefined`. -/
def objGet : List (String × Nat) → String → Option Nat
  | [], _ => none
  | (k1, v1) :: o, k => if k1 = k then some v1 else objGet o k

/-- The write `o[k] = v`: an existing property keeps its place, a new one comes last. -/
def objSet : List (String × Nat) → String → Nat → List (String × Nat)
  | [], k, v => [(k, v)]
  | (k1, v1) :: o, k, v => if k1 = k then (k, v) :: o else (k1, v1) :: objSet o k v

/-- The statement `o[k] = (o[k] || 0) + 1`. -/
def objIncr (o : List (String × Nat)) (k : String) : List (String × Nat) :=
  objSet o k ((objGet o k).getD 0 + 1)

/-- The number that a list of decimal digits writes. -/
def digitsValue (l : List Char) : Nat :=
  l.foldl (fun n c => 10 * n + (c.toNat - 48)) 0

/-- The array index that a property key is, if it is one: the key is the decimal writing
of a number from 0 to `2 ^ 32 - 2`. -/
def arrayIndex (k : String) : Option Nat :=
  let n := digitsValue k.data
  if toString n = k ∧ n ≤ 4294967294 then some n else none

/-- The own properties in the order of `Object.entries(o)` and `Object.values(o)`: those
whose key is an array index first, by ascending index, then the others in the order of
their creation. -/
def objEntries (o : List (String × Nat)) : List (String × Nat) :=
  (o.filter fun p => (arrayIndex p.1).isSome).insertionSort
      (fun p q => (arrayIndex p.1).getD 0 ≤ (arrayIndex q.1).getD 0)
    ++ o.filter fun p => (arrayIndex p.1).isNone

/-- The names of the functions that every object inherits from `Object.prototype`. -/
def objectPrototypeFunctions : List String :=
  ["constructor", "hasOwnProperty", "isPrototypeOf", "propertyIsEnumerable",
   "toLocaleString", "toString", "valueOf", "__defineGetter__", "__defineSetter__",
   "__lookupGetter__", "__lookupSetter__"]

/-- A key that is not the name of a property of `Object.prototype`: a read of it from an
object that has no such own property gives `undefined`, a write creates the property. -/
def ownKey (k : String) : Bool :=
  !(k == "__proto__") && !(objectPrototypeFunctions.contains k)

/-- A key that is neither an array index nor the name of a property of
`Object.prototype`. -/
def plainKey (k : String) : Bool :=
  (arrayIndex k).isNone && ownKey k

/-! ## Doubles

The numbers of `(count / total) * 100` are doubles.  A double is held as the rational
number it is equal to; a count is below `2 ^ 32`, the bound of an array length, and is a
double as it stands. -/

/-- The integer nearest to `x`, the even one of two. -/
def roundHalfEven (x : ℚ) : ℤ :=
  if x - ⌊x⌋ < 1 / 2 then ⌊x⌋
  else if 1 / 2 < x - ⌊x⌋ then ⌊x⌋ + 1
  else if ⌊x⌋ % 2 = 0 then ⌊x⌋ else ⌊x⌋ + 1

/-- The double nearest to `x`, for `|x|` below `2 ^ 1023`: with `2 ^ e ≤ |x| < 2 ^ (e + 1)`
the doubles next to `x` are the multiples of `2 ^ (e - 52)`, and the multiples of
`2 ^ (-1074)` when `e` is below `-1022`; of two nearest ones the even multiple is taken. -/
def toDouble (x : ℚ) : ℚ :=
  if x = 0 then 0
  else
    let e := Int.log 2 |x|
    let ulp : ℚ := 2 ^ max (e - 52) (-1074)
    roundHalfEven (x / ulp) * ulp

/-- The quotient `a / b` of two doubles, for `b` other than zero. -/
def doubleDiv (a b : ℚ) : ℚ := toDouble (a / b)

/-- The product `a * b` of two doubles. -/
def doubleMul (a b : ℚ) : ℚ := toDouble (a * b)

/-! ## The language distribution -/

/-- A value that `colors[language] || fallback` gives: a string, or the property
that the object `colors` inherits from `Object.prototype` under the name given. -/
inductive ColorValue where
  | str : String → ColorValue
  | inherited : String → ColorValue
  deriving DecidableEq

/-- An element of the array returned by `analyzeLanguages`. -/
structure LanguageEntry where
  name : String
  count : Nat
  percentage : String
  color : ColorValue
  deriving DecidableEq

/-- The method `getLanguageColor(language)`: the table `colors`, the properties that the
table inherits (functions and, for `__proto__`, an object: all of them truthy), and the
fallback grey. -/
def getLanguageColor (language : String) : ColorValue :=
  if language = "JavaScript" then ColorValue.str "#f1e05a"
  else if language = "TypeScript" then ColorValue.str "#2b7489"
  else if language = "Python" then ColorValue.str "#3572A5"
  else if language = "Java" then ColorValue.str "#b07219"
  else if language = "C++" then ColorValue.str "#f34b7d"
  else if language = "C" then ColorValue.str "#555555"
  else if language = "C#" then ColorValue.str "#178600"
  else if language = "Ruby" then ColorValue.str "#701516"
  else if language = "Go" then ColorValue.str "#00ADD8"
  else if language = "Rust" then ColorValue.str "#dea584"
  else if language = "PHP" then ColorValue.str "#4F5D95"
  else if language = "Swift" then ColorValue.str "#ffac45"
  else if language = "Kotlin" then ColorValue.str "#F18E33"
  else if language = "HTML" then ColorValue.str "#e34c26"
  else if language = "CSS" then ColorValue.str "#563d7c"
  else if language = "Shell" then ColorValue.str "#89e051"
  else if language = "Jupyter Notebook" then ColorValue.str "#DA5B0B"
  else if language = "__proto__" ∨ language ∈ objectPrototypeFunctions then
    ColorValue.inherited language
  else ColorValue.str "#8b8b8b"

/-- The integer `n` of `x.toFixed(1)` for a double `x >= 0`: the integer for which
`n / 10 - x` is closest to zero, the larger one of two. -/
def toFixed1.tenths (x : ℚ) : ℤ := ⌊x * 10 + 1 / 2⌋

/-- The string `x.toFixed(1)` for a double `x >= 0`: the digits of `n` with a point before
the last one. -/
def toFixed1 (x : ℚ) : String :=
  let n := (toFixed1.tenths x).toNat
  toString (n / 10) ++ "." ++ toString (n % 10)

/-- The callback of `forEach` in `analyzeLanguages`, applied to the object `langCount`
and a repository; `none` is an object that holds a string in the place of a count.

When the language is called `__proto__` the read gives the object `Object.prototype`, the
sum is a string, and the write goes to the inherited setter, which ignores a string: the
object stays as it is.  When the language is called like an inherited function the read
gives that function, the sum is a string and the write stores it: from there on the
object holds a string among its counts, the comparator of the sort gives `NaN` and the
order of the result is up to the engine.  That case is `none`. -/
def analyzeLanguages.count (langCount : Option (List (String × Nat))) (repo : Repo) :
    Option (List (String × Nat)) :=
  if truthy repo.language then
    match repo.language with
    | some l =>
      if l = "__proto__" then langCount
      else if l ∈ objectPrototypeFunctions then none
      else langCount.map fun o => objIncr o l
    | none => langCount
  else langCount

/-- The object `langCount` of `analyzeLanguages` after the `forEach`. -/
def analyzeLanguages.langCount (repos : List Repo) : Option (List (String × Nat)) :=
  repos.foldl analyzeLanguages.count (some [])

/-- The callback of `map` in `analyzeLanguages`: the entry of the pair `[name, count]`.
It is called only on an entry of `langCount`, and then `total` is positive. -/
def analyzeLanguages.entry (total : Nat) (p : String × Nat) : LanguageEntry :=
  { name := p.1
    count := p.2
    percentage := toFixed1 (doubleMul (doubleDiv (p.2 : ℚ) (total : ℚ)) 100)
    color := getLanguageColor p.1 }

/-- The array of `analyzeLanguages` after `map` and `sort`, before `slice`. -/
def analyzeLanguages.sorted (repos : List Repo) : Option (List LanguageEntry) :=
  (analyzeLanguages.langCount repos).map fun langCount =>
    let total : Nat := ((objEntries langCount).map fun p => p.2).foldl (fun a b => a + b) 0
    jsSort (fun a b => (b.count : Int) - (a.count : Int))
      ((objEntries langCount).map (analyzeLanguages.entry total))

/-- The method `analyzeLanguages(repos)`: the sorted array cut by `slice(0, 6)`. -/
def analyzeLanguages (repos : List Repo) : Option (List LanguageEntry) :=
  (analyzeLanguages.sorted repos).map fun languages => languages.take 6

/-! ## The activity timeline -/

/-- One square of the timeline that `displayActivity` appends to the page. -/
structure ActivityDay where
  dateStr : String
  count : Nat
  level : Nat
  className : String
  title : String
  deriving DecidableEq

/-- The object `activityMap` of `displayActivity` after the `forEach`; `dateOf t` is
`new Date(t).toISOString().split('T')[0]`, the UTC date of a time value. -/
def displayActivity.activityMap (dateOf : Int → String) (events : List Event) :
    List (String × Nat) :=
  events.foldl (fun activityMap event => objIncr activityMap (dateOf event.created_at)) []

/-- Body of the `for` loop of `displayActivity` for the index `i`; `setDateBack t i` is the
time value of `new Date(t)` after `setDate(getDate() - i)`. -/
def displayActivity.day (dateOf : Int → String) (setDateBack : Int → Nat → Int) (today : Int)
    (activityMap : List (String × Nat)) (i : Nat) : ActivityDay :=
  let date := setDateBack today i
  let dateStr := dateOf date
  let count := (objGet activityMap dateStr).getD 0
  let level := 0
  let level := if count > 0 then 1 else level
  let level := if count ≥ 3 then 2 else level
  let level := if count ≥ 5 then 3 else level
  let level := if count ≥ 8 then 4 else level
  { dateStr := dateStr
    count := count
    level := level
    className := "activity-day level-" ++ toString level
    title := dateStr ++ ": " ++ toString count ++ " events" }

/-- The loop `for (let i = start; i >= 0; i--)` appending `body i` to the container. -/
def displayActivity.loop (body : Nat → ActivityDay) : Nat → List ActivityDay → List ActivityDay
  | 0, container => container ++ [body 0]
  | i + 1, container => displayActivity.loop body i (container ++ [body (i + 1)])

/-- The method `displayActivity(events)`: the squares appended to the emptied container;
`today` is the time value of `new Date()`. -/
def displayActivity (dateOf : Int → String) (setDateBack : Int → Nat → Int) (today : Int)
    (events : List Event) : List ActivityDay :=
  let activityMap := displayActivity.activityMap dateOf events
  displayActivity.loop (displayActivity.day dateOf setDateBack today activityMap) 89 []

/-! ## The start of an analysis -/

/-- The code points that `String.prototype.trim` removes: the white space and the line
terminators of the language. -/
def isJsWhitespace (c : Char) : Bool :=
  let n := c.val.toNat
  n = 0x09 || n = 0x0A || n = 0x0B || n = 0x0C || n = 0x0D || n = 0x20 || n = 0xA0 ||
  n = 0x1680 || (0x2000 ≤ n && n ≤ 0x200A) || n = 0x2028 || n = 0x2029 || n = 0x202F ||
  n = 0x205F || n = 0x3000 || n = 0xFEFF

/-- The method `trim()` on the characters of a string. -/
def jsTrimChars (s : List Char) : List Char :=
  ((s.dropWhile isJsWhitespace).reverse.dropWhile isJsWhitespace).reverse

/-- The method `trim()`. -/
def jsTrim (s : String) : String := String.mk (jsTrimChars s.data)

/-- What `startAnalysis` does to the page and to the network: an error message shown, the
loading section shown, or the call of `analyzeProfile`, the only caller of
`fetchGitHubAPI`. -/
inductive Action where
  | showError : String → Action
  | showLoading : Action
  | analyzeProfile : String → Action
  deriving DecidableEq

/-- The method `startAnalysis()` as the list of its actions, `value` being the content of
the input field; the handling of a failure of `analyzeProfile` is left out. -/
def startAnalysis (value : String) : List Action :=
  let input := jsTrim value
  if !(truthy (some input)) then [Action.showError "Please enter a GitHub username"]
  else
    let username := extractUsername input
    if !(truthy username) then [Action.showError "Please enter a valid GitHub username"]
    else
      match username with
      | some u => [Action.showLoading, Action.analyzeProfile u]
      | none => [Action.showError "Please enter a valid GitHub username"]

/-! ## The rubric in the words of the specification

Definitions that follow the sentences of the specification, to be compared with the
embedding of the code above. -/

namespace Spec

/-- A string-or-absent field is present: it holds a string with at least one character,
which is what the tests of the code (`if (repo.homepage)`) accept. -/
def present (f : Option String) : Prop := truthy f = true

instance (f : Option String) : Decidable (present f) := by
  unfold present; infer_instance

/-- Number of topics of a repository, zero when the field is missing. -/
def topicCount (r : Repo) : Nat :=
  match r.topics with
  | some ts => ts.length
  | none => 0

/-- The topics of a repository are non-empty. -/
def topicsNonEmpty (r : Repo) : Prop := 0 < topicCount r

instance (r : Repo) : Decidable (topicsNonEmpty r) := by
  unfold topicsNonEmpty; infer_instance

/-- Raw documentation points of one repository: +4 for a description longer than 20,
+2 for a description of length at most 20, +3 for a positive size, +2 for a homepage,
+1 for non-empty topics. -/
def rawPoints (r : Repo) : Nat :=
  (if present r.description ∧ strLength r.description > 20 then 4 else 0) +
  (if present r.description ∧ strLength r.description ≤ 20 then 2 else 0) +
  (if r.size > 0 then 3 else 0) +
  (if present r.homepage then 2 else 0) +
  (if topicsNonEmpty r then 1 else 0)

/-- Documentation score: the average raw points, divided by 10, times 20, capped at 20;
zero for no repository. -/
def documentationScore (repos : List Repo) : ℚ :=
  if repos = [] then 0
  else min 20 ((((repos.map rawPoints).sum : ℚ) / (repos.length : ℚ) / 10) * 20)

/-- A repository counts as structured: size above 100, or at least two topics, or at
least one stargazer. -/
def structured (r : Repo) : Prop :=
  r.size > 100 ∨ topicCount r ≥ 2 ∨ r.stargazers_count > 0

instance (r : Repo) : Decidable (structured r) := by
  unfold structured; infer_instance

/-- Number of structured repositories of a list. -/
def structuredCount (repos : List Repo) : Nat :=
  repos.countP fun r => decide (structured r)

/-- Structure score: the share of structured repositories times 20, rounded; zero for no
repository. -/
def structureScore (repos : List Repo) : ℚ :=
  if repos = [] then 0
  else ((jsRound (((structuredCount repos : ℚ) / (repos.length : ℚ)) * 20) : ℤ) : ℚ)

/-- The 30-day ladder of the activity score. -/
def L30 (r : Nat) : Nat :=
  if r ≥ 20 then 10 else if r ≥ 10 then 7 else if r ≥ 5 then 5 else if r ≥ 1 then 3 else 0

/-- The 90-day ladder of the activity score. -/
def L90 (m : Nat) : Nat :=
  if m ≥ 40 then 10 else if m ≥ 20 then 7 else if m ≥ 10 then 5 else if m ≥ 5 then 3 else 0

/-- Milliseconds in a day. -/
def dayMs : Int := 86400000

/-- Number of events created strictly later than `now` minus `days` days. -/
def eventsWithin (days : Int) (events : List Event) (now : Int) : Nat :=
  events.countP fun e => decide (now - days * dayMs < e.created_at)

/-- Activity score: the two ladders added, capped at 20. -/
def activityScore (events : List Event) (now : Int) : Nat :=
  min 20 (L30 (eventsWithin 30 events now) + L90 (eventsWithin 90 events now))

/-- The ladder of the total stargazer count. -/
def starLadder (n : Nat) : Nat :=
  if n ≥ 100 then 7 else if n ≥ 50 then 5 else if n ≥ 20 then 4 else if n ≥ 10 then 3
  else if n ≥ 5 then 2 else if n ≥ 1 then 1 else 0

/-- The ladder of the total fork count and of the total watcher count. -/
def countLadder (n : Nat) : Nat :=
  if n ≥ 20 then 4 else if n ≥ 10 then 3 else if n ≥ 5 then 2 else if n ≥ 1 then 1 else 0

/-- Total stargazer count of a list of repositories. -/
def totalStars (repos : List Repo) : Nat := (repos.map fun r => r.stargazers_count).sum

/-- Total fork count of a list of repositories. -/
def totalForks (repos : List Repo) : Nat := (repos.map fun r => r.forks_count).sum

/-- Total watcher count of a list of repositories. -/
def totalWatchers (repos : List Repo) : Nat := (repos.map fun r => r.watchers_count).sum

/-- Impact score: the three ladders added, capped at 15. -/
def impactScore (repos : List Repo) : Nat :=
  min 15 (starLadder (totalStars repos) + countLadder (totalForks repos) +
    countLadder (totalWatchers repos))

/-- The ladder of the number of distinct languages. -/
def langLadder (n : Nat) : Nat :=
  if n ≥ 5 then 5 else if n ≥ 3 then 3 else if n ≥ 2 then 2 else if n ≥ 1 then 1 else 0

/-- The ladder of the number of repositories. -/
def repoLadder (n : Nat) : Nat :=
  if n ≥ 20 then 5 else if n ≥ 10 then 4 else if n ≥ 5 then 3 else if n ≥ 3 then 2
  else if n ≥ 1 then 1 else 0

/-- The primary language of a repository when it is present. -/
def presentLanguage (r : Repo) : Option String :=
  if present r.language then r.language else none

/-- Number of distinct present primary languages of a list of repositories. -/
def distinctLanguages (repos : List Repo) : Nat :=
  ((repos.filterMap presentLanguage).toFinset).card

/-- Technical-depth score: the two ladders added, capped at 10. -/
def technicalDepthScore (repos : List Repo) : Nat :=
  min 10 (langLadder (distinctLanguages repos) + repoLadder repos.length)

/-- Profile completeness: bio +2, location +1, blog +1, company +1. -/
def profilePoints (p : Profile) : Nat :=
  (if present p.bio then 2 else 0) + (if present p.location then 1 else 0) +
  (if present p.blog then 1 else 0) + (if present p.company then 1 else 0)

/-- A quality repository: at least one stargazer, or a description longer than 30. -/
def quality (r : Repo) : Prop :=
  r.stargazers_count > 0 ∨ strLength r.description > 30

instance (r : Repo) : Decidable (quality r) := by
  unfold quality; infer_instance

/-- Number of quality repositories of a list. -/
def qualityCount (repos : List Repo) : Nat :=
  repos.countP fun r => decide (quality r)

/-- The ladder of the number of quality repositories. -/
def qualityLadder (n : Nat) : Nat :=
  if n ≥ 6 then 5 else if n ≥ 3 then 3 else if n ≥ 1 then 1 else 0

/-- Fraction of the repositories whose name contains the character `c`. -/
def nameFraction (c : Char) (repos : List Repo) : ℚ :=
  ((repos.countP fun r => includes r.name c : Nat) : ℚ) / (repos.length : ℚ)

/-- Naming consistency: 5 when the hyphen fraction or the underscore fraction exceeds 0.6,
otherwise 2. -/
def namingPoints (repos : List Repo) : Nat :=
  if nameFraction '-' repos > 0.6 ∨ nameFraction '_' repos > 0.6 then 5 else 2

/-- Organization score: completeness, quality ladder and naming points, capped at 15. -/
def organizationScore (p : Profile) (repos : List Repo) : Nat :=
  min 15 (profilePoints p + qualityLadder (qualityCount repos) + namingPoints repos)

/-- The strength sentences whose check is true, in the order of the checks. -/
def firedStrengths (a : Analysis) : List String :=
  (if a.metrics.documentation.score ≥ 15 then [strengthDocumentation] else []) ++
  (if a.metrics.activity.score ≥ 15 then [strengthActivity] else []) ++
  (if a.metrics.impact.score ≥ 10 then [strengthImpact] else []) ++
  (if a.metrics.technicalDepth.score ≥ 7 then [strengthDepth] else []) ++
  (if present a.profile.bio ∧ present a.profile.location ∧
      (present a.profile.blog ∨ present a.profile.company) then [strengthProfile] else []) ++
  (if (a.repos.countP fun r => !r.fork) ≥ 10 then [strengthPortfolio] else [])

/-- The strengths: the fired sentences, or the fallback sentence alone when none fired. -/
def strengths (a : Analysis) : List String :=
  if firedStrengths a = [] then [strengthFallback] else firedStrengths a

/-- Share of forks among the repositories. -/
def forkRatio (repos : List Repo) : ℚ :=
  ((repos.countP fun r => r.fork : Nat) : ℚ) / (repos.length : ℚ)

/-- The collection is non-empty and none of its repositories was created after
`sixMonthsAgo`. -/
def noRecentRepo (repos : List Repo) (sixMonthsAgo : Int) : Prop :=
  repos ≠ [] ∧ ∀ r ∈ repos, ¬ sixMonthsAgo < r.created_at

instance (repos : List Repo) (t : Int) : Decidable (noRecentRepo repos t) := by
  unfold noRecentRepo; infer_instance

/-- The red-flag sentences whose check is true, in the order of the checks. -/
def firedRedFlags (a : Analysis) (sixMonthsAgo : Int) : List String :=
  (if a.metrics.documentation.score < 10 then [flagDocumentation] else []) ++
  (if a.metrics.activity.score < 8 then [flagActivity] else []) ++
  (if a.metrics.impact.score < 5 then [flagImpact] else []) ++
  (if ¬ present a.profile.bio ∨ ¬ present a.profile.location then [flagProfile] else []) ++
  (if forkRatio a.repos > 0.7 ∧ a.repos.length > 5 then [flagForks] else []) ++
  (if a.metrics.technicalDepth.score < 4 then [flagDepth] else []) ++
  (if noRecentRepo a.repos sixMonthsAgo then [flagRecent] else [])

/-- The red flags: the fired sentences, or the fallback sentence alone when none fired. -/
def redFlags (a : Analysis) (sixMonthsAgo : Int) : List String :=
  if firedRedFlags a sixMonthsAgo = [] then [flagFallback] else firedRedFlags a sixMonthsAgo

/-- The generated recommendations, in the order of generation. -/
def generated (a : Analysis) : List Recommendation :=
  (if a.metrics.documentation.score < 15 then [recDocumentation] else []) ++
  (if a.metrics.activity.score < 12 then [recActivity] else []) ++
  (if ¬ present a.profile.bio ∨ ¬ present a.profile.location ∨ ¬ present a.profile.blog then
    [recProfile] else []) ++
  (if a.metrics.impact.score < 8 then [recImpact] else []) ++
  [recPin] ++
  (if a.metrics.technicalDepth.score < 6 then [recStack] else []) ++
  (if a.metrics.organization.score < 10 then [recOrganization] else []) ++
  [recTesting]

/-- Stable sort by priority: the high records, then the medium ones, then the low ones,
each group in the order of the input. -/
def stableSortByPriority (l : List Recommendation) : List Recommendation :=
  (l.filter fun r => decide (r.priority = Priority.high)) ++
  (l.filter fun r => decide (r.priority = Priority.medium)) ++
  (l.filter fun r => decide (r.priority = Priority.low))

/-- The generated recommendations as a function of the truth values of the six conditions,
in the order documentation, activity, profile, impact, technical stack, organization. -/
def generatedOf (b1 b2 b3 b4 b5 b6 : Bool) : List Recommendation :=
  (if b1 then [recDocumentation] else []) ++
  (if b2 then [recActivity] else []) ++
  (if b3 then [recProfile] else []) ++
  (if b4 then [recImpact] else []) ++
  [recPin] ++
  (if b5 then [recStack] else []) ++
  (if b6 then [recOrganization] else []) ++
  [recTesting]

/-- Number of conditional recommendations that an analysis generates. -/
def conditionalCount (a : Analysis) : Nat :=
  (if a.metrics.documentation.score < 15 then 1 else 0) +
  (if a.metrics.activity.score < 12 then 1 else 0) +
  (if ¬ present a.profile.bio ∨ ¬ present a.profile.location ∨ ¬ present a.profile.blog then
    1 else 0) +
  (if a.metrics.impact.score < 8 then 1 else 0) +
  (if a.metrics.technicalDepth.score < 6 then 1 else 0) +
  (if a.metrics.organization.score < 10 then 1 else 0)

/-- The rank of a repository: stargazers times 3 plus forks times 2 plus watchers. -/
def rank (r : Repo) : Nat := r.stargazers_count * 3 + r.forks_count * 2 + r.watchers_count

/-- The intensity level of a day: 0 for no event, 1 for 1 or 2, 2 for 3 or 4, 3 for 5 to 7,
4 from 8 on. -/
def levelOf (count : Nat) : Nat :=
  if count = 0 then 0 else if count ≤ 2 then 1 else if count ≤ 4 then 2
  else if count ≤ 7 then 3 else 4

/-- Number of events whose UTC date is `dateStr`. -/
def eventsOn (dateOf : Int → String) (events : List Event) (dateStr : String) : Nat :=
  events.countP fun e => decide (dateOf e.created_at = dateStr)

/-- The present primary languages of the repositories, one per repository that has one,
in the order of the repositories. -/
def presentLanguages (repos : List Repo) : List String := repos.filterMap presentLanguage

/-- The distinct elements of a list in the order of their first appearance. -/
def firstOccurrences : List String → List String
  | [] => []
  | x :: xs => x :: (firstOccurrences xs).filter fun y => decide (y ≠ x)

/-- Number of repositories whose present primary language is `l`. -/
def languageCount (repos : List Repo) (l : String) : Nat :=
  repos.countP fun r => decide (presentLanguage r = some l)

/-- The share `count / total * 100`, the total being the number of repositories with a
present language. -/
def share (repos : List Repo) (count : Nat) : ℚ :=
  ((count : ℚ) / ((presentLanguages repos).length : ℚ)) * 100

/-- The distinct present languages in the order of first appearance, each with its
count. -/
def languageCounts (repos : List Repo) : List (String × Nat) :=
  (firstOccurrences (presentLanguages repos)).map fun l => (l, languageCount repos l)

/-- The number that a decimal writing with a point denotes: the digits before the point,
plus the digits after it over the power of ten of their number. -/
def decimalValue (s : String) : ℚ :=
  let whole := s.data.takeWhile fun c => c != '.'
  let fraction := (s.data.dropWhile fun c => c != '.').drop 1
  (digitsValue whole : ℚ) + (digitsValue fraction : ℚ) / 10 ^ fraction.length

/-- The list `s` begins with the list `p`. -/
def startsWith (p s : List Char) : Bool := decide (s.take p.length = p)

/-- The four ways a profile address can begin: scheme `https` or `http`, host `github.com`
with or without `www.`, and the slash after the host. -/
def hostStarts : List (List Char) :=
  ["https://www.github.com/".data, "https://github.com/".data,
   "http://www.github.com/".data, "http://github.com/".data]

/-- What is left of an input after the host part is removed: the input without its start
when it starts with one of `hostStarts`, the whole input otherwise. -/
def afterHost (s : List Char) : List Char :=
  match hostStarts.find? fun p => startsWith p s with
  | some p => s.drop p.length
  | none => s

/-- What is left of an input after one slash at its end is removed. -/
def withoutTrailingSlash (s : List Char) : List Char :=
  match s.reverse with
  | '/' :: t => t.reverse
  | _ => s

/-- An input without an account name: after the host part and one trailing slash are
removed it is empty or begins with a slash. -/
def rejected (input : List Char) : Prop :=
  withoutTrailingSlash (afterHost input) = [] ∨
    (withoutTrailingSlash (afterHost input)).head? = some '/'

end Spec

end PortfolioAnalyzer

namespace PortfolioAnalyzer

/-! ## Concrete inputs -/

/-- A profile with bio, location and blog set and no company. -/
def scenarioProfile : Profile :=
  { bio := some "Developer", location := some "Pune", blog := some "https://example.org",
    company := none }

/-- A non-fork repository with a description of 34 characters, a positive size, no
homepage and no topics. -/
def scenarioRepo : Repo :=
  { name := "analyzer", fork := false,
    description := some "A tool that scores GitHub profiles",
    size := 120, homepage := none, topics := some [], language := some "JavaScript",
    stargazers_count := 0, forks_count := 0, watchers_count := 0, created_at := 0 }

/-- Twelve copies of `scenarioRepo`. -/
def scenarioRepos : List Repo := List.replicate 12 scenarioRepo

/-- A forked repository with many stars, forks and watchers. -/
def scenarioFork : Repo :=
  { name := "big-fork", fork := true,
    description := some "A fork of a widely used open-source library",
    size := 90000, homepage := some "https://example.org", topics := some ["a", "b", "c"],
    language := some "Rust",
    stargazers_count := 5000, forks_count := 700, watchers_count := 5000, created_at := 0 }

/-- A non-fork repository with a description of 22 characters, size 1, no homepage, no
topics, no language and no star, fork or watcher. -/
def plainRepo : Repo :=
  { name := "demo", fork := false,
    description := some "A small demo of things",
    size := 1, homepage := none, topics := none, language := none,
    stargazers_count := 0, forks_count := 0, watchers_count := 0, created_at := 0 }

/-- Twelve copies of `plainRepo`. -/
def plainRepos : List Repo := List.replicate 12 plainRepo

/-- One hundred events seen from the time 0: fifty created one second before, fifty
created forty days before. -/
def scenarioEvents : List Event :=
  List.replicate 50 { created_at := -1000 } ++ List.replicate 50 { created_at := -3456000000 }

/-- A profile with no field set. -/
def emptyProfile : Profile :=
  { bio := none, location := none, blog := none, company := none }

/-- A non-fork repository whose primary language is `l`. -/
def languageRepo (l : String) : Repo :=
  { name := "project", fork := false, description := none, size := 10, homepage := none,
    topics := none, language := some l,
    stargazers_count := 0, forks_count := 0, watchers_count := 0, created_at := 0 }

/-- Seven repositories in seven languages. -/
def sevenLanguages : List Repo :=
  ["C", "Go", "Rust", "Java", "Ruby", "PHP", "Swift"].map languageRepo

/-- Six repositories in three languages: three in Go, two in C, one in Rust, C coming
first. -/
def mixedLanguages : List Repo :=
  ["C", "Go", "Rust", "Go", "C", "Go"].map languageRepo

/-- Two repositories whose languages are called `2` and `1`, in this order. -/
def indexLanguages : List Repo :=
  ["2", "1"].map languageRepo

/-- Eighty repositories: twenty-three in Go, then fifty-seven in C. -/
def goAndC : List Repo :=
  List.replicate 23 (languageRepo "Go") ++ List.replicate 57 (languageRepo "C")

/-- The UTC day number of a time value, written in decimal: a stand-in for the date string
of `toISOString`, equal for two time values exactly when they lie on the same UTC day. -/
def utcDay (t : Int) : String := toString (t / 86400000)

/-- The time value `i` days of 24 hours before `t`: what `setDate(getDate() - i)` gives in
a time zone without clock changes. -/
def minusDays (t : Int) (i : Nat) : Int := t - i * 86400000

end PortfolioAnalyzer

/-! # Theorems -/

namespace PortfolioAnalyzer

/-! ## Auxiliary facts about the loops -/

theorem docLoop_foldl (repos : List Repo) (a b : Nat) :
    repos.foldl (fun acc repo => (acc.1 + analyzeDocumentation.repoScore repo, acc.2 + 1)) (a, b)
      = (a + (repos.map analyzeDocumentation.repoScore).sum, b + repos.length) := by
  induction repos generalizing a b with
  | nil => simp
  | cons r rs ih =>
    simp only [List.foldl_cons, List.map_cons, List.sum_cons, List.length_cons]
    rw [ih]
    ext <;> simp <;> omega

theorem docLoop_eq (repos : List Repo) :
    analyzeDocumentation.loop repos
      = ((repos.map analyzeDocumentation.repoScore).sum, repos.length) := by
  unfold analyzeDocumentation.loop
  rw [docLoop_foldl]
  simp

theorem repoScore_eq_rawPoints (r : Repo) :
    analyzeDocumentation.repoScore r = Spec.rawPoints r := by
  obtain ⟨name, fork, desc, size, hp, topics, lang, st, fk, wt, cr⟩ := r
  simp only [analyzeDocumentation.repoScore, Spec.rawPoints, Spec.present, Spec.topicsNonEmpty,
    Spec.topicCount]
  rcases topics with _ | ts <;>
    by_cases hd : truthy desc = true <;> by_cases hh : truthy hp = true <;>
    by_cases hs : size > 0 <;> by_cases hl : strLength desc > 20 <;>
    simp [hd, hh, hs, hl, Nat.le_of_not_lt] <;> (try cases ts <;> simp) <;> omega

theorem rawPoints_le_ten (r : Repo) : Spec.rawPoints r ≤ 10 := by
  unfold Spec.rawPoints
  by_cases hl : strLength r.description > 20
  · have h2 : ¬ (Spec.present r.description ∧ strLength r.description ≤ 20) := by
      intro h; omega
    simp only [h2, if_false]
    split_ifs <;> omega
  · have h4 : ¬ (Spec.present r.description ∧ strLength r.description > 20) := by
      intro h; exact hl h.2
    simp only [h4, if_false]
    split_ifs <;> omega

theorem truthy_of_jsLength_pos (d : String) (h : 0 < jsLength d) : truthy (some d) = true := by
  unfold truthy
  unfold jsLength at h
  cases hd : d.data with
  | nil => rw [hd] at h; simp at h
  | cons c cs => simp [hd]

theorem analyzeDocumentation_score_eq (repos : List Repo) :
    (analyzeDocumentation repos).score = Spec.documentationScore repos := by
  have hmap : repos.map analyzeDocumentation.repoScore = repos.map Spec.rawPoints :=
    List.map_congr_left fun r _ => repoScore_eq_rawPoints r
  unfold analyzeDocumentation Spec.documentationScore
  simp only [docLoop_eq, hmap]
  cases repos with
  | nil => simp
  | cons r rs => simp

/-! ## C3, C4: the documentation scorer -/

/-- C3: for every list of repositories the score of `analyzeDocumentation` is
`min(20, (sum of raw points / number of repos / 10) * 20)`, and 0 for the empty list; the
points the loop gives one repository are its raw points (+4 or +2 for the description,
+3 for the size, +2 for the homepage, +1 for the topics), at most 10, and 0 for a
repository with none of these. -/
theorem analyzeDocumentation_score_spec (repos : List Repo) :
    (analyzeDocumentation repos).score = Spec.documentationScore repos ∧
    (analyzeDocumentation []).score = 0 ∧
    (∀ r : Repo, analyzeDocumentation.repoScore r = Spec.rawPoints r) ∧
    (∀ r : Repo, Spec.rawPoints r ≤ 10) ∧
    (∀ r : Repo, ¬ Spec.present r.description → r.size = 0 → ¬ Spec.present r.homepage →
      ¬ Spec.topicsNonEmpty r → Spec.rawPoints r = 0) := by
  refine ⟨analyzeDocumentation_score_eq repos, ?_, repoScore_eq_rawPoints, rawPoints_le_ten, ?_⟩
  · rw [analyzeDocumentation_score_eq]; simp [Spec.documentationScore]
  · intro r hd hs hh ht
    simp [Spec.rawPoints, hd, hs, hh, ht]

theorem documentation_score_of_points (repos : List Repo) (n k : Nat)
    (hlen : repos.length = n) (hn : 0 < n) (hpts : ∀ r ∈ repos, Spec.rawPoints r = k) :
    (analyzeDocumentation repos).score = min 20 (((k : ℚ) / 10) * 20) := by
  have hsum : (repos.map Spec.rawPoints).sum = n * k := by
    rw [List.map_congr_left hpts]
    simp [hlen]
  have hne : repos ≠ [] := by
    intro h; rw [h] at hlen; simp at hlen; omega
  have hn0 : (n : ℚ) ≠ 0 := by exact_mod_cast hn.ne'
  rw [analyzeDocumentation_score_eq]
  unfold Spec.documentationScore
  rw [if_neg hne, hsum, hlen]
  congr 2
  push_cast
  field_simp

theorem scenario_rawPoints (r : Repo)
    (h : (∃ d, r.description = some d ∧ 20 < jsLength d) ∧ 0 < r.size ∧
      ¬ Spec.present r.homepage ∧ ¬ Spec.topicsNonEmpty r) :
    Spec.rawPoints r = 7 := by
  obtain ⟨⟨d, hd, hdl⟩, hs, hh, ht⟩ := h
  have htr : Spec.present r.description := by
    rw [hd]; exact truthy_of_jsLength_pos d (by omega)
  have hl : strLength r.description > 20 := by rw [hd]; exact hdl
  have hnl : ¬ strLength r.description ≤ 20 := by omega
  simp [Spec.rawPoints, htr, hl, hnl, hs, hh, ht]

theorem scenarioRepos_ok :
    (scenarioRepos.filter fun r => !r.fork).length = 12 ∧
    ∀ r ∈ scenarioRepos, r.fork = false →
      (∃ d, r.description = some d ∧ 20 < jsLength d) ∧ 0 < r.size ∧
        ¬ Spec.present r.homepage ∧ ¬ Spec.topicsNonEmpty r := by
  refine ⟨by decide, ?_⟩
  intro r hr _
  have hr' : r = scenarioRepo := by
    simpa [scenarioRepos, List.mem_replicate] using hr
  subst hr'
  exact ⟨⟨_, rfl, by decide⟩, by decide, by decide, by decide⟩

/-- C4 (as amended): when the non-fork repositories are 12 in number and each has a
description longer than 20, a positive size, no homepage and no topics, every one of them
has 4 + 3 = 7 raw points and the documentation sub-score that `performAnalysis` reports is
`(7/10)*20 = 14`. -/
theorem documentation_twelve_repos (profile : Profile) (repos : List Repo)
    (events : List Event) (now : Int)
    (hlen : (repos.filter fun r => !r.fork).length = 12)
    (hrepo : ∀ r ∈ repos, r.fork = false →
      (∃ d, r.description = some d ∧ 20 < jsLength d) ∧ 0 < r.size ∧
        ¬ Spec.present r.homepage ∧ ¬ Spec.topicsNonEmpty r) :
    (performAnalysis profile repos events now).metrics.documentation.score = (7 / 10) * 20 ∧
    (performAnalysis profile repos events now).metrics.documentation.score = 14 := by
  have hpts : ∀ r ∈ repos.filter (fun r => !r.fork), Spec.rawPoints r = 7 := by
    intro r hr
    rw [List.mem_filter] at hr
    exact scenario_rawPoints r (hrepo r hr.1 (by simpa using hr.2))
  have h := documentation_score_of_points _ 12 7 hlen (by decide) hpts
  have h14 : (performAnalysis profile repos events now).metrics.documentation.score = 14 := by
    show (analyzeDocumentation (repos.filter fun r => !r.fork)).score = 14
    rw [h]; norm_num
  exact ⟨by rw [h14]; norm_num, h14⟩

/-- Witness of C4 (as amended) on twelve copies of `scenarioRepo`. -/
theorem documentation_twelve_repos_witness :
    ((scenarioRepos.filter fun r => !r.fork).length = 12 ∧
      ∀ r ∈ scenarioRepos, r.fork = false →
        (∃ d, r.description = some d ∧ 20 < jsLength d) ∧ 0 < r.size ∧
          ¬ Spec.present r.homepage ∧ ¬ Spec.topicsNonEmpty r) ∧
    (performAnalysis scenarioProfile scenarioRepos [] 0).metrics.documentation.score
        = (7 / 10) * 20 ∧
    (performAnalysis scenarioProfile scenarioRepos [] 0).metrics.documentation.score = 14 :=
  ⟨scenarioRepos_ok, documentation_twelve_repos scenarioProfile scenarioRepos [] 0
    scenarioRepos_ok.1 scenarioRepos_ok.2⟩

/-- C4 as stated fails: twelve non-fork repositories, each with a description longer than
20, a positive size, no homepage and no topics, have a documentation sub-score of 14 and
not of 18. -/
theorem documentation_twelve_repos_not_18 :
    ((scenarioRepos.filter fun r => !r.fork).length = 12 ∧
      ∀ r ∈ scenarioRepos, r.fork = false →
        (∃ d, r.description = some d ∧ 20 < jsLength d) ∧ 0 < r.size ∧
          ¬ Spec.present r.homepage ∧ ¬ Spec.topicsNonEmpty r) ∧
    (performAnalysis scenarioProfile scenarioRepos [] 0).metrics.documentation.score = 14 ∧
    (performAnalysis scenarioProfile scenarioRepos [] 0).metrics.documentation.score ≠ 18 := by
  have hpts : ∀ r ∈ scenarioRepos.filter (fun r => !r.fork), Spec.rawPoints r = 7 := by
    intro r hr
    rw [List.mem_filter] at hr
    exact scenario_rawPoints r (scenarioRepos_ok.2 r hr.1 (by simpa using hr.2))
  have h := documentation_score_of_points _ 12 7 scenarioRepos_ok.1 (by decide) hpts
  have h14 : (performAnalysis scenarioProfile scenarioRepos [] 0).metrics.documentation.score
      = 14 := by
    show (analyzeDocumentation (scenarioRepos.filter fun r => !r.fork)).score = 14
    rw [h]; norm_num
  exact ⟨scenarioRepos_ok, h14, by rw [h14]; norm_num⟩

/-! ## C7: the structure scorer -/

theorem hasStructure_iff (r : Repo) :
    analyzeStructure.hasStructure r = true ↔ Spec.structured r := by
  obtain ⟨name, fork, desc, size, hp, topics, lang, st, fk, wt, cr⟩ := r
  simp only [analyzeStructure.hasStructure, Spec.structured, Spec.topicCount]
  rcases topics with _ | ts <;>
    by_cases hs : size > 100 <;> by_cases hst : st > 0 <;>
    simp [hs, hst]

theorem structLoop_foldl (repos : List Repo) (a : Nat) :
    repos.foldl (fun structuredRepos repo =>
      if analyzeStructure.hasStructure repo then structuredRepos + 1 else structuredRepos) a
      = a + Spec.structuredCount repos := by
  induction repos generalizing a with
  | nil => simp [Spec.structuredCount]
  | cons r rs ih =>
    simp only [List.foldl_cons, Spec.structuredCount, List.countP_cons]
    rw [ih]
    by_cases h : analyzeStructure.hasStructure r = true
    · have h2 : Spec.structured r := (hasStructure_iff r).1 h
      simp [h, h2, Spec.structuredCount]; omega
    · have h2 : ¬ Spec.structured r := fun hh => h ((hasStructure_iff r).2 hh)
      simp [h, h2, Spec.structuredCount]

theorem structLoop_eq (repos : List Repo) :
    analyzeStructure.loop repos = Spec.structuredCount repos := by
  unfold analyzeStructure.loop
  rw [structLoop_foldl]; simp

theorem structuredCount_le (repos : List Repo) : Spec.structuredCount repos ≤ repos.length :=
  List.countP_le_length _

theorem jsRound_half_up (x : ℚ) : ((jsRound x : ℤ) : ℚ) - 1 / 2 ≤ x ∧ x < (jsRound x : ℤ) + 1 / 2 := by
  unfold jsRound
  have h1 := Int.floor_le (x + 1 / 2)
  have h2 := Int.lt_floor_add_one (x + 1 / 2)
  constructor <;> linarith

theorem jsRound_bounds (x : ℚ) (N : ℤ) (h0 : 0 ≤ x) (h1 : x ≤ N) :
    0 ≤ jsRound x ∧ jsRound x ≤ N := by
  unfold jsRound
  constructor
  · apply Int.floor_nonneg.2; linarith
  · have : ⌊x + 1 / 2⌋ < N + 1 := by
      rw [Int.floor_lt]; push_cast; linarith
    omega

theorem analyzeStructure_score_eq (repos : List Repo) :
    (analyzeStructure repos).score = Spec.structureScore repos := by
  unfold analyzeStructure Spec.structureScore
  simp only [structLoop_eq]
  cases repos with
  | nil => norm_num [jsRound]
  | cons r rs => simp

/-- C7: for every list of repositories the score of `analyzeStructure` is
`round(structuredCount / total * 20)` with halves rounded up, where `structuredCount`
counts the repositories with size > 100 or at least 2 topics or stargazers > 0; for the
empty list the score is 0. -/
theorem analyzeStructure_score_spec (repos : List Repo) :
    (analyzeStructure repos).score = Spec.structureScore repos ∧
    (analyzeStructure []).score = 0 ∧
    (∀ r : Repo, analyzeStructure.hasStructure r = true ↔
      (r.size > 100 ∨ Spec.topicCount r ≥ 2 ∨ r.stargazers_count > 0)) ∧
    analyzeStructure.loop repos = Spec.structuredCount repos ∧
    (repos ≠ [] →
      (analyzeStructure repos).score - 1 / 2
          ≤ ((Spec.structuredCount repos : ℚ) / (repos.length : ℚ)) * 20 ∧
      ((Spec.structuredCount repos : ℚ) / (repos.length : ℚ)) * 20
          < (analyzeStructure repos).score + 1 / 2) := by
  refine ⟨analyzeStructure_score_eq repos, ?_, hasStructure_iff, structLoop_eq repos, ?_⟩
  · rw [analyzeStructure_score_eq]; simp [Spec.structureScore]
  · intro hne
    rw [analyzeStructure_score_eq]
    unfold Spec.structureScore
    rw [if_neg hne]
    exact jsRound_half_up _

/-! ## C5: the activity scorer -/

theorem analyzeActivity_score_eq (events : List Event) (repos : List Repo) (now : Int) :
    (analyzeActivity events repos now).score = (Spec.activityScore events now : ℚ) := by
  have h30 : (events.filter fun e => decide (e.created_at > now - 30 * 24 * 60 * 60 * 1000)).length
      = Spec.eventsWithin 30 events now := by
    rw [Spec.eventsWithin, List.countP_eq_length_filter]
    congr 2
  have h90 : (events.filter fun e => decide (e.created_at > now - 90 * 24 * 60 * 60 * 1000)).length
      = Spec.eventsWithin 90 events now := by
    rw [Spec.eventsWithin, List.countP_eq_length_filter]
    congr 2
  simp only [analyzeActivity, h30, h90, Spec.activityScore, Spec.L30, Spec.L90, Nat.zero_add]
  congr 2
  split_ifs <;> rfl

/-- C5: for every event list and time `now` the score of `analyzeActivity` is
`min(20, L30(r) + L90(m))`, `r` and `m` being the numbers of events created strictly
later than `now` minus 30 days and minus 90 days; the repository argument does not
affect the result; `r >= 20` with `m >= 40` gives exactly 20. -/
theorem analyzeActivity_score_spec (events : List Event) (repos : List Repo) (now : Int) :
    (analyzeActivity events repos now).score
      = ((min 20 (Spec.L30 (Spec.eventsWithin 30 events now) +
          Spec.L90 (Spec.eventsWithin 90 events now)) : Nat) : ℚ) ∧
    (∀ repos2 : List Repo, analyzeActivity events repos2 now = analyzeActivity events repos now) ∧
    (Spec.eventsWithin 30 events now ≥ 20 → Spec.eventsWithin 90 events now ≥ 40 →
      (analyzeActivity events repos now).score = 20) := by
  refine ⟨analyzeActivity_score_eq events repos now, fun _ => rfl, ?_⟩
  intro hr hm
  rw [analyzeActivity_score_eq]
  simp [Spec.activityScore, Spec.L30, Spec.L90, hr, hm]

/-! ## C8: the impact scorer -/

theorem foldl_add_eq_sum (f : Repo → Nat) (repos : List Repo) (a : Nat) :
    repos.foldl (fun (sum : Nat) r => sum + f r) a = a + (repos.map f).sum := by
  induction repos generalizing a with
  | nil => simp
  | cons r rs ih => simp only [List.foldl_cons, List.map_cons, List.sum_cons]; rw [ih]; omega

theorem starLadder_acc (x n : Nat) :
    (if n ≥ 100 then x + 7 else if n ≥ 50 then x + 5 else if n ≥ 20 then x + 4
      else if n ≥ 10 then x + 3 else if n ≥ 5 then x + 2 else if n ≥ 1 then x + 1 else x)
      = x + Spec.starLadder n := by
  unfold Spec.starLadder; split_ifs <;> rfl

theorem countLadder_acc (x n : Nat) :
    (if n ≥ 20 then x + 4 else if n ≥ 10 then x + 3 else if n ≥ 5 then x + 2
      else if n ≥ 1 then x + 1 else x) = x + Spec.countLadder n := by
  unfold Spec.countLadder; split_ifs <;> rfl

theorem analyzeImpact_score_eq (repos : List Repo) :
    (analyzeImpact repos).score = (Spec.impactScore repos : ℚ) := by
  have h1 := foldl_add_eq_sum (fun r => r.stargazers_count) repos 0
  have h2 := foldl_add_eq_sum (fun r => r.forks_count) repos 0
  have h3 := foldl_add_eq_sum (fun r => r.watchers_count) repos 0
  rw [Nat.zero_add] at h1 h2 h3
  unfold analyzeImpact Spec.impactScore Spec.totalStars Spec.totalForks Spec.totalWatchers
  rw [h1, h2, h3]
  show ((min 15 _ : Nat) : ℚ) = _
  congr 2
  rw [countLadder_acc, countLadder_acc, starLadder_acc, Nat.zero_add]

/-- C8: for every list of repositories the score of `analyzeImpact` is `min(15, S + F + W)`,
the star ladder of the total stargazer count plus the count ladder of the total fork count
plus the count ladder of the total watcher count. -/
theorem analyzeImpact_score_spec (repos : List Repo) :
    (analyzeImpact repos).score
      = ((min 15 (Spec.starLadder (Spec.totalStars repos) +
          Spec.countLadder (Spec.totalForks repos) +
          Spec.countLadder (Spec.totalWatchers repos)) : Nat) : ℚ) :=
  analyzeImpact_score_eq repos

/-! ## C9: the technical-depth scorer -/

theorem langLadder_acc (x n : Nat) :
    (if n ≥ 5 then x + 5 else if n ≥ 3 then x + 3 else if n ≥ 2 then x + 2
      else if n ≥ 1 then x + 1 else x) = x + Spec.langLadder n := by
  unfold Spec.langLadder; split_ifs <;> rfl

theorem repoLadder_acc (x n : Nat) :
    (if n ≥ 20 then x + 5 else if n ≥ 10 then x + 4 else if n ≥ 5 then x + 3
      else if n ≥ 3 then x + 2 else if n ≥ 1 then x + 1 else x) = x + Spec.repoLadder n := by
  unfold Spec.repoLadder; split_ifs <;> rfl

theorem setAdd_nodup (ls : List String) (l : String) (h : ls.Nodup) : (setAdd ls l).Nodup := by
  unfold setAdd
  split_ifs with hm
  · exact h
  · rw [List.nodup_append]
    refine ⟨h, List.nodup_singleton l, ?_⟩
    intro a ha hb
    rw [List.mem_singleton] at hb
    subst hb
    exact hm ha

theorem mem_setAdd (ls : List String) (l x : String) : x ∈ setAdd ls l ↔ x ∈ ls ∨ x = l := by
  unfold setAdd
  split_ifs with hm
  · constructor
    · exact Or.inl
    · rintro (h | h)
      · exact h
      · rw [h]; exact hm
  · simp

theorem depthStep_eq (languages : List String) (r : Repo) :
    (if truthy r.language then
      match r.language with
      | some l => setAdd languages l
      | none => languages
    else languages)
      = match Spec.presentLanguage r with
        | some l => setAdd languages l
        | none => languages := by
  obtain ⟨name, fork, desc, size, hp, topics, lang, st, fk, wt, cr⟩ := r
  unfold Spec.presentLanguage Spec.present
  by_cases h : truthy lang = true
  · simp only [h, if_true]
  · simp only [h]; rfl

theorem depthLoop_foldl (repos : List Repo) (acc : List String) (hacc : acc.Nodup) :
    (repos.foldl (fun languages r =>
      if truthy r.language then
        match r.language with
        | some l => setAdd languages l
        | none => languages
      else languages) acc).Nodup ∧
    ∀ x, x ∈ repos.foldl (fun languages r =>
      if truthy r.language then
        match r.language with
        | some l => setAdd languages l
        | none => languages
      else languages) acc ↔ x ∈ acc ∨ x ∈ repos.filterMap Spec.presentLanguage := by
  induction repos generalizing acc with
  | nil => simp [hacc]
  | cons r rs ih =>
    simp only [List.foldl_cons]
    rw [depthStep_eq]
    cases hl : Spec.presentLanguage r with
    | none =>
      simp only [List.filterMap_cons, hl]
      exact ih acc hacc
    | some l =>
      simp only [List.filterMap_cons, hl]
      obtain ⟨h1, h2⟩ := ih (setAdd acc l) (setAdd_nodup acc l hacc)
      refine ⟨h1, fun x => ?_⟩
      rw [h2, mem_setAdd, List.mem_cons]
      tauto

theorem depthLoop_length (repos : List Repo) :
    (analyzeTechnicalDepth.loop repos).length = Spec.distinctLanguages repos := by
  obtain ⟨h1, h2⟩ := depthLoop_foldl repos [] List.nodup_nil
  unfold analyzeTechnicalDepth.loop Spec.distinctLanguages
  rw [← List.toFinset_card_of_nodup h1]
  congr 1
  ext x
  simp only [List.mem_toFinset]
  rw [h2]
  simp

theorem analyzeTechnicalDepth_score_eq (repos : List Repo) :
    (analyzeTechnicalDepth repos).score = (Spec.technicalDepthScore repos : ℚ) := by
  unfold analyzeTechnicalDepth Spec.technicalDepthScore
  show ((min 10 _ : Nat) : ℚ) = _
  congr 2
  rw [repoLadder_acc, langLadder_acc, Nat.zero_add, depthLoop_length]

/-- C9: for every list of repositories the score of `analyzeTechnicalDepth` is
`min(10, D + R)`, the language ladder of the number of distinct present primary languages
plus the repository ladder of the number of repositories; the set the loop builds has as
many members as there are distinct present languages. -/
theorem analyzeTechnicalDepth_score_spec (repos : List Repo) :
    (analyzeTechnicalDepth repos).score
      = ((min 10 (Spec.langLadder (Spec.distinctLanguages repos) +
          Spec.repoLadder repos.length) : Nat) : ℚ) ∧
    (analyzeTechnicalDepth.loop repos).length
      = ((repos.filterMap Spec.presentLanguage).toFinset).card :=
  ⟨analyzeTechnicalDepth_score_eq repos, depthLoop_length repos⟩

/-! ## C6: the organization scorer -/

theorem truthy_of_strLength_pos (f : Option String) (h : 0 < strLength f) :
    truthy f = true := by
  cases f with
  | none => simp [strLength] at h
  | some d => exact truthy_of_jsLength_pos d h

theorem qualityLadder_acc (x n : Nat) :
    (if n ≥ 6 then x + 5 else if n ≥ 3 then x + 3 else if n ≥ 1 then x + 1 else x)
      = x + Spec.qualityLadder n := by
  unfold Spec.qualityLadder; split_ifs <;> rfl

theorem present_acc (f : Option String) (x k : Nat) :
    (if truthy f = true then x + k else x) = x + (if Spec.present f then k else 0) := by
  unfold Spec.present; split_ifs <;> rfl

theorem naming_acc (c : Bool) (x : Nat) :
    (if c = true then x + 5 else x + 2) = x + (if c = true then 5 else 2) := by
  split_ifs <;> rfl

theorem qualityFilter_length (repos : List Repo) :
    (repos.filter fun r =>
      decide (r.stargazers_count > 0) ||
        (truthy r.description && decide (strLength r.description > 30))).length
      = Spec.qualityCount repos := by
  rw [Spec.qualityCount, List.countP_eq_length_filter]
  congr 2
  funext r
  by_cases hs : r.stargazers_count > 0
  · simp [Spec.quality, hs]
  · by_cases hl : strLength r.description > 30
    · have ht := truthy_of_strLength_pos r.description (by omega)
      simp [Spec.quality, hl, ht]
    · simp [Spec.quality, hs, hl]

theorem jsDiv_gt_of_pos (a b : Nat) (c : ℚ) (hb : b ≠ 0) :
    (jsDiv a b).gt c = decide (c < (a : ℚ) / (b : ℚ)) := by
  simp [jsDiv, hb, JSNum.gt]

theorem checkNamingConsistency_eq (repos : List Repo) (h : repos ≠ []) :
    (if checkNamingConsistency repos = true then 5 else 2) = Spec.namingPoints repos := by
  have hlen : repos.length ≠ 0 := by
    intro h0; exact h (List.length_eq_zero.1 h0)
  unfold checkNamingConsistency Spec.namingPoints Spec.nameFraction
  simp only [jsDiv_gt_of_pos _ _ _ hlen, List.countP_eq_length_filter, Bool.or_eq_true,
    decide_eq_true_eq, gt_iff_lt]

theorem analyzeOrganization_score_gen (profile : Profile) (repos : List Repo) :
    (analyzeOrganization profile repos).score
      = ((min 15 (Spec.profilePoints profile + Spec.qualityLadder (Spec.qualityCount repos) +
          (if checkNamingConsistency repos = true then 5 else 2)) : Nat) : ℚ) := by
  unfold analyzeOrganization Spec.profilePoints
  show ((min 15 _ : Nat) : ℚ) = _
  congr 2
  rw [naming_acc, qualityLadder_acc, present_acc, present_acc, present_acc, present_acc,
    Nat.zero_add, qualityFilter_length]

theorem analyzeOrganization_score_eq (profile : Profile) (repos : List Repo) (h : repos ≠ []) :
    (analyzeOrganization profile repos).score = (Spec.organizationScore profile repos : ℚ) := by
  rw [analyzeOrganization_score_gen, checkNamingConsistency_eq repos h]
  rfl

theorem profilePoints_le (profile : Profile) : Spec.profilePoints profile ≤ 5 := by
  unfold Spec.profilePoints; split_ifs <;> omega

/-- C6: for every profile and every non-empty list of repositories the score of
`analyzeOrganization` is `min(15, P + Q + N)`: `P` the profile completeness (bio 2,
location 1, blog 1, company 1), `Q` the ladder 5/3/1/0 of the number of repositories with
a stargazer or a description longer than 30, `N` equal to 5 when the fraction of names
with a hyphen or the fraction of names with an underscore exceeds 0.6 and to 2 otherwise. -/
theorem analyzeOrganization_score_spec (profile : Profile) (repos : List Repo)
    (h : repos ≠ []) :
    (analyzeOrganization profile repos).score
      = ((min 15 (Spec.profilePoints profile + Spec.qualityLadder (Spec.qualityCount repos) +
          Spec.namingPoints repos) : Nat) : ℚ) :=
  analyzeOrganization_score_eq profile repos h

/-- Witness of C6 on the profile `scenarioProfile` and twelve copies of `scenarioRepo`. -/
theorem analyzeOrganization_score_spec_witness :
    scenarioRepos ≠ [] ∧
    (analyzeOrganization scenarioProfile scenarioRepos).score
      = ((min 15 (Spec.profilePoints scenarioProfile +
          Spec.qualityLadder (Spec.qualityCount scenarioRepos) +
          Spec.namingPoints scenarioRepos) : Nat) : ℚ) :=
  ⟨by decide, analyzeOrganization_score_spec scenarioProfile scenarioRepos (by decide)⟩

/-! ## C10: no repository -/

/-- C10: with an empty repository collection `performAnalysis` reports documentation,
structure, impact and technical depth 0, and an organization score equal to the profile
completeness plus 2: no quality repository is counted, and the naming check on the empty
list compares `0 / 0`, which is `NaN`, and so answers false. -/
theorem performAnalysis_empty_repos (profile : Profile) (events : List Event) (now : Int) :
    (performAnalysis profile [] events now).metrics.documentation.score = 0 ∧
    (performAnalysis profile [] events now).metrics.structure_.score = 0 ∧
    (performAnalysis profile [] events now).metrics.impact.score = 0 ∧
    (performAnalysis profile [] events now).metrics.technicalDepth.score = 0 ∧
    (performAnalysis profile [] events now).metrics.organization.score
      = ((Spec.profilePoints profile + 2 : Nat) : ℚ) ∧
    Spec.qualityLadder (Spec.qualityCount []) = 0 ∧
    jsDiv 0 0 = JSNum.nan ∧
    checkNamingConsistency [] = false := by
  have hnaming : checkNamingConsistency [] = false := by
    simp [checkNamingConsistency, jsDiv, JSNum.gt]
  refine ⟨?_, ?_, ?_, ?_, ?_, by decide, by simp [jsDiv], hnaming⟩
  · show (analyzeDocumentation []).score = 0
    rw [analyzeDocumentation_score_eq]; simp [Spec.documentationScore]
  · show (analyzeStructure []).score = 0
    rw [analyzeStructure_score_eq]; simp [Spec.structureScore]
  · show (analyzeImpact []).score = 0
    rw [analyzeImpact_score_eq]
    simp [Spec.impactScore, Spec.totalStars, Spec.totalForks, Spec.totalWatchers,
      Spec.starLadder, Spec.countLadder]
  · show (analyzeTechnicalDepth []).score = 0
    rw [analyzeTechnicalDepth_score_eq]
    simp [Spec.technicalDepthScore, Spec.distinctLanguages, Spec.langLadder, Spec.repoLadder]
  · show (analyzeOrganization profile []).score = _
    rw [analyzeOrganization_score_gen, hnaming]
    have hp := profilePoints_le profile
    have hq : Spec.qualityLadder (Spec.qualityCount []) = 0 := by decide
    rw [hq]
    congr 1
    simp only [Bool.false_eq_true, if_false, Nat.add_zero]
    omega

/-! ## C1, C2: bounds and the overall score -/

theorem natScore_bounds (n s : Nat) :
    (0 : ℚ) ≤ ((min n s : Nat) : ℚ) ∧ ((min n s : Nat) : ℚ) ≤ (n : ℚ) := by
  constructor
  · exact Nat.cast_nonneg _
  · exact_mod_cast Nat.min_le_left n s

theorem analyzeDocumentation_bounds (repos : List Repo) :
    (analyzeDocumentation repos).maxScore = 20 ∧ 0 ≤ (analyzeDocumentation repos).score ∧
      (analyzeDocumentation repos).score ≤ 20 := by
  refine ⟨rfl, ?_, ?_⟩
  · rw [analyzeDocumentation_score_eq]
    unfold Spec.documentationScore
    split_ifs
    · exact le_refl _
    · apply le_min (by norm_num)
      positivity
  · rw [analyzeDocumentation_score_eq]
    unfold Spec.documentationScore
    split_ifs
    · norm_num
    · exact min_le_left _ _

theorem analyzeStructure_bounds (repos : List Repo) :
    (analyzeStructure repos).maxScore = 20 ∧ 0 ≤ (analyzeStructure repos).score ∧
      (analyzeStructure repos).score ≤ 20 := by
  refine ⟨rfl, ?_⟩
  rw [analyzeStructure_score_eq]
  unfold Spec.structureScore
  split_ifs with h
  · norm_num
  · have hlen : 0 < repos.length := List.length_pos.2 h
    have hq : (0 : ℚ) < (repos.length : ℚ) := by exact_mod_cast hlen
    have hle : (Spec.structuredCount repos : ℚ) ≤ (repos.length : ℚ) := by
      exact_mod_cast structuredCount_le repos
    have h0 : (0 : ℚ) ≤ ((Spec.structuredCount repos : ℚ) / (repos.length : ℚ)) * 20 := by
      positivity
    have h1 : ((Spec.structuredCount repos : ℚ) / (repos.length : ℚ)) * 20 ≤ ((20 : ℤ) : ℚ) := by
      have : (Spec.structuredCount repos : ℚ) / (repos.length : ℚ) ≤ 1 :=
        (div_le_one hq).2 hle
      push_cast; linarith
    obtain ⟨b0, b1⟩ := jsRound_bounds _ 20 h0 h1
    constructor
    · exact_mod_cast b0
    · exact_mod_cast b1

theorem analyzeActivity_bounds (events : List Event) (repos : List Repo) (now : Int) :
    (analyzeActivity events repos now).maxScore = 20 ∧
      0 ≤ (analyzeActivity events repos now).score ∧
      (analyzeActivity events repos now).score ≤ 20 := by
  refine ⟨rfl, ?_⟩
  rw [analyzeActivity_score_eq]
  exact_mod_cast natScore_bounds 20 _

theorem analyzeOrganization_bounds (profile : Profile) (repos : List Repo) :
    (analyzeOrganization profile repos).maxScore = 15 ∧
      0 ≤ (analyzeOrganization profile repos).score ∧
      (analyzeOrganization profile repos).score ≤ 15 := by
  refine ⟨rfl, ?_⟩
  rw [analyzeOrganization_score_gen]
  exact_mod_cast natScore_bounds 15 _

theorem analyzeImpact_bounds (repos : List Repo) :
    (analyzeImpact repos).maxScore = 15 ∧ 0 ≤ (analyzeImpact repos).score ∧
      (analyzeImpact repos).score ≤ 15 := by
  refine ⟨rfl, ?_⟩
  rw [analyzeImpact_score_eq]
  exact_mod_cast natScore_bounds 15 _

theorem analyzeTechnicalDepth_bounds (repos : List Repo) :
    (analyzeTechnicalDepth repos).maxScore = 10 ∧ 0 ≤ (analyzeTechnicalDepth repos).score ∧
      (analyzeTechnicalDepth repos).score ≤ 10 := by
  refine ⟨rfl, ?_⟩
  rw [analyzeTechnicalDepth_score_eq]
  exact_mod_cast natScore_bounds 10 _

/-- C1: for every profile, repository collection, event collection and time, each of the
six sub-metrics of `performAnalysis` has `0 <= score <= maxScore`, with `maxScore` 20 for
documentation, structure and activity, 15 for organization and impact, 10 for technical
depth. -/
theorem performAnalysis_scores_bounded (profile : Profile) (repos : List Repo)
    (events : List Event) (now : Int) :
    ((performAnalysis profile repos events now).metrics.documentation.maxScore = 20 ∧
      0 ≤ (performAnalysis profile repos events now).metrics.documentation.score ∧
      (performAnalysis profile repos events now).metrics.documentation.score
        ≤ (performAnalysis profile repos events now).metrics.documentation.maxScore) ∧
    ((performAnalysis profile repos events now).metrics.structure_.maxScore = 20 ∧
      0 ≤ (performAnalysis profile repos events now).metrics.structure_.score ∧
      (performAnalysis profile repos events now).metrics.structure_.score
        ≤ (performAnalysis profile repos events now).metrics.structure_.maxScore) ∧
    ((performAnalysis profile repos events now).metrics.activity.maxScore = 20 ∧
      0 ≤ (performAnalysis profile repos events now).metrics.activity.score ∧
      (performAnalysis profile repos events now).metrics.activity.score
        ≤ (performAnalysis profile repos events now).metrics.activity.maxScore) ∧
    ((performAnalysis profile repos events now).metrics.organization.maxScore = 15 ∧
      0 ≤ (performAnalysis profile repos events now).metrics.organization.score ∧
      (performAnalysis profile repos events now).metrics.organization.score
        ≤ (performAnalysis profile repos events now).metrics.organization.maxScore) ∧
    ((performAnalysis profile repos events now).metrics.impact.maxScore = 15 ∧
      0 ≤ (performAnalysis profile repos events now).metrics.impact.score ∧
      (performAnalysis profile repos events now).metrics.impact.score
        ≤ (performAnalysis profile repos events now).metrics.impact.maxScore) ∧
    ((performAnalysis profile repos events now).metrics.technicalDepth.maxScore = 10 ∧
      0 ≤ (performAnalysis profile repos events now).metrics.technicalDepth.score ∧
      (performAnalysis profile repos events now).metrics.technicalDepth.score
        ≤ (performAnalysis profile repos events now).metrics.technicalDepth.maxScore) := by
  obtain ⟨d1, d2, d3⟩ := analyzeDocumentation_bounds (repos.filter fun r => !r.fork)
  obtain ⟨s1, s2, s3⟩ := analyzeStructure_bounds (repos.filter fun r => !r.fork)
  obtain ⟨a1, a2, a3⟩ := analyzeActivity_bounds events repos now
  obtain ⟨o1, o2, o3⟩ := analyzeOrganization_bounds profile (repos.filter fun r => !r.fork)
  obtain ⟨i1, i2, i3⟩ := analyzeImpact_bounds (repos.filter fun r => !r.fork)
  obtain ⟨t1, t2, t3⟩ := analyzeTechnicalDepth_bounds (repos.filter fun r => !r.fork)
  exact ⟨⟨d1, d2, d1 ▸ d3⟩, ⟨s1, s2, s1 ▸ s3⟩, ⟨a1, a2, a1 ▸ a3⟩, ⟨o1, o2, o1 ▸ o3⟩,
    ⟨i1, i2, i1 ▸ i3⟩, ⟨t1, t2, t1 ▸ t3⟩⟩

/-- C2: for every input `performAnalysis` sets `overallScore` to the sum of the six
sub-metric scores rounded to the nearest integer, halves upwards, and that integer lies
between 0 and 100 with no final clamp. -/
theorem performAnalysis_overallScore (profile : Profile) (repos : List Repo)
    (events : List Event) (now : Int) :
    (performAnalysis profile repos events now).overallScore
      = jsRound ((performAnalysis profile repos events now).metrics.documentation.score +
          (performAnalysis profile repos events now).metrics.structure_.score +
          (performAnalysis profile repos events now).metrics.activity.score +
          (performAnalysis profile repos events now).metrics.organization.score +
          (performAnalysis profile repos events now).metrics.impact.score +
          (performAnalysis profile repos events now).metrics.technicalDepth.score) ∧
    (((performAnalysis profile repos events now).overallScore : ℚ) - 1 / 2
      ≤ (performAnalysis profile repos events now).metrics.documentation.score +
          (performAnalysis profile repos events now).metrics.structure_.score +
          (performAnalysis profile repos events now).metrics.activity.score +
          (performAnalysis profile repos events now).metrics.organization.score +
          (performAnalysis profile repos events now).metrics.impact.score +
          (performAnalysis profile repos events now).metrics.technicalDepth.score) ∧
    ((performAnalysis profile repos events now).metrics.documentation.score +
          (performAnalysis profile repos events now).metrics.structure_.score +
          (performAnalysis profile repos events now).metrics.activity.score +
          (performAnalysis profile repos events now).metrics.organization.score +
          (performAnalysis profile repos events now).metrics.impact.score +
          (performAnalysis profile repos events now).metrics.technicalDepth.score
      < ((performAnalysis profile repos events now).overallScore : ℚ) + 1 / 2) ∧
    0 ≤ (performAnalysis profile repos events now).overallScore ∧
    (performAnalysis profile repos events now).overallScore ≤ 100 := by
  obtain ⟨-, d2, d3⟩ := analyzeDocumentation_bounds (repos.filter fun r => !r.fork)
  obtain ⟨-, s2, s3⟩ := analyzeStructure_bounds (repos.filter fun r => !r.fork)
  obtain ⟨-, a2, a3⟩ := analyzeActivity_bounds events repos now
  obtain ⟨-, o2, o3⟩ := analyzeOrganization_bounds profile (repos.filter fun r => !r.fork)
  obtain ⟨-, i2, i3⟩ := analyzeImpact_bounds (repos.filter fun r => !r.fork)
  obtain ⟨-, t2, t3⟩ := analyzeTechnicalDepth_bounds (repos.filter fun r => !r.fork)
  have hsum0 : (0 : ℚ) ≤ (analyzeDocumentation (repos.filter fun r => !r.fork)).score +
      (analyzeStructure (repos.filter fun r => !r.fork)).score +
      (analyzeActivity events repos now).score +
      (analyzeOrganization profile (repos.filter fun r => !r.fork)).score +
      (analyzeImpact (repos.filter fun r => !r.fork)).score +
      (analyzeTechnicalDepth (repos.filter fun r => !r.fork)).score := by linarith
  have hsum1 : (analyzeDocumentation (repos.filter fun r => !r.fork)).score +
      (analyzeStructure (repos.filter fun r => !r.fork)).score +
      (analyzeActivity events repos now).score +
      (analyzeOrganization profile (repos.filter fun r => !r.fork)).score +
      (analyzeImpact (repos.filter fun r => !r.fork)).score +
      (analyzeTechnicalDepth (repos.filter fun r => !r.fork)).score ≤ ((100 : ℤ) : ℚ) := by
    push_cast; linarith
  obtain ⟨b0, b1⟩ := jsRound_bounds _ 100 hsum0 hsum1
  obtain ⟨r0, r1⟩ := jsRound_half_up
    ((analyzeDocumentation (repos.filter fun r => !r.fork)).score +
      (analyzeStructure (repos.filter fun r => !r.fork)).score +
      (analyzeActivity events repos now).score +
      (analyzeOrganization profile (repos.filter fun r => !r.fork)).score +
      (analyzeImpact (repos.filter fun r => !r.fork)).score +
      (analyzeTechnicalDepth (repos.filter fun r => !r.fork)).score)
  exact ⟨rfl, r0, r1, b0, b1⟩

/-! ## C14: the tier of the overall score -/

/-- C14: for every overall score exactly one tier is selected by `displayOverallScore`:
the badge is "Recruiter Ready" iff the score is at least 80, "Above Average" iff it is at
least 60 and below 80, "Needs Work" iff it is at least 40 and below 60, "Work in Progress"
iff it is below 40. -/
theorem displayOverallScore_tier (s : Int) :
    ((displayOverallScore s).badge = "Recruiter Ready" ↔ 80 ≤ s) ∧
    ((displayOverallScore s).badge = "Above Average" ↔ 60 ≤ s ∧ s < 80) ∧
    ((displayOverallScore s).badge = "Needs Work" ↔ 40 ≤ s ∧ s < 60) ∧
    ((displayOverallScore s).badge = "Work in Progress" ↔ s < 40) ∧
    (displayOverallScore s).badge ∈
      ["Recruiter Ready", "Above Average", "Needs Work", "Work in Progress"] := by
  unfold displayOverallScore
  split_ifs with h80 h60 h40 <;> simp <;> omega

/-! ## C17, C18: strengths and red flags -/

theorem push_acc {α : Type} (c : Prop) [Decidable c] (l : List α) (x : α) :
    (if c then l ++ [x] else l) = l ++ (if c then [x] else []) := by
  split_ifs <;> simp

theorem length_pos_ite {α : Type} [DecidableEq α] (l : List α) (x : α) :
    (if l.length > 0 then l else [x]) = (if l = [] then [x] else l) := by
  cases l <;> simp

theorem ite_singleton_length {α : Type} (c : Prop) [Decidable c] (x : α) :
    (if c then [x] else []).length ≤ 1 := by
  split_ifs <;> simp

theorem mem_ite_singleton {α : Type} (c : Prop) [Decidable c] (x y : α) :
    y ∈ (if c then [x] else []) ↔ c ∧ y = x := by
  split_ifs with h <;> simp [h]

theorem identifyStrengths_eq (a : Analysis) : identifyStrengths a = Spec.strengths a := by
  unfold identifyStrengths Spec.strengths Spec.firedStrengths
  simp only [push_acc, List.nil_append, length_pos_ite, List.countP_eq_length_filter,
    Spec.present, Bool.and_eq_true, Bool.or_eq_true, and_assoc]

theorem firedStrengths_length (a : Analysis) : (Spec.firedStrengths a).length ≤ 6 := by
  unfold Spec.firedStrengths
  simp only [List.length_append]
  have h1 := ite_singleton_length (a.metrics.documentation.score ≥ 15) strengthDocumentation
  have h2 := ite_singleton_length (a.metrics.activity.score ≥ 15) strengthActivity
  have h3 := ite_singleton_length (a.metrics.impact.score ≥ 10) strengthImpact
  have h4 := ite_singleton_length (a.metrics.technicalDepth.score ≥ 7) strengthDepth
  have h5 := ite_singleton_length (Spec.present a.profile.bio ∧ Spec.present a.profile.location ∧
    (Spec.present a.profile.blog ∨ Spec.present a.profile.company)) strengthProfile
  have h6 := ite_singleton_length ((a.repos.countP fun r => !r.fork) ≥ 10) strengthPortfolio
  omega

theorem fallback_not_mem_firedStrengths (a : Analysis) :
    strengthFallback ∉ Spec.firedStrengths a := by
  unfold Spec.firedStrengths
  simp only [List.mem_append, mem_ite_singleton]
  have e1 : strengthFallback ≠ strengthDocumentation := by decide
  have e2 : strengthFallback ≠ strengthActivity := by decide
  have e3 : strengthFallback ≠ strengthImpact := by decide
  have e4 : strengthFallback ≠ strengthDepth := by decide
  have e5 : strengthFallback ≠ strengthProfile := by decide
  have e6 : strengthFallback ≠ strengthPortfolio := by decide
  tauto

/-- C17: for every analysis `identifyStrengths` returns exactly the sentences whose check
is true, in check order (documentation >= 15, activity >= 15, impact >= 10, technical
depth >= 7, bio and location and (blog or company), at least 10 non-fork repositories),
and the fallback sentence alone when no check is true; the result has between 1 and 6
entries and contains the fallback sentence iff no check fires. -/
theorem identifyStrengths_spec (a : Analysis) :
    identifyStrengths a
      = (if Spec.firedStrengths a = [] then [strengthFallback] else Spec.firedStrengths a) ∧
    1 ≤ (identifyStrengths a).length ∧ (identifyStrengths a).length ≤ 6 ∧
    (strengthFallback ∈ identifyStrengths a ↔ Spec.firedStrengths a = []) := by
  have hlen := firedStrengths_length a
  have hnot := fallback_not_mem_firedStrengths a
  rw [identifyStrengths_eq]
  unfold Spec.strengths
  refine ⟨rfl, ?_⟩
  by_cases h : Spec.firedStrengths a = []
  · simp [h]
  · simp only [h, if_false, iff_false]
    refine ⟨?_, hlen, hnot⟩
    exact List.length_pos.2 h

theorem forkCheck_iff (repos : List Repo) :
    ((jsDiv (repos.filter fun r => r.fork).length repos.length).gt 0.7 &&
        decide (repos.length > 5)) = true ↔
      (Spec.forkRatio repos > 0.7 ∧ repos.length > 5) := by
  unfold Spec.forkRatio
  rw [List.countP_eq_length_filter]
  by_cases hb : repos.length = 0
  · simp [hb]
  · rw [jsDiv_gt_of_pos _ _ _ hb]
    simp

theorem recentCheck_iff (repos : List Repo) (t : Int) :
    ((repos.filter fun r => decide (r.created_at > t)).length = 0 ∧ repos.length > 0) ↔
      Spec.noRecentRepo repos t := by
  unfold Spec.noRecentRepo
  rw [List.length_eq_zero, List.filter_eq_nil_iff]
  simp only [decide_eq_true_eq, gt_iff_lt, List.length_pos, ne_eq]
  exact and_comm

theorem profileCheck_iff (p : Profile) :
    (!(truthy p.bio) || !(truthy p.location)) = true ↔
      (¬ Spec.present p.bio ∨ ¬ Spec.present p.location) := by
  unfold Spec.present
  simp

theorem identifyRedFlags_eq (a : Analysis) (t : Int) :
    identifyRedFlags a t = Spec.redFlags a t := by
  unfold identifyRedFlags Spec.redFlags Spec.firedRedFlags
  simp only [push_acc, List.nil_append, length_pos_ite, forkCheck_iff, recentCheck_iff,
    profileCheck_iff]

/-- C18: for every analysis and time `identifyRedFlags` returns exactly the sentences whose
check is true, in check order (documentation < 10, activity < 8, impact < 5, bio or
location missing, fork ratio > 0.7 with more than 5 repositories, technical depth < 4, no
repository created after the six-month mark while the collection is non-empty), and the
fallback sentence alone when no check is true; for an empty collection the fork ratio is
`0 / 0 = NaN` and neither the fork flag nor the no-recent-repositories flag is returned. -/
theorem identifyRedFlags_spec (a : Analysis) (sixMonthsAgo : Int) :
    identifyRedFlags a sixMonthsAgo
      = (if Spec.firedRedFlags a sixMonthsAgo = [] then [flagFallback]
          else Spec.firedRedFlags a sixMonthsAgo) ∧
    (a.repos = [] →
      jsDiv (a.repos.filter fun r => r.fork).length a.repos.length = JSNum.nan ∧
      flagForks ∉ identifyRedFlags a sixMonthsAgo ∧
      flagRecent ∉ identifyRedFlags a sixMonthsAgo) := by
  refine ⟨identifyRedFlags_eq a sixMonthsAgo, ?_⟩
  intro he
  have hf : ¬ (Spec.forkRatio a.repos > 0.7 ∧ a.repos.length > 5) := by
    rw [he]; simp
  have hr : ¬ Spec.noRecentRepo a.repos sixMonthsAgo := by
    rw [he]; simp [Spec.noRecentRepo]
  have e1 : flagForks ≠ flagFallback := by decide
  have e2 : flagForks ≠ flagDocumentation := by decide
  have e3 : flagForks ≠ flagActivity := by decide
  have e4 : flagForks ≠ flagImpact := by decide
  have e5 : flagForks ≠ flagProfile := by decide
  have e6 : flagForks ≠ flagDepth := by decide
  have f1 : flagRecent ≠ flagFallback := by decide
  have f2 : flagRecent ≠ flagDocumentation := by decide
  have f3 : flagRecent ≠ flagActivity := by decide
  have f4 : flagRecent ≠ flagImpact := by decide
  have f5 : flagRecent ≠ flagProfile := by decide
  have f6 : flagRecent ≠ flagDepth := by decide
  have hmem : ∀ x, x ∈ Spec.redFlags a sixMonthsAgo →
      x = flagFallback ∨ x ∈ Spec.firedRedFlags a sixMonthsAgo := by
    intro x hx
    unfold Spec.redFlags at hx
    by_cases h : Spec.firedRedFlags a sixMonthsAgo = []
    · rw [if_pos h] at hx; left; simpa using hx
    · rw [if_neg h] at hx; right; exact hx
  have hfired : ∀ x, x ∈ Spec.firedRedFlags a sixMonthsAgo →
      x = flagDocumentation ∨ x = flagActivity ∨ x = flagImpact ∨ x = flagProfile ∨
        x = flagDepth := by
    intro x hx
    unfold Spec.firedRedFlags at hx
    simp only [hf, hr, if_false, List.append_nil, List.mem_append, mem_ite_singleton] at hx
    tauto
  refine ⟨by rw [he]; simp [jsDiv], ?_, ?_⟩
  · rw [identifyRedFlags_eq]
    intro hx
    rcases hmem _ hx with h | h
    · exact e1 h
    · rcases hfired _ h with h | h | h | h | h
      · exact e2 h
      · exact e3 h
      · exact e4 h
      · exact e5 h
      · exact e6 h
  · rw [identifyRedFlags_eq]
    intro hx
    rcases hmem _ hx with h | h
    · exact f1 h
    · rcases hfired _ h with h | h | h | h | h
      · exact f2 h
      · exact f3 h
      · exact f4 h
      · exact f5 h
      · exact f6 h

/-! ## C15, C16: the recommendations -/

theorem sortInsert_skip {α : Type} (cmp : α → α → Int) (a : α) (xs ys : List α)
    (h : ∀ x ∈ xs, ¬ cmp a x ≤ 0) :
    sortInsert cmp a (xs ++ ys) = xs ++ sortInsert cmp a ys := by
  induction xs with
  | nil => rfl
  | cons x xs ih =>
    have hx : ¬ cmp a x ≤ 0 := h x (List.mem_cons_self x xs)
    have hxs : ∀ y ∈ xs, ¬ cmp a y ≤ 0 := fun y hy => h y (List.mem_cons_of_mem x hy)
    rw [List.cons_append, sortInsert, if_neg hx, ih hxs, List.cons_append]

theorem sortInsert_stop {α : Type} (cmp : α → α → Int) (a : α) (ys : List α)
    (h : ∀ y ∈ ys, cmp a y ≤ 0) :
    sortInsert cmp a ys = a :: ys := by
  cases ys with
  | nil => rfl
  | cons y ys =>
    have hy : cmp a y ≤ 0 := h y (List.mem_cons_self y ys)
    simp only [sortInsert, hy, if_true]

theorem jsSort_cons {α : Type} (cmp : α → α → Int) (a : α) (l : List α) :
    jsSort cmp (a :: l) = sortInsert cmp a (jsSort cmp l) := rfl

theorem jsSort_priority (l : List Recommendation) :
    jsSort (fun a b => priorityOrder a.priority - priorityOrder b.priority) l
      = Spec.stableSortByPriority l := by
  induction l with
  | nil => rfl
  | cons a l ih =>
    rw [jsSort_cons, ih]
    unfold Spec.stableSortByPriority
    cases hp : a.priority with
    | high =>
      rw [sortInsert_stop]
      · simp [List.filter_cons, hp]
      · intro y _
        simp only [hp, priorityOrder]
        cases y.priority <;> simp [priorityOrder]
    | medium =>
      rw [List.append_assoc, sortInsert_skip, sortInsert_stop]
      · simp [List.filter_cons, hp]
      · intro y hy
        have hy2 : y.priority = Priority.medium ∨ y.priority = Priority.low := by
          rcases List.mem_append.1 hy with h | h
          · left; simpa using (List.mem_filter.1 h).2
          · right; simpa using (List.mem_filter.1 h).2
        rcases hy2 with h | h <;> simp [hp, h, priorityOrder]
      · intro x hx
        have hx2 : x.priority = Priority.high := by simpa using (List.mem_filter.1 hx).2
        simp [hp, hx2, priorityOrder]
    | low =>
      rw [sortInsert_skip, sortInsert_stop]
      · simp [List.filter_cons, hp]
      · intro y hy
        have hy2 : y.priority = Priority.low := by simpa using (List.mem_filter.1 hy).2
        simp [hp, hy2, priorityOrder]
      · intro x hx
        have hx2 : x.priority = Priority.high ∨ x.priority = Priority.medium := by
          rcases List.mem_append.1 hx with h | h
          · left; simpa using (List.mem_filter.1 h).2
          · right; simpa using (List.mem_filter.1 h).2
        rcases hx2 with h | h <;> simp [hp, h, priorityOrder]

theorem recProfileCheck_iff (p : Profile) :
    (!(truthy p.bio) || !(truthy p.location) || !(truthy p.blog)) = true ↔
      (¬ Spec.present p.bio ∨ ¬ Spec.present p.location ∨ ¬ Spec.present p.blog) := by
  unfold Spec.present
  simp [or_assoc]

theorem pushed_eq_generated (a : Analysis) :
    generateRecommendations.pushed a = Spec.generated a := by
  unfold generateRecommendations.pushed Spec.generated
  simp only [push_acc, List.nil_append, recProfileCheck_iff]

theorem generateRecommendations_eq (a : Analysis) :
    generateRecommendations a = (Spec.stableSortByPriority (Spec.generated a)).take 6 := by
  unfold generateRecommendations
  rw [jsSort_priority, pushed_eq_generated]

theorem stableSortByPriority_sorted (l : List Recommendation) :
    (Spec.stableSortByPriority l).Pairwise
      (fun x y => priorityOrder x.priority ≤ priorityOrder y.priority) := by
  unfold Spec.stableSortByPriority
  have hH : ∀ x ∈ l.filter (fun r => decide (r.priority = Priority.high)),
      x.priority = Priority.high := fun x hx => by simpa using (List.mem_filter.1 hx).2
  have hM : ∀ x ∈ l.filter (fun r => decide (r.priority = Priority.medium)),
      x.priority = Priority.medium := fun x hx => by simpa using (List.mem_filter.1 hx).2
  have hL : ∀ x ∈ l.filter (fun r => decide (r.priority = Priority.low)),
      x.priority = Priority.low := fun x hx => by simpa using (List.mem_filter.1 hx).2
  rw [List.pairwise_append, List.pairwise_append]
  refine ⟨⟨?_, ?_, ?_⟩, ?_, ?_⟩
  · exact List.pairwise_of_forall_mem_list fun x hx y hy => by rw [hH x hx, hH y hy]
  · exact List.pairwise_of_forall_mem_list fun x hx y hy => by rw [hM x hx, hM y hy]
  · intro x hx y hy
    rw [hH x hx, hM y hy]; decide
  · exact List.pairwise_of_forall_mem_list fun x hx y hy => by rw [hL x hx, hL y hy]
  · intro x hx y hy
    rw [hL y hy]
    rcases List.mem_append.1 hx with h | h
    · rw [hH x h]; decide
    · rw [hM x h]; decide

/-- C15: for every analysis the list returned by `generateRecommendations` has at most 6
entries, and in it no medium-priority entry precedes a high-priority entry and no
low-priority entry precedes a medium-priority or a high-priority entry. -/
theorem generateRecommendations_sorted (a : Analysis) :
    (generateRecommendations a).length ≤ 6 ∧
    (generateRecommendations a).Pairwise (fun x y =>
      ¬ (x.priority = Priority.medium ∧ y.priority = Priority.high) ∧
      ¬ (x.priority = Priority.low ∧
          (y.priority = Priority.medium ∨ y.priority = Priority.high))) := by
  constructor
  · unfold generateRecommendations
    exact List.length_take_le 6 _
  · rw [generateRecommendations_eq]
    have h := (stableSortByPriority_sorted (Spec.generated a)).sublist
      (List.take_sublist 6 (Spec.stableSortByPriority (Spec.generated a)))
    refine h.imp ?_
    intro x y hxy
    cases hx : x.priority <;> cases hy : y.priority <;>
      simp [hx, hy, priorityOrder] at hxy ⊢

/-- C16: for every analysis `generateRecommendations` returns the first 6 elements of the
stable sort by priority (high, then medium, then low, each group in generation order) of
the generated list: documentation (high) iff documentation < 15, activity (high) iff
activity < 12, profile (medium) iff bio, location or blog is missing, impact (high) iff
impact < 8, pin-repositories (medium) always, technical-stack (low) iff technical
depth < 6, organization (medium) iff organization < 10, testing/CI (low) always. -/
theorem generateRecommendations_spec (a : Analysis) :
    generateRecommendations a = (Spec.stableSortByPriority (Spec.generated a)).take 6 ∧
    generateRecommendations.pushed a = Spec.generated a ∧
    (∀ l : List Recommendation,
      jsSort (fun x y => priorityOrder x.priority - priorityOrder y.priority) l
        = (l.filter fun r => decide (r.priority = Priority.high)) ++
          (l.filter fun r => decide (r.priority = Priority.medium)) ++
          (l.filter fun r => decide (r.priority = Priority.low))) ∧
    (recDocumentation.priority = Priority.high ∧ recActivity.priority = Priority.high ∧
      recProfile.priority = Priority.medium ∧ recImpact.priority = Priority.high ∧
      recPin.priority = Priority.medium ∧ recStack.priority = Priority.low ∧
      recOrganization.priority = Priority.medium ∧ recTesting.priority = Priority.low) :=
  ⟨generateRecommendations_eq a, pushed_eq_generated a, jsSort_priority,
    rfl, rfl, rfl, rfl, rfl, rfl, rfl, rfl⟩

/-! ## C19, C20: the account name of the input -/

theorem matchLit_append (p rest : List Char) : matchLit p (p ++ rest) = some rest := by
  induction p with
  | nil => cases rest <;> rfl
  | cons c ps ih => simp [matchLit, ih]

theorem matchLit_some (p s r : List Char) (h : matchLit p s = some r) : s = p ++ r := by
  induction p generalizing s with
  | nil => cases s <;> simp_all [matchLit]
  | cons c ps ih =>
    cases s with
    | nil => simp [matchLit] at h
    | cons d ds =>
      by_cases hcd : c = d
      · subst hcd
        simp only [matchLit, if_true] at h
        rw [ih ds h]; rfl
      · simp [matchLit, hcd] at h

theorem matchOpt_some (lit : List Char) (k : List Char → Option (List Char))
    (s r : List Char) (h : matchOpt lit k s = some r) :
    (∃ s1, matchLit lit s = some s1 ∧ k s1 = some r) ∨ k s = some r := by
  unfold matchOpt at h
  cases hm : matchLit lit s with
  | none => rw [hm] at h; right; simpa using h
  | some s1 =>
    rw [hm] at h
    cases hk : k s1 with
    | none => right; simpa [hk] using h
    | some r1 =>
      left
      refine ⟨s1, rfl, ?_⟩
      simpa [hk] using h

theorem matchGithubUrl_count (s r : List Char) (h : matchGithubUrl s = some r) :
    3 ≤ s.count '/' := by
  unfold matchGithubUrl at h
  cases h0 : matchLit "http".data s with
  | none => rw [h0] at h; simp at h
  | some s0 =>
    rw [h0] at h
    simp only [Option.bind_some] at h
    have e0 := matchLit_some _ _ _ h0
    have key : ∀ s1, ((matchLit "://".data s1).bind
        (matchOpt "www.".data fun s2 => matchLit "github.com/".data s2)) = some r →
        3 ≤ s1.count '/' := by
      intro s1 h1
      cases h2 : matchLit "://".data s1 with
      | none => rw [h2] at h1; simp at h1
      | some s2 =>
        rw [h2] at h1
        simp only [Option.bind_some] at h1
        have e2 := matchLit_some _ _ _ h2
        have key2 : ∀ s3, matchLit "github.com/".data s3 = some r → 1 ≤ s3.count '/' := by
          intro s3 h3
          rw [matchLit_some _ _ _ h3, List.count_append]
          have : List.count '/' "github.com/".data = 1 := by decide
          omega
        have hc : List.count '/' "://".data = 2 := by decide
        rcases matchOpt_some _ _ _ _ h1 with ⟨s3, h3, h4⟩ | h4
        · have e3 := matchLit_some _ _ _ h3
          have := key2 s3 h4
          rw [e2, e3, List.count_append, List.count_append]
          omega
        · have := key2 s2 h4
          rw [e2, List.count_append]
          omega
    rcases matchOpt_some _ _ _ _ h with ⟨s1, h1, h2⟩ | h2
    · have e1 := matchLit_some _ _ _ h1
      have := key s1 h2
      rw [e0, e1, List.count_append, List.count_append]
      omega
    · have := key s0 h2
      rw [e0, List.count_append]
      omega

theorem replaceGithubUrl_of_count (s : List Char) (h : s.count '/' < 3) :
    replaceGithubUrl s = s := by
  unfold replaceGithubUrl
  cases hm : matchGithubUrl s with
  | none => rfl
  | some r => have := matchGithubUrl_count s r hm; omega

theorem replaceGithubUrl_https (rest : List Char) :
    replaceGithubUrl ("https://github.com/".data ++ rest) = rest := by
  simp [replaceGithubUrl, matchGithubUrl, matchLit, matchOpt]

theorem replaceGithubUrl_http (rest : List Char) :
    replaceGithubUrl ("http://github.com/".data ++ rest) = rest := by
  simp [replaceGithubUrl, matchGithubUrl, matchLit, matchOpt]

theorem replaceGithubUrl_https_www (rest : List Char) :
    replaceGithubUrl ("https://www.github.com/".data ++ rest) = rest := by
  simp [replaceGithubUrl, matchGithubUrl, matchLit, matchOpt]

theorem replaceGithubUrl_http_www (rest : List Char) :
    replaceGithubUrl ("http://www.github.com/".data ++ rest) = rest := by
  simp [replaceGithubUrl, matchGithubUrl, matchLit, matchOpt]

theorem firstPart_handle (h : List Char) (hs : '/' ∉ h) : firstPart h = h := by
  unfold firstPart
  rw [List.takeWhile_eq_self_iff]
  intro c hc
  have : c ≠ '/' := fun e => hs (e ▸ hc)
  simpa using this

theorem firstPart_handle_slash (h rest : List Char) (hs : '/' ∉ h) :
    firstPart (h ++ '/' :: rest) = h := by
  unfold firstPart
  induction h with
  | nil => simp
  | cons c cs ih =>
    have hc : c ≠ '/' := fun e => hs (by rw [e]; exact List.mem_cons_self _ _)
    have hcs : '/' ∉ cs := fun hm => hs (List.mem_cons_of_mem c hm)
    simp [List.takeWhile_cons, hc, ih hcs]

theorem replaceTrailingSlash_cases (s : List Char) :
    replaceTrailingSlash s = s ∨ replaceTrailingSlash s = s.dropLast := by
  unfold replaceTrailingSlash
  split_ifs
  · right; rfl
  · left; rfl

theorem replaceTrailingSlash_handle (h : List Char) (hs : '/' ∉ h) :
    replaceTrailingSlash h = h := by
  unfold replaceTrailingSlash
  have : h.getLast? ≠ some '/' := by
    intro hl
    exact hs (List.mem_of_getLast?_eq_some hl)
  rw [if_neg this]

theorem replaceTrailingSlash_handle_slash (h : List Char) :
    replaceTrailingSlash (h ++ ['/']) = h := by
  unfold replaceTrailingSlash
  simp

theorem firstPart_replaceTrailingSlash (h rest : List Char) (hs : '/' ∉ h) :
    firstPart (replaceTrailingSlash (h ++ '/' :: rest)) = h := by
  rcases replaceTrailingSlash_cases (h ++ '/' :: rest) with e | e
  · rw [e]; exact firstPart_handle_slash h rest hs
  · rw [e]
    cases rest with
    | nil =>
      have : (h ++ ['/']).dropLast = h := by simp
      rw [this]; exact firstPart_handle h hs
    | cons c cs =>
      have : (h ++ '/' :: c :: cs).dropLast = h ++ '/' :: (c :: cs).dropLast := by
        rw [List.dropLast_append_of_ne_nil _ (by simp)]
        simp [List.dropLast]
      rw [this]; exact firstPart_handle_slash h _ hs

theorem extractUsernameChars_bare (h : List Char) (hne : h ≠ []) (hs : '/' ∉ h) :
    extractUsernameChars h = some h := by
  have hc : h.count '/' < 3 := by rw [List.count_eq_zero_of_not_mem hs]; decide
  unfold extractUsernameChars
  simp only [replaceGithubUrl_of_count h hc, replaceTrailingSlash_handle h hs,
    firstPart_handle h hs]
  cases h with
  | nil => exact absurd rfl hne
  | cons c cs => rfl

theorem extractUsernameChars_bare_slash (h : List Char) (hne : h ≠ []) (hs : '/' ∉ h) :
    extractUsernameChars (h ++ ['/']) = some h := by
  have hc : (h ++ ['/']).count '/' < 3 := by
    rw [List.count_append, List.count_eq_zero_of_not_mem hs]; decide
  unfold extractUsernameChars
  simp only [replaceGithubUrl_of_count _ hc, replaceTrailingSlash_handle_slash,
    firstPart_handle h hs]
  cases h with
  | nil => exact absurd rfl hne
  | cons c cs => rfl

theorem extractUsernameChars_url (pre h : List Char) (hne : h ≠ []) (hs : '/' ∉ h)
    (hpre : ∀ rest, replaceGithubUrl (pre ++ rest) = rest) :
    extractUsernameChars (pre ++ h) = some h ∧
    ∀ rest, extractUsernameChars (pre ++ (h ++ '/' :: rest)) = some h := by
  constructor
  · unfold extractUsernameChars
    simp only [hpre, replaceTrailingSlash_handle h hs, firstPart_handle h hs]
    cases h with
    | nil => exact absurd rfl hne
    | cons c cs => rfl
  · intro rest
    unfold extractUsernameChars
    simp only [hpre, firstPart_replaceTrailingSlash h rest hs]
    cases h with
    | nil => exact absurd rfl hne
    | cons c cs => rfl

theorem extractUsername_of_chars (input h : String)
    (hc : extractUsernameChars input.data = some h.data) : extractUsername input = some h := by
  unfold extractUsername
  rw [hc]
  rfl

/-- C19 (as amended): `extractUsername` applied to "https://github.com/someuser/" returns
"someuser"; the pattern of the first `replace` names the host `github.com`. -/
theorem extractUsername_github_someuser :
    extractUsername "https://github.com/someuser/" = some "someuser" := by
  decide

/-- C19 as stated fails: on "https://example-host.com/someuser/" the pattern does not
match, the first part of the split is "https:" and that is what is returned. -/
theorem extractUsername_example_host :
    extractUsername "https://example-host.com/someuser/" = some "https:" ∧
    extractUsername "https://example-host.com/someuser/" ≠ some "someuser" := by
  decide

/-- C20 (as amended): for every non-empty handle `h` without a slash `extractUsername`
returns `h` on the bare handle, on the bare handle with one trailing slash, and, for each of
the URL starts `http://` or `https://` followed by `github.com/` or `www.github.com/`, on
the URL of `h`, on that URL with one trailing slash and on that URL followed by further
path segments. -/
theorem extractUsername_handle (h : String) (hne : h ≠ "") (hs : '/' ∉ h.data) :
    extractUsername h = some h ∧
    extractUsername (h ++ "/") = some h ∧
    (∀ url ∈ ["https://github.com/", "http://github.com/", "https://www.github.com/",
        "http://www.github.com/"],
      extractUsername (url ++ h) = some h ∧
      extractUsername (url ++ h ++ "/") = some h ∧
      ∀ rest : String, extractUsername (url ++ h ++ "/" ++ rest) = some h) := by
  have hd : h.data ≠ [] := by
    intro e
    apply hne
    cases h
    simp_all
  have hurl : ∀ url : String, (∀ rest, replaceGithubUrl (url.data ++ rest) = rest) →
      extractUsername (url ++ h) = some h ∧
      extractUsername (url ++ h ++ "/") = some h ∧
      ∀ rest : String, extractUsername (url ++ h ++ "/" ++ rest) = some h := by
    intro url hpre
    obtain ⟨h1, h2⟩ := extractUsernameChars_url url.data h.data hd hs hpre
    refine ⟨?_, ?_, ?_⟩
    · apply extractUsername_of_chars
      rw [String.data_append]; exact h1
    · apply extractUsername_of_chars
      have := h2 []
      simpa [String.data_append] using this
    · intro rest
      apply extractUsername_of_chars
      have := h2 rest.data
      simpa [String.data_append] using this
  refine ⟨?_, ?_, ?_⟩
  · exact extractUsername_of_chars _ _ (extractUsernameChars_bare h.data hd hs)
  · apply extractUsername_of_chars
    rw [String.data_append]
    exact extractUsernameChars_bare_slash h.data hd hs
  · intro url hurlmem
    simp only [List.mem_cons, List.mem_singleton, List.not_mem_nil, or_false] at hurlmem
    rcases hurlmem with e | e | e | e
    · subst e; exact hurl _ replaceGithubUrl_https
    · subst e; exact hurl _ replaceGithubUrl_http
    · subst e; exact hurl _ replaceGithubUrl_https_www
    · subst e; exact hurl _ replaceGithubUrl_http_www

/-- Witness of C20 (as amended) on the handle "someuser". -/
theorem extractUsername_handle_witness :
    ("someuser" ≠ "" ∧ '/' ∉ "someuser".data) ∧
    (extractUsername "someuser" = some "someuser" ∧
    extractUsername ("someuser" ++ "/") = some "someuser" ∧
    (∀ url ∈ ["https://github.com/", "http://github.com/", "https://www.github.com/",
        "http://www.github.com/"],
      extractUsername (url ++ "someuser") = some "someuser" ∧
      extractUsername (url ++ "someuser" ++ "/") = some "someuser" ∧
      ∀ rest : String, extractUsername (url ++ "someuser" ++ "/" ++ rest) = some "someuser")) :=
  ⟨⟨by decide, by decide⟩, extractUsername_handle "someuser" (by decide) (by decide)⟩

/-- C20 as stated fails: the non-empty handle "someuser" has no slash, and on the URL
without scheme "github.com/someuser" the result is "github.com", on
"github.com/someuser/" and "github.com/someuser/repo" as well. -/
theorem extractUsername_without_scheme :
    ("someuser" ≠ "" ∧ '/' ∉ "someuser".data) ∧
    extractUsername "github.com/someuser" = some "github.com" ∧
    extractUsername "github.com/someuser/" = some "github.com" ∧
    extractUsername "github.com/someuser/repo" = some "github.com" ∧
    extractUsername "github.com/someuser" ≠ some "someuser" := by
  decide

/-! ## C11: forks do not influence the scores -/

/-- C11: for every profile, event list and time, two repository collections with the same
sub-list of non-fork repositories get the same six sub-metric scores (the whole metrics
object is the same) and the same overall score from `performAnalysis`. -/
theorem performAnalysis_forks_irrelevant (profile : Profile) (repos1 repos2 : List Repo)
    (events : List Event) (now : Int)
    (h : (repos1.filter fun r => !r.fork) = (repos2.filter fun r => !r.fork)) :
    (performAnalysis profile repos1 events now).metrics.documentation.score
      = (performAnalysis profile repos2 events now).metrics.documentation.score ∧
    (performAnalysis profile repos1 events now).metrics.structure_.score
      = (performAnalysis profile repos2 events now).metrics.structure_.score ∧
    (performAnalysis profile repos1 events now).metrics.activity.score
      = (performAnalysis profile repos2 events now).metrics.activity.score ∧
    (performAnalysis profile repos1 events now).metrics.organization.score
      = (performAnalysis profile repos2 events now).metrics.organization.score ∧
    (performAnalysis profile repos1 events now).metrics.impact.score
      = (performAnalysis profile repos2 events now).metrics.impact.score ∧
    (performAnalysis profile repos1 events now).metrics.technicalDepth.score
      = (performAnalysis profile repos2 events now).metrics.technicalDepth.score ∧
    (performAnalysis profile repos1 events now).metrics
      = (performAnalysis profile repos2 events now).metrics ∧
    (performAnalysis profile repos1 events now).overallScore
      = (performAnalysis profile repos2 events now).overallScore := by
  have hact : analyzeActivity events repos1 now = analyzeActivity events repos2 now := rfl
  have hm : (performAnalysis profile repos1 events now).metrics
      = (performAnalysis profile repos2 events now).metrics := by
    simp only [performAnalysis, h, hact]
  have ho : (performAnalysis profile repos1 events now).overallScore
      = (performAnalysis profile repos2 events now).overallScore := by
    simp only [performAnalysis, h, hact]
  refine ⟨?_, ?_, ?_, ?_, ?_, ?_, hm, ho⟩ <;> rw [hm]

/-- Witness of C11: a collection and the same collection with a starred fork in front. -/
theorem performAnalysis_forks_irrelevant_witness :
    ((scenarioRepos.filter fun r => !r.fork)
      = ((scenarioFork :: scenarioRepos).filter fun r => !r.fork)) ∧
    (performAnalysis scenarioProfile scenarioRepos scenarioEvents 0).metrics
      = (performAnalysis scenarioProfile (scenarioFork :: scenarioRepos) scenarioEvents 0).metrics ∧
    (performAnalysis scenarioProfile scenarioRepos scenarioEvents 0).overallScore
      = (performAnalysis scenarioProfile (scenarioFork :: scenarioRepos)
          scenarioEvents 0).overallScore :=
  ⟨rfl, (performAnalysis_forks_irrelevant scenarioProfile scenarioRepos
      (scenarioFork :: scenarioRepos) scenarioEvents 0 rfl).2.2.2.2.2.2⟩

/-! ## C12, C13: the two scenarios -/

theorem le_jsRound (n : ℤ) (x : ℚ) (h : (n : ℚ) ≤ x) : n ≤ jsRound x := by
  unfold jsRound
  rw [Int.le_floor]
  linarith

theorem jsRound_intCast (n : ℤ) : jsRound (n : ℚ) = n := by
  unfold jsRound
  rw [Int.floor_eq_iff]
  constructor <;> linarith

theorem analyzeOrganization_nil (profile : Profile) :
    (analyzeOrganization profile []).score = ((Spec.profilePoints profile + 2 : Nat) : ℚ) := by
  have hnaming : checkNamingConsistency [] = false := by
    simp [checkNamingConsistency, jsDiv, JSNum.gt]
  rw [analyzeOrganization_score_gen, hnaming]
  have hp := profilePoints_le profile
  have hq : Spec.qualityLadder (Spec.qualityCount []) = 0 := by decide
  rw [hq]
  congr 1
  simp only [Bool.false_eq_true, if_false, Nat.add_zero]
  omega

theorem plainRepos_ok :
    (plainRepos.filter fun r => !r.fork) = plainRepos ∧
    plainRepos.length = 12 ∧
    (∀ r ∈ plainRepos, r.fork = false →
      (∃ d, r.description = some d ∧ 20 < jsLength d) ∧ 0 < r.size ∧
        ¬ Spec.present r.homepage ∧ ¬ Spec.topicsNonEmpty r) := by
  refine ⟨by decide, by decide, ?_⟩
  intro r hr _
  have hr2 : r = plainRepo := by
    simpa [plainRepos, List.mem_replicate] using hr
  subst hr2
  exact ⟨⟨_, rfl, by decide⟩, by decide, by decide, by decide⟩

theorem scenarioEvents_ok :
    Spec.eventsWithin 30 scenarioEvents 0 = 50 ∧ Spec.eventsWithin 90 scenarioEvents 0 = 100 := by
  constructor <;> decide

theorem plain_scores :
    (analyzeDocumentation plainRepos).score = 14 ∧
    (analyzeStructure plainRepos).score = 0 ∧
    (analyzeActivity scenarioEvents plainRepos 0).score = 20 ∧
    (analyzeOrganization scenarioProfile plainRepos).score = 6 ∧
    (analyzeImpact plainRepos).score = 0 ∧
    (analyzeTechnicalDepth plainRepos).score = 4 := by
  have hpts : ∀ r ∈ plainRepos, Spec.rawPoints r = 7 := by
    intro r hr
    have hr2 : r = plainRepo := by
      simpa [plainRepos, List.mem_replicate] using hr
    subst hr2
    decide
  refine ⟨?_, ?_, ?_, ?_, ?_, ?_⟩
  · rw [documentation_score_of_points plainRepos 12 7 (by decide) (by decide) hpts]
    norm_num
  · rw [analyzeStructure_score_eq]
    have h0 : Spec.structuredCount plainRepos = 0 := by decide
    have hne : plainRepos ≠ [] := by decide
    unfold Spec.structureScore
    rw [if_neg hne, h0]
    norm_num [jsRound]
  · rw [analyzeActivity_score_eq]
    have h : Spec.activityScore scenarioEvents 0 = 20 := by decide
    rw [h]; norm_num
  · rw [analyzeOrganization_score_eq scenarioProfile plainRepos (by decide)]
    have hp : Spec.profilePoints scenarioProfile = 4 := by decide
    have hq : Spec.qualityLadder (Spec.qualityCount plainRepos) = 0 := by decide
    have hk : (plainRepos.countP fun r => includes r.name '-') = 0 := by decide
    have hs : (plainRepos.countP fun r => includes r.name '_') = 0 := by decide
    have hn : Spec.namingPoints plainRepos = 2 := by
      unfold Spec.namingPoints Spec.nameFraction
      rw [hk, hs]
      norm_num
    unfold Spec.organizationScore
    rw [hp, hq, hn]
    norm_num
  · rw [analyzeImpact_score_eq]
    have h : Spec.impactScore plainRepos = 0 := by decide
    rw [h]; norm_num
  · rw [analyzeTechnicalDepth_score_eq]
    have h : Spec.technicalDepthScore plainRepos = 4 := by decide
    rw [h]; norm_num

theorem badge_of_ge_40 (s : Int) (h : 40 ≤ s) :
    (displayOverallScore s).badge ∈ ["Needs Work", "Above Average", "Recruiter Ready"] := by
  unfold displayOverallScore
  split_ifs <;> decide

/-- C12 (as amended): when the profile has bio, location and blog, the non-fork
repositories are 12 in number, each with a description longer than 20, a positive size, no
homepage and no topics, and 50 events lie within the last 30 days and 100 within the last
90 days, the documentation score is 14, the activity score is 20, the overall score is at
least 44 and the tier is "Needs Work" or better. -/
theorem scenario_overall (profile : Profile) (repos : List Repo) (events : List Event)
    (now : Int)
    (hbio : Spec.present profile.bio) (hloc : Spec.present profile.location)
    (hblog : Spec.present profile.blog)
    (hlen : (repos.filter fun r => !r.fork).length = 12)
    (hrepo : ∀ r ∈ repos, r.fork = false →
      (∃ d, r.description = some d ∧ 20 < jsLength d) ∧ 0 < r.size ∧
        ¬ Spec.present r.homepage ∧ ¬ Spec.topicsNonEmpty r)
    (h30 : Spec.eventsWithin 30 events now = 50)
    (h90 : Spec.eventsWithin 90 events now = 100) :
    (performAnalysis profile repos events now).metrics.documentation.score = 14 ∧
    (performAnalysis profile repos events now).metrics.activity.score = 20 ∧
    44 ≤ (performAnalysis profile repos events now).overallScore ∧
    (displayOverallScore (performAnalysis profile repos events now).overallScore).badge
      ∈ ["Needs Work", "Above Average", "Recruiter Ready"] := by
  have hpts : ∀ r ∈ repos.filter (fun r => !r.fork), Spec.rawPoints r = 7 := by
    intro r hr
    rw [List.mem_filter] at hr
    exact scenario_rawPoints r (hrepo r hr.1 (by simpa using hr.2))
  have hdoc : (analyzeDocumentation (repos.filter fun r => !r.fork)).score = 14 := by
    rw [documentation_score_of_points _ 12 7 hlen (by decide) hpts]; norm_num
  have hact : (analyzeActivity events repos now).score = 20 := by
    rw [analyzeActivity_score_eq]
    unfold Spec.activityScore
    rw [h30, h90]
    have : min 20 (Spec.L30 50 + Spec.L90 100) = 20 := by decide
    rw [this]; norm_num
  have hstr := (analyzeStructure_bounds (repos.filter fun r => !r.fork)).2.1
  have himp := (analyzeImpact_bounds (repos.filter fun r => !r.fork)).2.1
  have horg : (6 : ℚ) ≤ (analyzeOrganization profile (repos.filter fun r => !r.fork)).score := by
    rw [analyzeOrganization_score_gen]
    have hp : 4 ≤ Spec.profilePoints profile := by
      unfold Spec.profilePoints
      simp only [hbio, hloc, hblog, if_true]
      omega
    have hn : 2 ≤ (if checkNamingConsistency (repos.filter fun r => !r.fork) = true
        then 5 else 2) := by
      split_ifs <;> omega
    have : 6 ≤ min 15 (Spec.profilePoints profile +
        Spec.qualityLadder (Spec.qualityCount (repos.filter fun r => !r.fork)) +
        (if checkNamingConsistency (repos.filter fun r => !r.fork) = true then 5 else 2)) := by
      omega
    exact_mod_cast this
  have hdep : (4 : ℚ) ≤ (analyzeTechnicalDepth (repos.filter fun r => !r.fork)).score := by
    rw [analyzeTechnicalDepth_score_eq]
    unfold Spec.technicalDepthScore
    rw [hlen]
    have h4 : Spec.repoLadder 12 = 4 := by decide
    rw [h4]
    have : 4 ≤ min 10 (Spec.langLadder
        (Spec.distinctLanguages (repos.filter fun r => !r.fork)) + 4) := by
      omega
    exact_mod_cast this
  have hover : 44 ≤ (performAnalysis profile repos events now).overallScore := by
    show 44 ≤ jsRound _
    apply le_jsRound
    push_cast
    linarith
  exact ⟨hdoc, hact, hover, badge_of_ge_40 _ (by omega)⟩

/-- Witness of C12 (as amended) on `scenarioProfile`, twelve copies of `plainRepo` and
`scenarioEvents`. -/
theorem scenario_overall_witness :
    (Spec.present scenarioProfile.bio ∧ Spec.present scenarioProfile.location ∧
      Spec.present scenarioProfile.blog ∧
      (plainRepos.filter fun r => !r.fork).length = 12 ∧
      Spec.eventsWithin 30 scenarioEvents 0 = 50 ∧
      Spec.eventsWithin 90 scenarioEvents 0 = 100) ∧
    ((performAnalysis scenarioProfile plainRepos scenarioEvents 0).metrics.documentation.score
        = 14 ∧
      (performAnalysis scenarioProfile plainRepos scenarioEvents 0).metrics.activity.score = 20 ∧
      44 ≤ (performAnalysis scenarioProfile plainRepos scenarioEvents 0).overallScore ∧
      (displayOverallScore
          (performAnalysis scenarioProfile plainRepos scenarioEvents 0).overallScore).badge
        ∈ ["Needs Work", "Above Average", "Recruiter Ready"]) :=
  ⟨⟨by decide, by decide, by decide, by decide, scenarioEvents_ok.1, scenarioEvents_ok.2⟩,
    scenario_overall scenarioProfile plainRepos scenarioEvents 0 (by decide) (by decide)
      (by decide) (by decide) plainRepos_ok.2.2 scenarioEvents_ok.1 scenarioEvents_ok.2⟩

/-- C12 as stated fails: a profile with bio, location and blog, twelve non-fork
repositories with a description longer than 20, a positive size, no homepage and no
topics, 50 events within 30 days and 100 within 90 days have the overall score 44, below
80, and the badge "Needs Work". -/
theorem scenario_overall_not_excellent :
    (Spec.present scenarioProfile.bio ∧ Spec.present scenarioProfile.location ∧
      Spec.present scenarioProfile.blog ∧
      (plainRepos.filter fun r => !r.fork).length = 12 ∧
      (∀ r ∈ plainRepos, r.fork = false →
        (∃ d, r.description = some d ∧ 20 < jsLength d) ∧ 0 < r.size ∧
          ¬ Spec.present r.homepage ∧ ¬ Spec.topicsNonEmpty r) ∧
      Spec.eventsWithin 30 scenarioEvents 0 = 50 ∧
      Spec.eventsWithin 90 scenarioEvents 0 = 100) ∧
    (performAnalysis scenarioProfile plainRepos scenarioEvents 0).overallScore = 44 ∧
    ¬ (80 ≤ (performAnalysis scenarioProfile plainRepos scenarioEvents 0).overallScore) ∧
    (displayOverallScore
        (performAnalysis scenarioProfile plainRepos scenarioEvents 0).overallScore).badge
      = "Needs Work" := by
  have h44 : (performAnalysis scenarioProfile plainRepos scenarioEvents 0).overallScore = 44 := by
    show jsRound ((analyzeDocumentation (plainRepos.filter fun r => !r.fork)).score +
      (analyzeStructure (plainRepos.filter fun r => !r.fork)).score +
      (analyzeActivity scenarioEvents plainRepos 0).score +
      (analyzeOrganization scenarioProfile (plainRepos.filter fun r => !r.fork)).score +
      (analyzeImpact (plainRepos.filter fun r => !r.fork)).score +
      (analyzeTechnicalDepth (plainRepos.filter fun r => !r.fork)).score) = 44
    rw [plainRepos_ok.1]
    obtain ⟨h1, h2, h3, h4, h5, h6⟩ := plain_scores
    rw [h1, h2, h3, h4, h5, h6]
    norm_num [jsRound]
  refine ⟨⟨by decide, by decide, by decide, by decide, plainRepos_ok.2.2,
    scenarioEvents_ok.1, scenarioEvents_ok.2⟩, h44, ?_, ?_⟩
  · rw [h44]; decide
  · rw [h44]; decide

/-- C13: for zero repositories, zero events and a profile with no bio and no location
`performAnalysis` gives documentation, structure, activity, impact and technical depth 0
and an overall score equal to the organization score, which is 2 when blog and company are
absent as well; the red flags contain the incomplete-profile sentence and the
documentation sentence. -/
theorem performAnalysis_minimal (profile : Profile) (now sixMonthsAgo : Int)
    (hbio : ¬ Spec.present profile.bio) (hloc : ¬ Spec.present profile.location) :
    (performAnalysis profile [] [] now).metrics.documentation.score = 0 ∧
    (performAnalysis profile [] [] now).metrics.structure_.score = 0 ∧
    (performAnalysis profile [] [] now).metrics.activity.score = 0 ∧
    (performAnalysis profile [] [] now).metrics.impact.score = 0 ∧
    (performAnalysis profile [] [] now).metrics.technicalDepth.score = 0 ∧
    (((performAnalysis profile [] [] now).overallScore : ℤ) : ℚ)
      = (performAnalysis profile [] [] now).metrics.organization.score ∧
    (¬ Spec.present profile.blog → ¬ Spec.present profile.company →
      (performAnalysis profile [] [] now).metrics.organization.score = 2 ∧
      (performAnalysis profile [] [] now).overallScore = 2) ∧
    flagProfile ∈ identifyRedFlags (performAnalysis profile [] [] now) sixMonthsAgo ∧
    flagDocumentation ∈ identifyRedFlags (performAnalysis profile [] [] now) sixMonthsAgo := by
  have hdoc : (analyzeDocumentation []).score = 0 := by
    rw [analyzeDocumentation_score_eq]; simp [Spec.documentationScore]
  have hstr : (analyzeStructure []).score = 0 := by
    rw [analyzeStructure_score_eq]; simp [Spec.structureScore]
  have hact : (analyzeActivity [] [] now).score = 0 := by
    rw [analyzeActivity_score_eq]
    have : Spec.activityScore [] now = 0 := by
      simp [Spec.activityScore, Spec.eventsWithin, Spec.L30, Spec.L90]
    rw [this]; norm_num
  have himp : (analyzeImpact []).score = 0 := by
    rw [analyzeImpact_score_eq]
    have : Spec.impactScore [] = 0 := by decide
    rw [this]; norm_num
  have hdep : (analyzeTechnicalDepth []).score = 0 := by
    rw [analyzeTechnicalDepth_score_eq]
    have : Spec.technicalDepthScore [] = 0 := by decide
    rw [this]; norm_num
  have horg := analyzeOrganization_nil profile
  have hover : (performAnalysis profile [] [] now).overallScore
      = ((Spec.profilePoints profile + 2 : Nat) : ℤ) := by
    show jsRound ((analyzeDocumentation []).score + (analyzeStructure []).score +
      (analyzeActivity [] [] now).score + (analyzeOrganization profile []).score +
      (analyzeImpact []).score + (analyzeTechnicalDepth []).score) = _
    rw [hdoc, hstr, hact, himp, hdep, horg]
    have : (0 : ℚ) + 0 + 0 + ((Spec.profilePoints profile + 2 : Nat) : ℚ) + 0 + 0
        = (((Spec.profilePoints profile + 2 : Nat) : ℤ) : ℚ) := by
      push_cast; ring
    rw [this, jsRound_intCast]
  have hfired : flagProfile ∈ Spec.firedRedFlags (performAnalysis profile [] [] now) sixMonthsAgo ∧
      flagDocumentation ∈ Spec.firedRedFlags (performAnalysis profile [] [] now) sixMonthsAgo := by
    have hd : (performAnalysis profile [] [] now).metrics.documentation.score < 10 := by
      show (analyzeDocumentation []).score < 10
      rw [hdoc]; norm_num
    have hp : ¬ Spec.present (performAnalysis profile [] [] now).profile.bio ∨
        ¬ Spec.present (performAnalysis profile [] [] now).profile.location := Or.inl hbio
    unfold Spec.firedRedFlags
    simp only [List.mem_append, mem_ite_singleton]
    constructor
    · exact Or.inl (Or.inl (Or.inl (Or.inr ⟨hp, trivial⟩)))
    · exact Or.inl (Or.inl (Or.inl (Or.inl (Or.inl (Or.inl ⟨hd, trivial⟩)))))
  have hne : Spec.firedRedFlags (performAnalysis profile [] [] now) sixMonthsAgo ≠ [] := by
    intro e
    have := hfired.1
    rw [e] at this
    simp at this
  have hflags : identifyRedFlags (performAnalysis profile [] [] now) sixMonthsAgo
      = Spec.firedRedFlags (performAnalysis profile [] [] now) sixMonthsAgo := by
    rw [identifyRedFlags_eq, Spec.redFlags, if_neg hne]
  refine ⟨hdoc, hstr, hact, himp, hdep, ?_, ?_, ?_, ?_⟩
  · rw [hover]
    show _ = (analyzeOrganization profile []).score
    rw [horg]
    push_cast; rfl
  · intro hblog hcomp
    have hp0 : Spec.profilePoints profile = 0 := by
      unfold Spec.profilePoints
      simp [hbio, hloc, hblog, hcomp]
    constructor
    · show (analyzeOrganization profile []).score = 2
      rw [horg, hp0]; norm_num
    · rw [hover, hp0]; rfl
  · rw [hflags]; exact hfired.1
  · rw [hflags]; exact hfired.2

/-- Witness of C13 on the profile with no field set. -/
theorem performAnalysis_minimal_witness :
    (¬ Spec.present emptyProfile.bio ∧ ¬ Spec.present emptyProfile.location) ∧
    (performAnalysis emptyProfile [] [] 0).metrics.documentation.score = 0 ∧
    flagProfile ∈ identifyRedFlags (performAnalysis emptyProfile [] [] 0) 0 ∧
    flagDocumentation ∈ identifyRedFlags (performAnalysis emptyProfile [] [] 0) 0 :=
  ⟨⟨by decide, by decide⟩,
    (performAnalysis_minimal emptyProfile 0 0 (by decide) (by decide)).1,
    (performAnalysis_minimal emptyProfile 0 0 (by decide) (by decide)).2.2.2.2.2.2.2⟩

/-! ## C28: the activity score is monotone in the events -/

theorem L30_mono {a b : Nat} (h : a ≤ b) : Spec.L30 a ≤ Spec.L30 b := by
  unfold Spec.L30; split_ifs <;> omega

theorem L90_mono {a b : Nat} (h : a ≤ b) : Spec.L90 a ≤ Spec.L90 b := by
  unfold Spec.L90; split_ifs <;> omega

theorem eventsWithin_insert (days : Int) (events1 events2 : List Event) (e : Event) (now : Int) :
    Spec.eventsWithin days (events1 ++ events2) now
      ≤ Spec.eventsWithin days (events1 ++ e :: events2) now := by
  unfold Spec.eventsWithin
  rw [List.countP_append, List.countP_append, List.countP_cons]
  omega

/-- C28: for a fixed time the events of the 30-day window are at most as many as those of
the 90-day window, and inserting an event anywhere into the event list never decreases the
score of `analyzeActivity`. -/
theorem analyzeActivity_monotone (events1 events2 : List Event) (e : Event)
    (repos : List Repo) (now : Int) :
    (∀ events : List Event,
      (events.filter fun ev => decide (ev.created_at > now - 30 * 24 * 60 * 60 * 1000)).length
        ≤ (events.filter fun ev =>
            decide (ev.created_at > now - 90 * 24 * 60 * 60 * 1000)).length) ∧
    (analyzeActivity (events1 ++ events2) repos now).score
      ≤ (analyzeActivity (events1 ++ e :: events2) repos now).score ∧
    (analyzeActivity events2 repos now).score
      ≤ (analyzeActivity (e :: events2) repos now).score := by
  have hins : ∀ l1 l2 : List Event, (analyzeActivity (l1 ++ l2) repos now).score
      ≤ (analyzeActivity (l1 ++ e :: l2) repos now).score := by
    intro l1 l2
    rw [analyzeActivity_score_eq, analyzeActivity_score_eq]
    unfold Spec.activityScore
    have h30 := L30_mono (eventsWithin_insert 30 l1 l2 e now)
    have h90 := L90_mono (eventsWithin_insert 90 l1 l2 e now)
    have : min 20 (Spec.L30 (Spec.eventsWithin 30 (l1 ++ l2) now) +
        Spec.L90 (Spec.eventsWithin 90 (l1 ++ l2) now))
        ≤ min 20 (Spec.L30 (Spec.eventsWithin 30 (l1 ++ e :: l2) now) +
        Spec.L90 (Spec.eventsWithin 90 (l1 ++ e :: l2) now)) := by
      omega
    exact_mod_cast this
  refine ⟨?_, hins events1 events2, hins [] events2⟩
  intro events
  rw [← List.countP_eq_length_filter, ← List.countP_eq_length_filter]
  apply List.countP_mono_left
  intro ev _ h
  simp only [decide_eq_true_eq, gt_iff_lt] at h ⊢
  omega

/-! ## C27: strengths against red flags -/

theorem strengthSentences_nodup :
    [strengthFallback, strengthDocumentation, strengthActivity, strengthImpact, strengthDepth,
      strengthProfile, strengthPortfolio].Nodup := by
  decide

theorem flagSentences_nodup :
    [flagFallback, flagDocumentation, flagActivity, flagImpact, flagProfile, flagForks,
      flagDepth, flagRecent].Nodup := by
  decide

theorem mem_identifyStrengths (a : Analysis) (x : String) (hx : x ≠ strengthFallback) :
    x ∈ identifyStrengths a ↔
      (a.metrics.documentation.score ≥ 15 ∧ x = strengthDocumentation) ∨
      (a.metrics.activity.score ≥ 15 ∧ x = strengthActivity) ∨
      (a.metrics.impact.score ≥ 10 ∧ x = strengthImpact) ∨
      (a.metrics.technicalDepth.score ≥ 7 ∧ x = strengthDepth) ∨
      ((Spec.present a.profile.bio ∧ Spec.present a.profile.location ∧
        (Spec.present a.profile.blog ∨ Spec.present a.profile.company)) ∧ x = strengthProfile) ∨
      ((a.repos.countP fun r => !r.fork) ≥ 10 ∧ x = strengthPortfolio) := by
  have hf : x ∈ Spec.firedStrengths a ↔
      (a.metrics.documentation.score ≥ 15 ∧ x = strengthDocumentation) ∨
      (a.metrics.activity.score ≥ 15 ∧ x = strengthActivity) ∨
      (a.metrics.impact.score ≥ 10 ∧ x = strengthImpact) ∨
      (a.metrics.technicalDepth.score ≥ 7 ∧ x = strengthDepth) ∨
      ((Spec.present a.profile.bio ∧ Spec.present a.profile.location ∧
        (Spec.present a.profile.blog ∨ Spec.present a.profile.company)) ∧ x = strengthProfile) ∨
      ((a.repos.countP fun r => !r.fork) ≥ 10 ∧ x = strengthPortfolio) := by
    unfold Spec.firedStrengths
    simp only [List.mem_append, mem_ite_singleton, or_assoc]
  rw [identifyStrengths_eq, ← hf]
  unfold Spec.strengths
  by_cases h : Spec.firedStrengths a = []
  · rw [if_pos h, h]
    simp [hx]
  · rw [if_neg h]

theorem mem_identifyRedFlags (a : Analysis) (t : Int) (x : String) (hx : x ≠ flagFallback) :
    x ∈ identifyRedFlags a t ↔
      (a.metrics.documentation.score < 10 ∧ x = flagDocumentation) ∨
      (a.metrics.activity.score < 8 ∧ x = flagActivity) ∨
      (a.metrics.impact.score < 5 ∧ x = flagImpact) ∨
      ((¬ Spec.present a.profile.bio ∨ ¬ Spec.present a.profile.location) ∧ x = flagProfile) ∨
      ((Spec.forkRatio a.repos > 0.7 ∧ a.repos.length > 5) ∧ x = flagForks) ∨
      (a.metrics.technicalDepth.score < 4 ∧ x = flagDepth) ∨
      (Spec.noRecentRepo a.repos t ∧ x = flagRecent) := by
  have hf : x ∈ Spec.firedRedFlags a t ↔
      (a.metrics.documentation.score < 10 ∧ x = flagDocumentation) ∨
      (a.metrics.activity.score < 8 ∧ x = flagActivity) ∨
      (a.metrics.impact.score < 5 ∧ x = flagImpact) ∨
      ((¬ Spec.present a.profile.bio ∨ ¬ Spec.present a.profile.location) ∧ x = flagProfile) ∨
      ((Spec.forkRatio a.repos > 0.7 ∧ a.repos.length > 5) ∧ x = flagForks) ∨
      (a.metrics.technicalDepth.score < 4 ∧ x = flagDepth) ∨
      (Spec.noRecentRepo a.repos t ∧ x = flagRecent) := by
    unfold Spec.firedRedFlags
    simp only [List.mem_append, mem_ite_singleton, or_assoc]
  rw [identifyRedFlags_eq, ← hf]
  unfold Spec.redFlags
  by_cases h : Spec.firedRedFlags a t = []
  · rw [if_pos h, h]
    simp [hx]
  · rw [if_neg h]

theorem repoLadder_ge_four {n : Nat} (h : 10 ≤ n) : 4 ≤ Spec.repoLadder n := by
  unfold Spec.repoLadder; split_ifs <;> omega

/-- C27: in the result of `performAnalysis` no dimension is both a strength and a red
flag: the documentation, activity, impact, technical-depth and profile sentences of
`identifyStrengths` never occur together with the red-flag sentence of the same dimension,
and when the portfolio strength (at least 10 non-fork repositories) is present the
technical-depth score is at least 4 and the language-diversity red flag is absent. -/
theorem strengths_exclude_redFlags (profile : Profile) (repos : List Repo)
    (events : List Event) (now sixMonthsAgo : Int) :
    ¬ (strengthDocumentation ∈ identifyStrengths (performAnalysis profile repos events now) ∧
        flagDocumentation ∈
          identifyRedFlags (performAnalysis profile repos events now) sixMonthsAgo) ∧
    ¬ (strengthActivity ∈ identifyStrengths (performAnalysis profile repos events now) ∧
        flagActivity ∈
          identifyRedFlags (performAnalysis profile repos events now) sixMonthsAgo) ∧
    ¬ (strengthImpact ∈ identifyStrengths (performAnalysis profile repos events now) ∧
        flagImpact ∈
          identifyRedFlags (performAnalysis profile repos events now) sixMonthsAgo) ∧
    ¬ (strengthDepth ∈ identifyStrengths (performAnalysis profile repos events now) ∧
        flagDepth ∈
          identifyRedFlags (performAnalysis profile repos events now) sixMonthsAgo) ∧
    ¬ (strengthProfile ∈ identifyStrengths (performAnalysis profile repos events now) ∧
        flagProfile ∈
          identifyRedFlags (performAnalysis profile repos events now) sixMonthsAgo) ∧
    (strengthPortfolio ∈ identifyStrengths (performAnalysis profile repos events now) →
      4 ≤ (performAnalysis profile repos events now).metrics.technicalDepth.score ∧
      flagDepth ∉ identifyRedFlags (performAnalysis profile repos events now) sixMonthsAgo) := by
  refine ⟨?_, ?_, ?_, ?_, ?_, ?_⟩
  · rintro ⟨hs, hf⟩
    rw [mem_identifyStrengths _ _ (by decide)] at hs
    rw [mem_identifyRedFlags _ _ _ (by decide)] at hf
    simp +decide at hs hf
    linarith
  · rintro ⟨hs, hf⟩
    rw [mem_identifyStrengths _ _ (by decide)] at hs
    rw [mem_identifyRedFlags _ _ _ (by decide)] at hf
    simp +decide at hs hf
    linarith
  · rintro ⟨hs, hf⟩
    rw [mem_identifyStrengths _ _ (by decide)] at hs
    rw [mem_identifyRedFlags _ _ _ (by decide)] at hf
    simp +decide at hs hf
    linarith
  · rintro ⟨hs, hf⟩
    rw [mem_identifyStrengths _ _ (by decide)] at hs
    rw [mem_identifyRedFlags _ _ _ (by decide)] at hf
    simp +decide at hs hf
    linarith
  · rintro ⟨hs, hf⟩
    rw [mem_identifyStrengths _ _ (by decide)] at hs
    rw [mem_identifyRedFlags _ _ _ (by decide)] at hf
    simp +decide at hs hf
    tauto
  · intro hs
    rw [mem_identifyStrengths _ _ (by decide)] at hs
    simp +decide at hs
    have hlen : 10 ≤ (repos.filter fun r => !r.fork).length := by
      rw [← List.countP_eq_length_filter]; exact hs
    have h4 : (4 : ℚ) ≤ (performAnalysis profile repos events now).metrics.technicalDepth.score := by
      show (4 : ℚ) ≤ (analyzeTechnicalDepth (repos.filter fun r => !r.fork)).score
      rw [analyzeTechnicalDepth_score_eq]
      unfold Spec.technicalDepthScore
      have := repoLadder_ge_four hlen
      have : 4 ≤ min 10 (Spec.langLadder
          (Spec.distinctLanguages (repos.filter fun r => !r.fork)) +
          Spec.repoLadder (repos.filter fun r => !r.fork).length) := by
        omega
      exact_mod_cast this
    refine ⟨h4, ?_⟩
    intro hf
    rw [mem_identifyRedFlags _ _ _ (by decide)] at hf
    simp +decide at hf
    linarith

/-! ## C26: what the cut to six records removes -/

set_option maxRecDepth 100000 in
theorem generatedOf_facts : ∀ b1 b2 b3 b4 b5 b6 : Bool,
    (∀ r ∈ Spec.generatedOf b1 b2 b3 b4 b5 b6, r.priority ≠ Priority.low →
      r ∈ (Spec.stableSortByPriority (Spec.generatedOf b1 b2 b3 b4 b5 b6)).take 6) ∧
    2 ≤ ((Spec.stableSortByPriority (Spec.generatedOf b1 b2 b3 b4 b5 b6)).take 6).length ∧
    (recTesting ∈ (Spec.stableSortByPriority (Spec.generatedOf b1 b2 b3 b4 b5 b6)).take 6 ↔
      b1.toNat + b2.toNat + b3.toNat + b4.toNat + b5.toNat + b6.toNat ≤ 4) := by
  decide

theorem toNat_decide (c : Prop) [Decidable c] : (decide c).toNat = if c then 1 else 0 := by
  by_cases h : c <;> simp [h]

theorem generated_eq_generatedOf (a : Analysis) :
    Spec.generated a = Spec.generatedOf
      (decide (a.metrics.documentation.score < 15))
      (decide (a.metrics.activity.score < 12))
      (decide (¬ Spec.present a.profile.bio ∨ ¬ Spec.present a.profile.location ∨
        ¬ Spec.present a.profile.blog))
      (decide (a.metrics.impact.score < 8))
      (decide (a.metrics.technicalDepth.score < 6))
      (decide (a.metrics.organization.score < 10)) := by
  unfold Spec.generated Spec.generatedOf
  simp only [decide_eq_true_eq]

/-- C26: the cut of the sorted recommendations to six removes low-priority records only:
every pushed record of high or medium priority, the pin-repositories record among them,
is in the final list, a pushed record that is missing from it has low priority, the final
list has at least 2 entries, and the testing record is in it iff at most 4 of the 6
conditional records were pushed. -/
theorem generateRecommendations_cut (a : Analysis) :
    (∀ r ∈ generateRecommendations.pushed a, r.priority ≠ Priority.low →
      r ∈ generateRecommendations a) ∧
    (∀ r ∈ generateRecommendations.pushed a, r ∉ generateRecommendations a →
      r.priority = Priority.low) ∧
    recPin ∈ generateRecommendations.pushed a ∧
    recPin ∈ generateRecommendations a ∧
    recTesting ∈ generateRecommendations.pushed a ∧
    2 ≤ (generateRecommendations a).length ∧
    (generateRecommendations.pushed a).length = Spec.conditionalCount a + 2 ∧
    (recTesting ∈ generateRecommendations a ↔ Spec.conditionalCount a ≤ 4) := by
  obtain ⟨h1, h2, h3⟩ := generatedOf_facts
    (decide (a.metrics.documentation.score < 15))
    (decide (a.metrics.activity.score < 12))
    (decide (¬ Spec.present a.profile.bio ∨ ¬ Spec.present a.profile.location ∨
      ¬ Spec.present a.profile.blog))
    (decide (a.metrics.impact.score < 8))
    (decide (a.metrics.technicalDepth.score < 6))
    (decide (a.metrics.organization.score < 10))
  rw [← generated_eq_generatedOf] at h1 h2 h3
  rw [← generateRecommendations_eq] at h1 h2 h3
  rw [← pushed_eq_generated] at h1
  simp only [toNat_decide] at h3
  have hpin : recPin ∈ generateRecommendations.pushed a := by
    rw [pushed_eq_generated]; unfold Spec.generated; simp
  have htest : recTesting ∈ generateRecommendations.pushed a := by
    rw [pushed_eq_generated]; unfold Spec.generated; simp
  have hlen : (generateRecommendations.pushed a).length = Spec.conditionalCount a + 2 := by
    rw [pushed_eq_generated]
    unfold Spec.generated Spec.conditionalCount
    simp only [List.length_append, List.length_singleton]
    split_ifs <;> simp
  refine ⟨h1, ?_, hpin, h1 recPin hpin (by decide), htest, h2, hlen, ?_⟩
  · intro r hr hnot
    by_contra hlow
    exact hnot (h1 r hr hlow)
  · rw [h3]
    unfold Spec.conditionalCount
    constructor <;> intro h <;> omega

/-! ## C21: inputs without an account name -/

theorem firstPart_no_slash (s : List Char) : '/' ∉ firstPart s := by
  unfold firstPart
  intro h
  have := List.mem_takeWhile_imp h
  simp at this

theorem firstPart_eq_nil_iff (s : List Char) :
    firstPart s = [] ↔ (s = [] ∨ s.head? = some '/') := by
  unfold firstPart
  cases s with
  | nil => simp
  | cons c cs =>
    by_cases hc : c = '/'
    · simp [List.takeWhile_cons, hc]
    · simp [List.takeWhile_cons, hc]

theorem extractUsernameChars_eq_none_iff (s : List Char) :
    extractUsernameChars s = none ↔
      (replaceTrailingSlash (replaceGithubUrl s) = [] ∨
        (replaceTrailingSlash (replaceGithubUrl s)).head? = some '/') := by
  rw [← firstPart_eq_nil_iff]
  unfold extractUsernameChars
  cases h : firstPart (replaceTrailingSlash (replaceGithubUrl s)) with
  | nil => simp [h]
  | cons c cs => simp [h]

theorem extractUsername_eq_none_iff (input : String) :
    extractUsername input = none ↔ extractUsernameChars input.data = none := by
  unfold extractUsername
  cases extractUsernameChars input.data <;> simp

theorem extractUsername_some (input u : String) (h : extractUsername input = some u) :
    u ≠ "" ∧ '/' ∉ u.data := by
  unfold extractUsername extractUsernameChars at h
  cases hp : firstPart (replaceTrailingSlash (replaceGithubUrl input.data)) with
  | nil => simp [hp] at h
  | cons c cs =>
    simp only [hp, List.isEmpty_cons, Bool.false_eq_true, if_false, Option.map_some',
      Option.some.injEq] at h
    subst h
    constructor
    · intro e
      have := congrArg String.data e
      simp at this
    · show '/' ∉ c :: cs
      rw [← hp]
      exact firstPart_no_slash _

theorem startAnalysis_of_none (value : String) (h : extractUsername (jsTrim value) = none) :
    startAnalysis value = [Action.showError "Please enter a GitHub username"] ∨
    startAnalysis value = [Action.showError "Please enter a valid GitHub username"] := by
  unfold startAnalysis
  by_cases ht : truthy (some (jsTrim value)) = true
  · right
    have hn : truthy (none : Option String) = false := rfl
    simp only [ht, h, hn, Bool.not_true, Bool.not_false, Bool.false_eq_true, if_false, if_true]
  · left
    simp [ht]

theorem startAnalysis_analyzeProfile (value u : String)
    (h : Action.analyzeProfile u ∈ startAnalysis value) :
    extractUsername (jsTrim value) = some u := by
  cases he : extractUsername (jsTrim value) with
  | none =>
    rcases startAnalysis_of_none value he with e | e <;> rw [e] at h <;> simp at h
  | some v =>
    unfold startAnalysis at h
    by_cases ht : truthy (some (jsTrim value)) = true
    · by_cases hv : truthy (some v) = true
      · simp [ht, he, hv] at h
        rw [h]
      · simp [ht, he, hv] at h
    · simp [ht] at h

theorem matchGithubUrl_some (s r : List Char) (h : matchGithubUrl s = some r) :
    s = "https://www.github.com/".data ++ r ∨ s = "https://github.com/".data ++ r ∨
    s = "http://www.github.com/".data ++ r ∨ s = "http://github.com/".data ++ r := by
  unfold matchGithubUrl at h
  cases h0 : matchLit "http".data s with
  | none => rw [h0] at h; simp at h
  | some s0 =>
    rw [h0] at h
    simp only [Option.bind_some] at h
    have e0 := matchLit_some _ _ _ h0
    have key : ∀ s1, ((matchLit "://".data s1).bind
        (matchOpt "www.".data fun s2 => matchLit "github.com/".data s2)) = some r →
        s1 = "://www.github.com/".data ++ r ∨ s1 = "://github.com/".data ++ r := by
      intro s1 h1
      cases h2 : matchLit "://".data s1 with
      | none => rw [h2] at h1; simp at h1
      | some s2 =>
        rw [h2] at h1
        simp only [Option.bind_some] at h1
        have e2 := matchLit_some _ _ _ h2
        rcases matchOpt_some _ _ _ _ h1 with ⟨s3, h3, h4⟩ | h4
        · left
          rw [e2, matchLit_some _ _ _ h3, matchLit_some _ _ _ h4]
          rfl
        · right
          rw [e2, matchLit_some _ _ _ h4]
          rfl
    rcases matchOpt_some _ _ _ _ h with ⟨s1, h1, h2⟩ | h2
    · have e1 := matchLit_some _ _ _ h1
      rcases key s1 h2 with e | e
      · left; rw [e0, e1, e]; rfl
      · right; left; rw [e0, e1, e]; rfl
    · rcases key s0 h2 with e | e
      · right; right; left; rw [e0, e]; rfl
      · right; right; right; rw [e0, e]; rfl

theorem afterHost_https_www (r : List Char) :
    Spec.afterHost ("https://www.github.com/".data ++ r) = r := by
  simp [Spec.afterHost, Spec.hostStarts, Spec.startsWith]

theorem afterHost_https (r : List Char) :
    Spec.afterHost ("https://github.com/".data ++ r) = r := by
  simp [Spec.afterHost, Spec.hostStarts, Spec.startsWith]

theorem afterHost_http_www (r : List Char) :
    Spec.afterHost ("http://www.github.com/".data ++ r) = r := by
  simp [Spec.afterHost, Spec.hostStarts, Spec.startsWith]

theorem afterHost_http (r : List Char) :
    Spec.afterHost ("http://github.com/".data ++ r) = r := by
  simp [Spec.afterHost, Spec.hostStarts, Spec.startsWith]

theorem eq_append_of_startsWith (p s : List Char) (h : Spec.startsWith p s = true) :
    s = p ++ s.drop p.length := by
  unfold Spec.startsWith at h
  have h2 : s.take p.length = p := by simpa using h
  conv_lhs => rw [← List.take_append_drop p.length s, h2]

theorem replaceGithubUrl_eq_afterHost (s : List Char) :
    replaceGithubUrl s = Spec.afterHost s := by
  cases hm : matchGithubUrl s with
  | some r =>
    have hr : replaceGithubUrl s = r := by unfold replaceGithubUrl; rw [hm]
    rw [hr]
    rcases matchGithubUrl_some s r hm with e | e | e | e
    · rw [e, afterHost_https_www]
    · rw [e, afterHost_https]
    · rw [e, afterHost_http_www]
    · rw [e, afterHost_http]
  | none =>
    have hr : replaceGithubUrl s = s := by unfold replaceGithubUrl; rw [hm]
    rw [hr]
    have hno : ∀ p : List Char, (∀ r, replaceGithubUrl (p ++ r) = r) → p ≠ [] →
        Spec.startsWith p s = false := by
      intro p hp hne
      by_contra hstart
      have hs : Spec.startsWith p s = true := by simpa using hstart
      have e := eq_append_of_startsWith p s hs
      have h1 := hp (s.drop p.length)
      rw [← e, hr] at h1
      have hl := congrArg List.length e
      rw [List.length_append, ← h1] at hl
      have : 0 < p.length := List.length_pos.2 hne
      omega
    unfold Spec.afterHost Spec.hostStarts
    simp only [List.find?, hno _ replaceGithubUrl_https_www (by decide),
      hno _ replaceGithubUrl_https (by decide), hno _ replaceGithubUrl_http_www (by decide),
      hno _ replaceGithubUrl_http (by decide)]

theorem replaceTrailingSlash_eq (s : List Char) :
    replaceTrailingSlash s = Spec.withoutTrailingSlash s := by
  unfold replaceTrailingSlash Spec.withoutTrailingSlash
  rcases List.eq_nil_or_concat s with e | ⟨t, c, e⟩
  · subst e; rfl
  · subst e
    rw [List.concat_eq_append]
    have hrev : (t ++ [c]).reverse = c :: t.reverse := by simp
    have hlast : (t ++ [c]).getLast? = some c := by simp
    rw [hrev, hlast]
    by_cases hc : c = '/'
    · subst hc; simp
    · have h1 : ¬ (some c = some '/') := by simpa using hc
      rw [if_neg h1]
      split
      · rename_i heq
        exact absurd (List.cons.inj heq).1 hc
      · rfl

theorem extractUsername_none_iff_rejected (input : String) :
    extractUsername input = none ↔ Spec.rejected input.data := by
  rw [extractUsername_eq_none_iff, extractUsernameChars_eq_none_iff,
    replaceGithubUrl_eq_afterHost, replaceTrailingSlash_eq]
  rfl

theorem slash_rejected (t : List Char) :
    Spec.withoutTrailingSlash ('/' :: t) = [] ∨
      (Spec.withoutTrailingSlash ('/' :: t)).head? = some '/' := by
  rw [← replaceTrailingSlash_eq]
  rcases replaceTrailingSlash_cases ('/' :: t) with e | e
  · rw [e]; right; rfl
  · rw [e]
    cases t with
    | nil => left; rfl
    | cons c cs => right; rfl

theorem afterHost_hostStart (p : List Char) (hp : p ∈ Spec.hostStarts) (r : List Char) :
    Spec.afterHost (p ++ r) = r := by
  simp only [Spec.hostStarts, List.mem_cons, List.mem_singleton, List.not_mem_nil,
    or_false] at hp
  rcases hp with e | e | e | e
  · rw [e, afterHost_https_www]
  · rw [e, afterHost_https]
  · rw [e, afterHost_http_www]
  · rw [e, afterHost_http]

theorem afterHost_slash (t : List Char) : Spec.afterHost ('/' :: t) = '/' :: t := by
  simp [Spec.afterHost, Spec.hostStarts, Spec.startsWith]

/-- C21: for every input `extractUsername` returns `null` or a non-empty string without a
slash; it returns `null` for the empty string and exactly for the inputs that are rejected:
those that, once a start `http://` or `https://`, `www.` or not, `github.com/` and then one
slash at the end are taken away, are empty or begin with a slash. So it returns `null` for
each of the four host starts alone, for a host start followed by a slash and anything, and
for a slash followed by anything. On such a trimmed input `startAnalysis` shows an error
message and does nothing else, and `analyzeProfile`, which does the fetches, is called only
with an account name that `extractUsername` returned. -/
theorem extractUsername_null_or_handle (input : String) :
    (extractUsername input = none ∨
      ∃ u, extractUsername input = some u ∧ u ≠ "" ∧ '/' ∉ u.data) ∧
    extractUsername "" = none ∧
    (extractUsername input = none ↔ Spec.rejected input.data) ∧
    (∀ p ∈ Spec.hostStarts, extractUsername (String.mk p) = none ∧
      ∀ t : List Char, extractUsername (String.mk (p ++ '/' :: t)) = none) ∧
    (∀ t : List Char, extractUsername (String.mk ('/' :: t)) = none) ∧
    (extractUsername "https://github.com/" = none ∧
      extractUsername "http://www.github.com//" = none ∧
      extractUsername "https://www.github.com//someuser" = none ∧
      extractUsername "/someuser" = none ∧ extractUsername "/" = none ∧
      extractUsername "https://github.com/someuser" = some "someuser" ∧
      extractUsername "https:/" = some "https:") ∧
    (∀ value : String, extractUsername (jsTrim value) = none →
      ∃ message, startAnalysis value = [Action.showError message]) ∧
    (∀ value u : String, Action.analyzeProfile u ∈ startAnalysis value →
      extractUsername (jsTrim value) = some u) := by
  refine ⟨?_, by decide, extractUsername_none_iff_rejected input, ?_, ?_, by decide, ?_,
    startAnalysis_analyzeProfile⟩
  · cases h : extractUsername input with
    | none => left; rfl
    | some u => right; exact ⟨u, rfl, extractUsername_some input u h⟩
  · intro p hp
    refine ⟨?_, fun t => ?_⟩
    · rw [extractUsername_none_iff_rejected]
      have h := afterHost_hostStart p hp []
      rw [List.append_nil] at h
      left
      show Spec.withoutTrailingSlash (Spec.afterHost p) = []
      rw [h]; rfl
    · rw [extractUsername_none_iff_rejected]
      show Spec.withoutTrailingSlash (Spec.afterHost (p ++ '/' :: t)) = [] ∨ _
      rw [afterHost_hostStart p hp]
      exact slash_rejected t
  · intro t
    rw [extractUsername_none_iff_rejected]
    show Spec.withoutTrailingSlash (Spec.afterHost ('/' :: t)) = [] ∨ _
    rw [afterHost_slash]
    exact slash_rejected t
  · intro value h
    rcases startAnalysis_of_none value h with e | e
    · exact ⟨_, e⟩
    · exact ⟨_, e⟩

/-! ## The sort by a descending key -/

theorem sortInsert_perm {α : Type} (cmp : α → α → Int) (a : α) (l : List α) :
    (sortInsert cmp a l).Perm (a :: l) := by
  induction l with
  | nil => exact List.Perm.refl _
  | cons b l ih =>
    unfold sortInsert
    split_ifs
    · exact List.Perm.refl _
    · exact (List.Perm.cons b ih).trans (List.Perm.swap a b l)

theorem jsSort_perm {α : Type} (cmp : α → α → Int) (l : List α) :
    (jsSort cmp l).Perm l := by
  induction l with
  | nil => exact List.Perm.refl _
  | cons a l ih =>
    rw [jsSort_cons]
    exact (sortInsert_perm cmp a _).trans (List.Perm.cons a ih)

theorem sortInsert_sorted {α : Type} (cmp : α → α → Int) (key : α → Nat)
    (hcmp : ∀ a b, cmp a b ≤ 0 ↔ key b ≤ key a) (a : α) (l : List α)
    (hl : l.Pairwise fun x y => key y ≤ key x) :
    (sortInsert cmp a l).Pairwise fun x y => key y ≤ key x := by
  induction l with
  | nil => simp [sortInsert]
  | cons b l ih =>
    rw [List.pairwise_cons] at hl
    unfold sortInsert
    split_ifs with h
    · have hab : key b ≤ key a := (hcmp a b).1 h
      rw [List.pairwise_cons]
      refine ⟨?_, List.pairwise_cons.2 hl⟩
      intro y hy
      rcases List.mem_cons.1 hy with e | hy
      · rw [e]; exact hab
      · exact le_trans (hl.1 y hy) hab
    · have hab : ¬ key b ≤ key a := fun hh => h ((hcmp a b).2 hh)
      rw [List.pairwise_cons]
      refine ⟨?_, ih hl.2⟩
      intro y hy
      have hy2 : y ∈ a :: l := (sortInsert_perm cmp a l).subset hy
      rcases List.mem_cons.1 hy2 with e | hy3
      · rw [e]; omega
      · exact hl.1 y hy3

theorem jsSort_sorted {α : Type} (cmp : α → α → Int) (key : α → Nat)
    (hcmp : ∀ a b, cmp a b ≤ 0 ↔ key b ≤ key a) (l : List α) :
    (jsSort cmp l).Pairwise fun x y => key y ≤ key x := by
  induction l with
  | nil => exact List.Pairwise.nil
  | cons a l ih =>
    rw [jsSort_cons]
    exact sortInsert_sorted cmp key hcmp a _ ih

theorem sortInsert_filter {α : Type} (cmp : α → α → Int) (key : α → Nat)
    (hcmp : ∀ a b, cmp a b ≤ 0 ↔ key b ≤ key a) (k : Nat) (a : α) (l : List α) :
    (sortInsert cmp a l).filter (fun x => decide (key x = k))
      = (a :: l).filter (fun x => decide (key x = k)) := by
  induction l with
  | nil => rfl
  | cons b l ih =>
    unfold sortInsert
    split_ifs with h
    · rfl
    · have hab : ¬ key b ≤ key a := fun hh => h ((hcmp a b).2 hh)
      rw [List.filter_cons, ih]
      by_cases hak : key a = k
      · have hbk : ¬ key b = k := by omega
        simp [List.filter_cons, hak, hbk]
      · simp [List.filter_cons, hak]

theorem jsSort_filter {α : Type} (cmp : α → α → Int) (key : α → Nat)
    (hcmp : ∀ a b, cmp a b ≤ 0 ↔ key b ≤ key a) (k : Nat) (l : List α) :
    (jsSort cmp l).filter (fun x => decide (key x = k))
      = l.filter (fun x => decide (key x = k)) := by
  induction l with
  | nil => rfl
  | cons a l ih =>
    rw [jsSort_cons, sortInsert_filter cmp key hcmp, List.filter_cons, List.filter_cons, ih]

/-! ## C24: the top repositories -/

theorem topRepos_cmp (a b : Repo) :
    ((fun a b : Repo =>
      let scoreA : Int := (a.stargazers_count * 3) + (a.forks_count * 2) + a.watchers_count
      let scoreB : Int := (b.stargazers_count * 3) + (b.forks_count * 2) + b.watchers_count
      scoreB - scoreA) a b ≤ 0) ↔ Spec.rank b ≤ Spec.rank a := by
  simp only [Spec.rank]
  omega

theorem topRepos_sorted_perm (repos : List Repo) :
    (identifyTopRepos.sorted repos).Perm repos :=
  jsSort_perm _ repos

theorem topRepos_sorted_pairwise (repos : List Repo) :
    (identifyTopRepos.sorted repos).Pairwise fun x y => Spec.rank y ≤ Spec.rank x :=
  jsSort_sorted _ Spec.rank topRepos_cmp repos

theorem topRepos_sorted_filter (repos : List Repo) (k : Nat) :
    (identifyTopRepos.sorted repos).filter (fun r => decide (Spec.rank r = k))
      = repos.filter (fun r => decide (Spec.rank r = k)) :=
  jsSort_filter _ Spec.rank topRepos_cmp k repos

/-- C24: for every list of repositories `identifyTopRepos` returns the first `min(5, n)`
elements of the list sorted by rank (stargazers times 3 plus forks times 2 plus watchers)
in descending order, the sort being stable: the sorted array is a permutation of the input
with non-increasing ranks in which the repositories of each rank keep their input order;
the result is a sub-multiset of the input with non-increasing ranks, every returned
repository ranks at least as high as every omitted one, and the returned repositories of
each rank are the first ones of that rank in the input. -/
theorem identifyTopRepos_spec (repos : List Repo) :
    identifyTopRepos repos = (identifyTopRepos.sorted repos).take 5 ∧
    (identifyTopRepos repos).length = min 5 repos.length ∧
    (identifyTopRepos.sorted repos).Perm repos ∧
    ((identifyTopRepos.sorted repos).Pairwise fun x y => Spec.rank y ≤ Spec.rank x) ∧
    (∀ k : Nat, (identifyTopRepos.sorted repos).filter (fun r => decide (Spec.rank r = k))
      = repos.filter (fun r => decide (Spec.rank r = k))) ∧
    (identifyTopRepos repos).Subperm repos ∧
    ((identifyTopRepos repos).Pairwise fun x y => Spec.rank y ≤ Spec.rank x) ∧
    (identifyTopRepos repos ++ (identifyTopRepos.sorted repos).drop 5).Perm repos ∧
    (∀ x ∈ identifyTopRepos repos, ∀ y ∈ (identifyTopRepos.sorted repos).drop 5,
      Spec.rank y ≤ Spec.rank x) ∧
    (∀ k : Nat, ∃ t, repos.filter (fun r => decide (Spec.rank r = k))
      = (identifyTopRepos repos).filter (fun r => decide (Spec.rank r = k)) ++ t) := by
  have hperm := topRepos_sorted_perm repos
  have hsorted := topRepos_sorted_pairwise repos
  have hsplit : identifyTopRepos repos ++ (identifyTopRepos.sorted repos).drop 5
      = identifyTopRepos.sorted repos := List.take_append_drop 5 _
  refine ⟨rfl, ?_, hperm, hsorted, topRepos_sorted_filter repos, ?_, ?_, ?_, ?_, ?_⟩
  · unfold identifyTopRepos
    rw [List.length_take, hperm.length_eq]
  · exact (List.take_sublist 5 _).subperm.trans hperm.subperm
  · exact hsorted.sublist (List.take_sublist 5 _)
  · rw [hsplit]; exact hperm
  · have h := hsorted
    rw [← hsplit, List.pairwise_append] at h
    exact h.2.2
  · intro k
    refine ⟨((identifyTopRepos.sorted repos).drop 5).filter
      (fun r => decide (Spec.rank r = k)), ?_⟩
    rw [← List.filter_append, hsplit, topRepos_sorted_filter]

/-! ## C25: the activity timeline -/

theorem objGet_objSet (o : List (String × Nat)) (k : String) (v : Nat) (k2 : String) :
    objGet (objSet o k v) k2 = if k = k2 then some v else objGet o k2 := by
  induction o with
  | nil => simp [objSet, objGet]
  | cons p o ih =>
    obtain ⟨k1, v1⟩ := p
    by_cases h1 : k1 = k
    · subst h1
      by_cases h2 : k1 = k2
      · simp [objSet, objGet, h2]
      · simp [objSet, objGet, h2]
    · by_cases h2 : k1 = k2
      · subst h2
        have h3 : ¬ k = k1 := fun e => h1 e.symm
        simp [objSet, objGet, h1, h3]
      · simp [objSet, objGet, h1, h2, ih]

theorem objGet_objIncr (o : List (String × Nat)) (k k2 : String) :
    (objGet (objIncr o k) k2).getD 0
      = (objGet o k2).getD 0 + (if k = k2 then 1 else 0) := by
  unfold objIncr
  rw [objGet_objSet]
  by_cases h : k = k2
  · subst h; simp
  · simp [h]

theorem objGet_foldl_objIncr (keys : List String) (o : List (String × Nat)) (k2 : String) :
    (objGet (keys.foldl objIncr o) k2).getD 0 = (objGet o k2).getD 0 + keys.count k2 := by
  induction keys generalizing o with
  | nil => simp
  | cons k keys ih =>
    rw [List.foldl_cons, ih, objGet_objIncr, List.count_cons]
    by_cases h : k = k2
    · subst h; simp; omega
    · have h2 : ¬ (k == k2) = true := by simpa using h
      simp [h, h2]

theorem activityMap_get (dateOf : Int → String) (events : List Event) (dateStr : String) :
    (objGet (displayActivity.activityMap dateOf events) dateStr).getD 0
      = Spec.eventsOn dateOf events dateStr := by
  have hfold : displayActivity.activityMap dateOf events
      = (events.map fun e => dateOf e.created_at).foldl objIncr [] := by
    unfold displayActivity.activityMap
    rw [List.foldl_map]
  rw [hfold, objGet_foldl_objIncr]
  unfold Spec.eventsOn
  simp only [objGet, Option.getD_none, Nat.zero_add]
  rw [List.count, List.countP_map]
  apply List.countP_congr
  intro e _
  simp [Function.comp]

theorem level_eq_levelOf (count : Nat) :
    (if count ≥ 8 then 4 else if count ≥ 5 then 3 else if count ≥ 3 then 2
      else if count > 0 then 1 else 0) = Spec.levelOf count := by
  unfold Spec.levelOf
  split_ifs <;> omega

theorem day_level (dateOf : Int → String) (setDateBack : Int → Nat → Int) (today : Int)
    (m : List (String × Nat)) (i : Nat) :
    (displayActivity.day dateOf setDateBack today m i).level
      = Spec.levelOf (displayActivity.day dateOf setDateBack today m i).count := by
  rw [← level_eq_levelOf]
  simp only [displayActivity.day]

theorem activityLoop_eq (body : Nat → ActivityDay) (n : Nat) (container : List ActivityDay) :
    displayActivity.loop body n container
      = container ++ (List.range (n + 1)).map fun j => body (n - j) := by
  induction n generalizing container with
  | zero => simp [displayActivity.loop]
  | succ n ih =>
    rw [displayActivity.loop, ih, List.append_assoc]
    congr 1
    rw [List.range_succ_eq_map (n + 1), List.map_cons, List.map_map]
    simp [Function.comp]

theorem levelOf_mono {c1 c2 : Nat} (h : c1 ≤ c2) : Spec.levelOf c1 ≤ Spec.levelOf c2 := by
  unfold Spec.levelOf; split_ifs <;> omega

theorem levelOf_le_four (c : Nat) : Spec.levelOf c ≤ 4 := by
  unfold Spec.levelOf; split_ifs <;> omega

theorem displayActivity_eq (dateOf : Int → String) (setDateBack : Int → Nat → Int)
    (today : Int) (events : List Event) :
    displayActivity dateOf setDateBack today events
      = (List.range 90).map fun j => displayActivity.day dateOf setDateBack today
          (displayActivity.activityMap dateOf events) (89 - j) := by
  unfold displayActivity
  rw [activityLoop_eq]
  rfl

/-- C25: for every event list the timeline of `displayActivity` has exactly 90 entries; the
entry at position `j` is the day `89 - j` days back, so the oldest day comes first and the
last entry is today; each entry carries the number of events of its UTC date and the level
0 for no event, 1 for 1 or 2, 2 for 3 or 4, 3 for 5 to 7 and 4 from 8 on, which is monotone
in the count and at most 4. -/
theorem displayActivity_spec (dateOf : Int → String) (setDateBack : Int → Nat → Int)
    (today : Int) (events : List Event) :
    (displayActivity dateOf setDateBack today events).length = 90 ∧
    (∀ j : Nat, j < 90 → ∃ d : ActivityDay,
      (displayActivity dateOf setDateBack today events)[j]? = some d ∧
      d.dateStr = dateOf (setDateBack today (89 - j)) ∧
      d.count = Spec.eventsOn dateOf events (dateOf (setDateBack today (89 - j))) ∧
      d.level = Spec.levelOf d.count) ∧
    (setDateBack today 0 = today → ∃ d : ActivityDay,
      (displayActivity dateOf setDateBack today events)[89]? = some d ∧
      d.dateStr = dateOf today ∧ d.count = Spec.eventsOn dateOf events (dateOf today)) ∧
    (Spec.levelOf 0 = 0 ∧ Spec.levelOf 1 = 1 ∧ Spec.levelOf 2 = 1 ∧ Spec.levelOf 3 = 2 ∧
      Spec.levelOf 4 = 2 ∧ Spec.levelOf 5 = 3 ∧ Spec.levelOf 6 = 3 ∧ Spec.levelOf 7 = 3 ∧
      ∀ c : Nat, 8 ≤ c → Spec.levelOf c = 4) ∧
    (∀ c1 c2 : Nat, c1 ≤ c2 → Spec.levelOf c1 ≤ Spec.levelOf c2) ∧
    (∀ c : Nat, Spec.levelOf c ≤ 4) := by
  have hday : ∀ j : Nat, j < 90 → ∃ d : ActivityDay,
      (displayActivity dateOf setDateBack today events)[j]? = some d ∧
      d.dateStr = dateOf (setDateBack today (89 - j)) ∧
      d.count = Spec.eventsOn dateOf events (dateOf (setDateBack today (89 - j))) ∧
      d.level = Spec.levelOf d.count := by
    intro j hj
    refine ⟨displayActivity.day dateOf setDateBack today
      (displayActivity.activityMap dateOf events) (89 - j), ?_, rfl, ?_, day_level _ _ _ _ _⟩
    · rw [displayActivity_eq, List.getElem?_map, List.getElem?_range hj]
      rfl
    · exact activityMap_get dateOf events _
  refine ⟨?_, hday, ?_, ?_, fun _ _ h => levelOf_mono h, levelOf_le_four⟩
  · rw [displayActivity_eq]; simp
  · intro h0
    obtain ⟨d, h1, h2, h3, _⟩ := hday 89 (by decide)
    refine ⟨d, h1, ?_, ?_⟩
    · rw [h2]; simp [h0]
    · rw [h3]; simp [h0]
  · refine ⟨by decide, by decide, by decide, by decide, by decide, by decide, by decide,
      by decide, ?_⟩
    intro c hc
    unfold Spec.levelOf
    split_ifs <;> omega

/-! ## C22, C23: the language distribution -/

theorem ownKey_iff (k : String) :
    ownKey k = true ↔ k ≠ "__proto__" ∧ k ∉ objectPrototypeFunctions := by
  unfold ownKey
  simp

theorem plainKey_iff (k : String) :
    plainKey k = true ↔ arrayIndex k = none ∧ ownKey k = true := by
  unfold plainKey
  simp [Option.isNone_iff_eq_none]

theorem ownKey_of_plainKey (ks : List String) (h : ∀ l ∈ ks, plainKey l = true) :
    ∀ l ∈ ks, ownKey l = true :=
  fun l hl => ((plainKey_iff l).1 (h l hl)).2

theorem count_absent (langCount : Option (List (String × Nat))) (r : Repo)
    (h : Spec.presentLanguage r = none) : analyzeLanguages.count langCount r = langCount := by
  unfold analyzeLanguages.count
  unfold Spec.presentLanguage Spec.present at h
  by_cases ht : truthy r.language = true
  · rw [if_pos ht] at h
    rw [h]
    simp
  · simp [ht]

theorem count_present (o : List (String × Nat)) (r : Repo) (l : String)
    (h : Spec.presentLanguage r = some l) (hk : ownKey l = true) :
    analyzeLanguages.count (some o) r = some (objIncr o l) := by
  unfold analyzeLanguages.count
  unfold Spec.presentLanguage Spec.present at h
  obtain ⟨h2, h3⟩ := (ownKey_iff l).1 hk
  by_cases ht : truthy r.language = true
  · rw [if_pos ht] at h
    rw [h, ← h, if_pos ht]
    rw [h]
    simp [h2, h3]
  · rw [if_neg ht] at h
    exact absurd h (by simp)

theorem langCount_foldl (repos : List Repo) (acc : List (String × Nat))
    (h : ∀ l ∈ Spec.presentLanguages repos, ownKey l = true) :
    repos.foldl analyzeLanguages.count (some acc)
      = some ((Spec.presentLanguages repos).foldl objIncr acc) := by
  induction repos generalizing acc with
  | nil => rfl
  | cons r rs ih =>
    rw [List.foldl_cons]
    cases hl : Spec.presentLanguage r with
    | none =>
      have hp : Spec.presentLanguages (r :: rs) = Spec.presentLanguages rs := by
        simp [Spec.presentLanguages, List.filterMap_cons, hl]
      rw [hp] at h ⊢
      rw [count_absent _ r hl]
      exact ih _ h
    | some l =>
      have hp : Spec.presentLanguages (r :: rs) = l :: Spec.presentLanguages rs := by
        simp [Spec.presentLanguages, List.filterMap_cons, hl]
      rw [hp] at h ⊢
      rw [count_present _ r l hl (h l (List.mem_cons_self l _)), List.foldl_cons]
      exact ih _ fun k hk => h k (List.mem_cons_of_mem l hk)

theorem langCount_eq_foldl (repos : List Repo)
    (h : ∀ l ∈ Spec.presentLanguages repos, ownKey l = true) :
    analyzeLanguages.langCount repos
      = some ((Spec.presentLanguages repos).foldl objIncr []) :=
  langCount_foldl repos [] h

theorem keys_objSet (o : List (String × Nat)) (k : String) (v : Nat) :
    (objSet o k v).map Prod.fst = setAdd (o.map Prod.fst) k := by
  induction o with
  | nil => simp [objSet, setAdd]
  | cons p o ih =>
    obtain ⟨k1, v1⟩ := p
    by_cases h : k1 = k
    · subst h
      simp [objSet, setAdd]
    · have h2 : ¬ k = k1 := fun e => h e.symm
      simp only [objSet, h, if_false, List.map_cons, ih]
      unfold setAdd
      by_cases hm : k ∈ o.map Prod.fst
      · simp [hm]
      · simp [hm, h2]

theorem keys_foldl_objIncr (ks : List String) (o : List (String × Nat)) :
    (ks.foldl objIncr o).map Prod.fst = ks.foldl setAdd (o.map Prod.fst) := by
  induction ks generalizing o with
  | nil => rfl
  | cons k ks ih =>
    rw [List.foldl_cons, List.foldl_cons, ih]
    unfold objIncr
    rw [keys_objSet]

theorem foldl_setAdd_eq (ks acc : List String) :
    ks.foldl setAdd acc
      = acc ++ (Spec.firstOccurrences ks).filter fun y => decide (y ∉ acc) := by
  induction ks generalizing acc with
  | nil => simp [Spec.firstOccurrences]
  | cons k ks ih =>
    rw [List.foldl_cons, ih]
    unfold setAdd
    by_cases hk : k ∈ acc
    · simp only [hk, if_true, Spec.firstOccurrences, List.filter_cons, decide_not,
        Bool.not_eq_true', decide_eq_false_iff_not, not_not, if_false, List.filter_filter]
      congr 1
      apply List.filter_congr
      intro y _
      by_cases hy : y ∈ acc
      · simp [hy]
      · have : y ≠ k := fun e => hy (e ▸ hk)
        simp [hy, this]
    · simp only [hk, if_false, Spec.firstOccurrences, List.filter_cons, decide_not,
        Bool.not_eq_true', decide_eq_false_iff_not, not_false_eq_true, if_true,
        List.filter_filter, List.append_assoc, List.singleton_append]
      congr 2
      apply List.filter_congr
      intro y _
      by_cases hy : y ∈ acc
      · simp [hy]
      · by_cases hyk : y = k
        · simp [hyk]
        · simp [hy, hyk]

theorem mem_firstOccurrences (ks : List String) (x : String) :
    x ∈ Spec.firstOccurrences ks ↔ x ∈ ks := by
  induction ks with
  | nil => simp [Spec.firstOccurrences]
  | cons k ks ih =>
    simp only [Spec.firstOccurrences, List.mem_cons, List.mem_filter, ih, decide_eq_true_eq]
    by_cases h : x = k
    · simp [h]
    · simp [h]

theorem firstOccurrences_nodup (ks : List String) : (Spec.firstOccurrences ks).Nodup := by
  induction ks with
  | nil => simp [Spec.firstOccurrences]
  | cons k ks ih =>
    simp only [Spec.firstOccurrences, List.nodup_cons, List.mem_filter, decide_eq_true_eq]
    exact ⟨fun h => h.2 rfl, ih.filter _⟩

theorem obj_eq_map_keys (m : List (String × Nat)) (h : (m.map Prod.fst).Nodup) :
    m = (m.map Prod.fst).map fun k => (k, (objGet m k).getD 0) := by
  induction m with
  | nil => rfl
  | cons p m ih =>
    obtain ⟨k1, v1⟩ := p
    rw [List.map_cons, List.nodup_cons] at h
    simp only [List.map_cons, objGet, if_true, Option.getD_some]
    congr 1
    conv_lhs => rw [ih h.2]
    apply List.map_congr_left
    intro k hk
    have hne : ¬ k1 = k := fun e => h.1 (e ▸ hk)
    simp [hne]

theorem count_presentLanguages (repos : List Repo) (l : String) :
    (Spec.presentLanguages repos).count l = Spec.languageCount repos l := by
  unfold Spec.presentLanguages Spec.languageCount
  rw [List.count_filterMap]
  apply List.countP_congr
  intro r _
  simp

theorem foldl_objIncr_eq (repos : List Repo) :
    (Spec.presentLanguages repos).foldl objIncr [] = Spec.languageCounts repos := by
  have hkeys : ((Spec.presentLanguages repos).foldl objIncr []).map Prod.fst
      = Spec.firstOccurrences (Spec.presentLanguages repos) := by
    rw [keys_foldl_objIncr, foldl_setAdd_eq]
    simp
  have hnodup : (((Spec.presentLanguages repos).foldl objIncr []).map Prod.fst).Nodup := by
    rw [hkeys]; exact firstOccurrences_nodup _
  conv_lhs => rw [obj_eq_map_keys _ hnodup, hkeys]
  unfold Spec.languageCounts
  apply List.map_congr_left
  intro l _
  rw [objGet_foldl_objIncr, count_presentLanguages]
  simp [objGet]

theorem langCount_eq (repos : List Repo)
    (h : ∀ l ∈ Spec.presentLanguages repos, ownKey l = true) :
    analyzeLanguages.langCount repos = some (Spec.languageCounts repos) := by
  rw [langCount_eq_foldl repos h, foldl_objIncr_eq]

theorem firstOccurrences_perm_dedup (ks : List String) :
    (Spec.firstOccurrences ks).Perm ks.dedup := by
  rw [List.perm_ext_iff_of_nodup (firstOccurrences_nodup ks) (List.nodup_dedup ks)]
  intro x
  rw [mem_firstOccurrences, List.mem_dedup]

theorem objEntries_of_none (o : List (String × Nat))
    (h : ∀ p ∈ o, arrayIndex p.1 = none) : objEntries o = o := by
  unfold objEntries
  have h1 : o.filter (fun p => (arrayIndex p.1).isSome) = [] := by
    rw [List.filter_eq_nil_iff]
    intro p hp
    simp [h p hp]
  have h2 : o.filter (fun p => (arrayIndex p.1).isNone) = o := by
    rw [List.filter_eq_self]
    intro p hp
    simp [h p hp]
  rw [h1, h2]
  rfl

theorem mem_languageCounts (repos : List Repo) (p : String × Nat)
    (hp : p ∈ Spec.languageCounts repos) :
    p.1 ∈ Spec.presentLanguages repos ∧ p.2 = Spec.languageCount repos p.1 := by
  unfold Spec.languageCounts at hp
  rw [List.mem_map] at hp
  obtain ⟨l, hl, rfl⟩ := hp
  exact ⟨(mem_firstOccurrences _ _).1 hl, rfl⟩

theorem objEntries_languageCounts (repos : List Repo)
    (h : ∀ l ∈ Spec.presentLanguages repos, plainKey l = true) :
    objEntries (Spec.languageCounts repos) = Spec.languageCounts repos := by
  apply objEntries_of_none
  intro p hp
  exact ((plainKey_iff _).1 (h _ (mem_languageCounts repos p hp).1)).1

theorem sum_counts_firstOccurrences (repos : List Repo) :
    ((Spec.firstOccurrences (Spec.presentLanguages repos)).map
      (Spec.languageCount repos)).sum = (Spec.presentLanguages repos).length := by
  have hcongr : (Spec.firstOccurrences (Spec.presentLanguages repos)).map
      (Spec.languageCount repos)
      = (Spec.firstOccurrences (Spec.presentLanguages repos)).map
          fun l => (Spec.presentLanguages repos).count l := by
    apply List.map_congr_left
    intro l _
    rw [count_presentLanguages]
  rw [hcongr, ((firstOccurrences_perm_dedup _).map _).sum_eq,
    List.sum_map_count_dedup_eq_length]

theorem languageCounts_total (repos : List Repo) :
    ((Spec.languageCounts repos).map fun p => p.2).foldl (fun a b => a + b) 0
      = (Spec.presentLanguages repos).length := by
  have hsum : ∀ (l : List Nat) (a : Nat), l.foldl (fun a b => a + b) a = a + l.sum := by
    intro l
    induction l with
    | nil => intro a; simp
    | cons x xs ih => intro a; rw [List.foldl_cons, ih, List.sum_cons]; omega
  rw [hsum, Nat.zero_add]
  unfold Spec.languageCounts
  rw [List.map_map]
  exact sum_counts_firstOccurrences repos

theorem sorted_eq (repos : List Repo)
    (h : ∀ l ∈ Spec.presentLanguages repos, plainKey l = true) :
    analyzeLanguages.sorted repos
      = some (jsSort (fun a b => (b.count : Int) - (a.count : Int))
          ((Spec.languageCounts repos).map
            (analyzeLanguages.entry (Spec.presentLanguages repos).length))) := by
  unfold analyzeLanguages.sorted
  rw [langCount_eq repos (ownKey_of_plainKey _ h)]
  simp only [Option.map_some', objEntries_languageCounts repos h, languageCounts_total]

theorem objEntries_perm (o : List (String × Nat)) : (objEntries o).Perm o := by
  unfold objEntries
  have h1 := List.perm_insertionSort
    (fun p q : String × Nat => (arrayIndex p.1).getD 0 ≤ (arrayIndex q.1).getD 0)
    (o.filter fun p => (arrayIndex p.1).isSome)
  have h2 : (o.filter fun p => (arrayIndex p.1).isNone)
      = o.filter fun p => !((arrayIndex p.1).isSome) := by
    apply List.filter_congr
    intro p _
    cases arrayIndex p.1 <;> rfl
  rw [h2]
  exact (h1.append_right _).trans (List.filter_append_perm _ o)

theorem foldl_add_perm (l1 l2 : List Nat) (h : l1.Perm l2) :
    l1.foldl (fun a b => a + b) 0 = l2.foldl (fun a b => a + b) 0 := by
  have hsum : ∀ (l : List Nat) (a : Nat), l.foldl (fun a b => a + b) a = a + l.sum := by
    intro l
    induction l with
    | nil => intro a; simp
    | cons x xs ih => intro a; rw [List.foldl_cons, ih, List.sum_cons]; omega
  rw [hsum, hsum, h.sum_eq]

/-- With own keys only, the sorted array is a rearrangement of the entries of the distinct
present languages, whatever the order in which `Object.entries` lists them. -/
theorem sorted_perm (repos : List Repo)
    (h : ∀ l ∈ Spec.presentLanguages repos, ownKey l = true) :
    ∃ sorted, analyzeLanguages.sorted repos = some sorted ∧
      sorted.Perm ((Spec.languageCounts repos).map
        (analyzeLanguages.entry (Spec.presentLanguages repos).length)) := by
  unfold analyzeLanguages.sorted
  rw [langCount_eq repos h]
  have hp := objEntries_perm (Spec.languageCounts repos)
  have htotal : ((objEntries (Spec.languageCounts repos)).map fun p => p.2).foldl
      (fun a b => a + b) 0 = (Spec.presentLanguages repos).length := by
    rw [foldl_add_perm _ _ (hp.map _), languageCounts_total]
  simp only [Option.map_some', htotal]
  exact ⟨_, rfl, (jsSort_perm _ _).trans (hp.map _)⟩

theorem sortInsert_map {α β : Type} (f : α → β) (cmp : β → β → Int) (a : α) (l : List α) :
    sortInsert cmp (f a) (l.map f)
      = (sortInsert (fun x y => cmp (f x) (f y)) a l).map f := by
  induction l with
  | nil => rfl
  | cons b l ih =>
    simp only [List.map_cons, sortInsert]
    split_ifs
    · rfl
    · rw [List.map_cons, ih]

theorem jsSort_map {α β : Type} (f : α → β) (cmp : β → β → Int) (l : List α) :
    jsSort cmp (l.map f) = (jsSort (fun x y => cmp (f x) (f y)) l).map f := by
  induction l with
  | nil => rfl
  | cons a l ih =>
    rw [List.map_cons, jsSort_cons, ih, sortInsert_map, jsSort_cons]

/-- The names and counts of the sorted array are the entries of `langCount`, sorted by
count: the percentage and the colour of an entry do not influence the order. -/
theorem sorted_pairs (repos : List Repo) :
    (analyzeLanguages.sorted repos).map (List.map fun e => (e.name, e.count))
      = (analyzeLanguages.langCount repos).map fun o =>
          jsSort (fun a b => (b.2 : Int) - (a.2 : Int)) (objEntries o) := by
  unfold analyzeLanguages.sorted
  cases analyzeLanguages.langCount repos with
  | none => rfl
  | some o =>
    simp only [Option.map_some']
    rw [jsSort_map, List.map_map]
    congr 1
    conv_rhs => rw [← List.map_id (jsSort _ (objEntries o))]
    apply List.map_congr_left
    intro p _
    rfl

theorem pairs_cmp (a b : String × Nat) :
    ((fun a b : String × Nat => (b.2 : Int) - (a.2 : Int)) a b ≤ 0) ↔ b.2 ≤ a.2 := by
  show (b.2 : Int) - (a.2 : Int) ≤ 0 ↔ b.2 ≤ a.2
  omega

theorem sorted_pairs_of_plain (repos : List Repo)
    (h : ∀ l ∈ Spec.presentLanguages repos, plainKey l = true) :
    ∃ sorted, analyzeLanguages.sorted repos = some sorted ∧
      sorted.map (fun e => (e.name, e.count))
        = jsSort (fun a b => (b.2 : Int) - (a.2 : Int)) (Spec.languageCounts repos) := by
  have hp := sorted_pairs repos
  rw [langCount_eq repos (ownKey_of_plainKey _ h), Option.map_some',
    objEntries_languageCounts repos h] at hp
  rw [sorted_eq repos h] at hp ⊢
  exact ⟨_, rfl, by simpa using hp⟩

theorem languages_pairs (repos : List Repo) :
    (analyzeLanguages repos).map (List.map fun e => (e.name, e.count))
      = (analyzeLanguages.langCount repos).map fun o =>
          (jsSort (fun a b => (b.2 : Int) - (a.2 : Int)) (objEntries o)).take 6 := by
  have h := sorted_pairs repos
  unfold analyzeLanguages
  cases hs : analyzeLanguages.sorted repos with
  | none =>
    rw [hs] at h
    cases hl : analyzeLanguages.langCount repos with
    | none => rfl
    | some o => rw [hl] at h; simp at h
  | some l =>
    rw [hs] at h
    cases hl : analyzeLanguages.langCount repos with
    | none => rw [hl] at h; simp at h
    | some o =>
      rw [hl] at h
      simp only [Option.map_some', Option.some.injEq] at h ⊢
      rw [List.map_take, h]

theorem languageCounts_length (repos : List Repo) :
    (Spec.languageCounts repos).length = Spec.distinctLanguages repos := by
  unfold Spec.languageCounts Spec.distinctLanguages
  rw [List.length_map, (firstOccurrences_perm_dedup _).length_eq, List.card_toFinset]
  rfl

theorem languageCounts_keys (repos : List Repo) :
    (Spec.languageCounts repos).map Prod.fst
      = Spec.firstOccurrences (Spec.presentLanguages repos) := by
  unfold Spec.languageCounts
  rw [List.map_map]
  conv_rhs => rw [← List.map_id (Spec.firstOccurrences (Spec.presentLanguages repos))]
  apply List.map_congr_left
  intro l _
  rfl

/-- C22 (as amended): when no present language is called like an array index or like a
property of `Object.prototype`, `analyzeLanguages` returns the first 6 entries of a sorted
array that has one entry per distinct present language, with the count of the
repositories of that language (which is at least 1); the sorted array is ordered by count
descending, and the entries of one count keep the order in which their languages first
appear; hence the result has `min 6 d` entries for `d` distinct languages, and no entry
left out has a greater count than an entry returned. -/
theorem analyzeLanguages_spec (repos : List Repo)
    (h : ∀ l ∈ Spec.presentLanguages repos, plainKey l = true) :
    ∃ sorted : List LanguageEntry,
      analyzeLanguages.sorted repos = some sorted ∧
      analyzeLanguages repos = some (sorted.take 6) ∧
      (sorted.take 6).length ≤ 6 ∧
      (sorted.take 6).length = min 6 (Spec.distinctLanguages repos) ∧
      (sorted.map fun e => (e.name, e.count)).Perm (Spec.languageCounts repos) ∧
      (sorted.Pairwise fun x y => y.count ≤ x.count) ∧
      (∀ k : Nat, (sorted.filter fun e => decide (e.count = k)).map (fun e => (e.name, e.count))
        = (Spec.languageCounts repos).filter fun p => decide (p.2 = k)) ∧
      (sorted.map fun e => e.name).Nodup ∧
      (∀ e ∈ sorted, e.name ∈ Spec.presentLanguages repos ∧
        e.count = Spec.languageCount repos e.name ∧ 1 ≤ e.count) ∧
      (∀ x ∈ sorted.take 6, ∀ y ∈ sorted.drop 6, y.count ≤ x.count) := by
  obtain ⟨sorted, hs, hpairs⟩ := sorted_pairs_of_plain repos h
  have hperm : (sorted.map fun e => (e.name, e.count)).Perm (Spec.languageCounts repos) := by
    rw [hpairs]; exact jsSort_perm _ _
  have hsorted : sorted.Pairwise fun x y => y.count ≤ x.count := by
    have h1 := jsSort_sorted _ (fun p : String × Nat => p.2) pairs_cmp
      (Spec.languageCounts repos)
    rw [← hpairs, List.pairwise_map] at h1
    exact h1
  have hlen : sorted.length = Spec.distinctLanguages repos := by
    rw [← languageCounts_length, ← hperm.length_eq, List.length_map]
  refine ⟨sorted, hs, ?_, List.length_take_le 6 _, ?_, hperm, hsorted, ?_, ?_, ?_, ?_⟩
  · unfold analyzeLanguages
    rw [hs]
    rfl
  · rw [List.length_take, hlen]
  · intro k
    have h1 := jsSort_filter _ (fun p : String × Nat => p.2) pairs_cmp k
      (Spec.languageCounts repos)
    rw [← hpairs, List.filter_map] at h1
    exact h1
  · have hp := hperm.map Prod.fst
    rw [List.map_map, languageCounts_keys] at hp
    exact hp.symm.nodup_iff.1 (firstOccurrences_nodup _)
  · intro e he
    have hmem : (e.name, e.count) ∈ Spec.languageCounts repos :=
      hperm.subset (List.mem_map.2 ⟨e, he, rfl⟩)
    obtain ⟨h1, h2⟩ := mem_languageCounts repos _ hmem
    refine ⟨h1, h2, ?_⟩
    have h3 : e.count = Spec.languageCount repos e.name := h2
    rw [h3, ← count_presentLanguages]
    exact List.count_pos_iff.2 h1
  · have h1 := hsorted
    rw [← List.take_append_drop 6 sorted, List.pairwise_append] at h1
    exact h1.2.2

/-- Witness of C22 (as amended) on six repositories in three languages. -/
theorem analyzeLanguages_spec_witness :
    (∀ l ∈ Spec.presentLanguages mixedLanguages, plainKey l = true) ∧
    ∃ sorted : List LanguageEntry,
      analyzeLanguages.sorted mixedLanguages = some sorted ∧
      analyzeLanguages mixedLanguages = some (sorted.take 6) :=
  ⟨by decide, (analyzeLanguages_spec mixedLanguages (by decide)).imp fun _ hs => ⟨hs.1, hs.2.1⟩⟩

theorem mixedLanguages_result :
    (analyzeLanguages mixedLanguages).map (List.map fun e => (e.name, e.count))
      = some [("Go", 3), ("C", 2), ("Rust", 1)] := by
  rw [languages_pairs]
  decide

/-- C22 as stated fails: of two repositories whose languages are called `2` and `1`, the
language `2` appears first and both counts are 1, but `Object.entries` lists the key `1`
before the key `2`, the sort leaves the tie as it finds it, and the entry of `1` comes
first in the result. -/
theorem analyzeLanguages_index_names :
    Spec.firstOccurrences (Spec.presentLanguages indexLanguages) = ["2", "1"] ∧
    Spec.languageCounts indexLanguages = [("2", 1), ("1", 1)] ∧
    (analyzeLanguages indexLanguages).map (List.map fun e => (e.name, e.count))
      = some [("1", 1), ("2", 1)] := by
  refine ⟨by decide, by decide, ?_⟩
  rw [languages_pairs]
  decide

/-! ### Doubles and the decimal writing -/

theorem roundHalfEven_near (x : ℚ) : |(roundHalfEven x : ℚ) - x| ≤ 1 / 2 := by
  have h1 := Int.floor_le x
  have h2 := Int.lt_floor_add_one x
  unfold roundHalfEven
  rw [abs_le]
  split_ifs with c1 c2 c3
  · constructor <;> linarith
  · push_cast; constructor <;> linarith
  · constructor <;> linarith
  · push_cast; constructor <;> linarith

theorem roundHalfEven_nonneg (x : ℚ) (hx : 0 ≤ x) : 0 ≤ roundHalfEven x := by
  have h0 : 0 ≤ ⌊x⌋ := Int.floor_nonneg.2 hx
  unfold roundHalfEven
  split_ifs <;> omega

theorem roundHalfEven_eq (x : ℚ) (n : ℤ) (h : |x - n| < 1 / 2) : roundHalfEven x = n := by
  rw [abs_lt] at h
  unfold roundHalfEven
  by_cases hn : (n : ℚ) ≤ x
  · have hf : ⌊x⌋ = n := by
      rw [Int.floor_eq_iff]
      constructor <;> linarith [h.1, h.2]
    rw [hf, if_pos (by linarith [h.2])]
  · have hf : ⌊x⌋ = n - 1 := by
      rw [Int.floor_eq_iff]
      push_cast
      constructor <;> linarith [h.1, h.2]
    rw [hf]
    push_cast
    rw [if_neg (by linarith [h.1]), if_pos (by linarith [h.1])]
    ring

theorem toDouble_nonneg (x : ℚ) (hx : 0 ≤ x) : 0 ≤ toDouble x := by
  unfold toDouble
  split_ifs with h0
  · exact le_refl 0
  · have hu : (0 : ℚ) < 2 ^ max (Int.log 2 |x| - 52) (-1074) := by positivity
    have h1 : 0 ≤ roundHalfEven (x / 2 ^ max (Int.log 2 |x| - 52) (-1074)) :=
      roundHalfEven_nonneg _ (div_nonneg hx hu.le)
    have h2 : (0 : ℚ) ≤ (roundHalfEven (x / 2 ^ max (Int.log 2 |x| - 52) (-1074)) : ℚ) := by
      exact_mod_cast h1
    exact mul_nonneg h2 hu.le

theorem toDouble_near (x : ℚ) (hx : 0 ≤ x) : |toDouble x - x| ≤ (x + 1) / 2 ^ 53 := by
  unfold toDouble
  split_ifs with h0
  · rw [h0]; norm_num
  · have hpos : 0 < x := lt_of_le_of_ne hx (Ne.symm h0)
    rw [abs_of_pos hpos]
    set u : ℚ := 2 ^ max (Int.log 2 x - 52) (-1074) with hu
    have hupos : 0 < u := by positivity
    have hr := roundHalfEven_near (x / u)
    have heq : (roundHalfEven (x / u) : ℚ) * u - x = ((roundHalfEven (x / u) : ℚ) - x / u) * u := by
      field_simp
    show |(roundHalfEven (x / u) : ℚ) * u - x| ≤ _
    rw [heq, abs_mul, abs_of_pos hupos]
    have hlog : (2 : ℚ) ^ Int.log 2 x ≤ x := Int.zpow_log_le_self (by norm_num) hpos
    have hub : u ≤ (x + 1) / 2 ^ 52 := by
      rw [hu]
      rcases le_total (Int.log 2 x - 52) (-1074) with hm | hm
      · rw [max_eq_right hm]
        have : (2 : ℚ) ^ (-1074 : ℤ) ≤ 2 ^ (-52 : ℤ) :=
          zpow_le_zpow_right₀ (by norm_num) (by norm_num)
        have h52 : (2 : ℚ) ^ (-52 : ℤ) = 1 / 2 ^ 52 := by norm_num [zpow_neg]
        rw [h52] at this
        have : (1 : ℚ) / 2 ^ 52 ≤ (x + 1) / 2 ^ 52 := by
          apply div_le_div_of_nonneg_right _ (by positivity)
          linarith
        linarith
      · rw [max_eq_left hm, zpow_sub₀ (by norm_num)]
        have h52 : (2 : ℚ) ^ (52 : ℤ) = 2 ^ 52 := by norm_cast
        rw [h52]
        apply div_le_div_of_nonneg_right _ (by positivity)
        linarith
    have : |(roundHalfEven (x / u) : ℚ) - x / u| * u ≤ 1 / 2 * u :=
      mul_le_mul_of_nonneg_right hr hupos.le
    have h53 : (x + 1) / 2 ^ 53 = 1 / 2 * ((x + 1) / 2 ^ 52) := by ring
    rw [h53]
    linarith

theorem log_eq_of_bounds (x : ℚ) (e : ℤ) (hx : 0 < x) (h1 : (2 : ℚ) ^ e ≤ x)
    (h2 : x < (2 : ℚ) ^ (e + 1)) : Int.log 2 x = e := by
  have a := (Int.zpow_le_iff_le_log (b := 2) (by norm_num) hx).1 h1
  have b := (Int.lt_zpow_iff_log_lt (b := 2) (by norm_num) hx).1 h2
  omega

theorem toDouble_eq (x : ℚ) (e n : ℤ) (hx : 0 < x) (h1 : (2 : ℚ) ^ e ≤ x)
    (h2 : x < (2 : ℚ) ^ (e + 1)) (he : -1022 ≤ e)
    (hn : |x / 2 ^ (e - 52) - n| < 1 / 2) : toDouble x = n * 2 ^ (e - 52) := by
  unfold toDouble
  rw [if_neg hx.ne', abs_of_pos hx, log_eq_of_bounds x e hx h1 h2]
  have hm : max (e - 52) (-1074) = e - 52 := max_eq_left (by omega)
  simp only [hm]
  rw [roundHalfEven_eq _ n hn]

theorem digitChar_value : ∀ d : Nat, d < 10 →
    (Nat.digitChar d).toNat - 48 = d ∧ Nat.digitChar d ≠ '.' := by
  decide

theorem toDigitsCore_value (fuel : Nat) : ∀ (n : Nat) (ds : List Char), n < fuel →
    ∃ l : List Char, Nat.toDigitsCore 10 fuel n ds = l ++ ds ∧ (∀ c ∈ l, c ≠ '.') ∧
      ∀ a : Nat, l.foldl (fun n c => 10 * n + (c.toNat - 48)) a = a * 10 ^ l.length + n := by
  induction fuel with
  | zero => intro n ds h; omega
  | succ fuel ih =>
    intro n ds h
    obtain ⟨hd1, hd2⟩ := digitChar_value (n % 10) (Nat.mod_lt n (by norm_num))
    unfold Nat.toDigitsCore
    by_cases h0 : n / 10 = 0
    · refine ⟨[Nat.digitChar (n % 10)], by simp [h0], ?_, ?_⟩
      · intro c hc
        rw [List.mem_singleton] at hc
        rw [hc]; exact hd2
      · intro a
        simp only [List.foldl_cons, List.foldl_nil, List.length_singleton, pow_one, hd1]
        omega
    · have hlt : n / 10 < fuel := by omega
      obtain ⟨l, h1, h2, h3⟩ := ih (n / 10) (Nat.digitChar (n % 10) :: ds) hlt
      refine ⟨l ++ [Nat.digitChar (n % 10)], ?_, ?_, ?_⟩
      · simp only [h0, if_false, h1]
        simp
      · intro c hc
        rcases List.mem_append.1 hc with hc | hc
        · exact h2 c hc
        · rw [List.mem_singleton] at hc
          rw [hc]; exact hd2
      · intro a
        rw [List.foldl_append, h3]
        simp only [List.foldl_cons, List.foldl_nil, hd1, List.length_append,
          List.length_singleton, pow_succ]
        have := Nat.div_add_mod n 10
        nlinarith [Nat.div_add_mod n 10]

theorem toDigits_value (n : Nat) :
    digitsValue (Nat.toDigits 10 n) = n ∧ ∀ c ∈ Nat.toDigits 10 n, c ≠ '.' := by
  obtain ⟨l, h1, h2, h3⟩ := toDigitsCore_value (n + 1) n [] (Nat.lt_succ_self n)
  unfold Nat.toDigits
  rw [h1, List.append_nil]
  refine ⟨?_, h2⟩
  unfold digitsValue
  rw [h3]
  omega

theorem toDigits_one (b : Nat) (hb : b < 10) : (Nat.toDigits 10 b).length = 1 := by
  revert b
  decide

theorem takeWhile_point (l r : List Char) (h : ∀ c ∈ l, c ≠ '.') :
    (l ++ '.' :: r).takeWhile (fun c => c != '.') = l ∧
    (l ++ '.' :: r).dropWhile (fun c => c != '.') = '.' :: r := by
  induction l with
  | nil => simp [List.takeWhile, List.dropWhile]
  | cons c l ih =>
    have hc : c ≠ '.' := h c (List.mem_cons_self c l)
    have ih2 := ih fun d hd => h d (List.mem_cons_of_mem c hd)
    have hb : (c != '.') = true := by simpa using hc
    rw [List.cons_append, List.takeWhile_cons, List.dropWhile_cons, hb, ih2.1, ih2.2]
    exact ⟨rfl, rfl⟩

theorem decimalValue_render (a b : Nat) (hb : b < 10) :
    Spec.decimalValue (toString a ++ "." ++ toString b) = (a : ℚ) + (b : ℚ) / 10 := by
  have hdata : (toString a ++ "." ++ toString b).data
      = Nat.toDigits 10 a ++ '.' :: Nat.toDigits 10 b := by
    simp [toString, Nat.repr, String.data_append, List.asString]
  obtain ⟨ha1, ha2⟩ := toDigits_value a
  obtain ⟨hb1, _⟩ := toDigits_value b
  obtain ⟨ht, hd⟩ := takeWhile_point (Nat.toDigits 10 a) (Nat.toDigits 10 b) ha2
  unfold Spec.decimalValue
  simp only [hdata, ht, hd, List.drop_succ_cons, List.drop_zero, ha1, hb1, toDigits_one b hb,
    pow_one]

theorem percentage_near (c t : Nat) (hct : c ≤ t) :
    0 ≤ doubleMul (doubleDiv (c : ℚ) (t : ℚ)) 100 ∧
    |doubleMul (doubleDiv (c : ℚ) (t : ℚ)) 100 - (c : ℚ) / (t : ℚ) * 100| ≤ 1 / 10 ^ 12 := by
  unfold doubleMul doubleDiv
  have hx0 : (0 : ℚ) ≤ (c : ℚ) / (t : ℚ) := by positivity
  have hx1 : (c : ℚ) / (t : ℚ) ≤ 1 := by
    apply div_le_one_of_le₀
    · exact_mod_cast hct
    · positivity
  have hd0 := toDouble_nonneg _ hx0
  have hd := toDouble_near _ hx0
  have hy0 : (0 : ℚ) ≤ toDouble ((c : ℚ) / (t : ℚ)) * 100 := by positivity
  have hy := toDouble_near _ hy0
  refine ⟨toDouble_nonneg _ hy0, ?_⟩
  rw [abs_le] at hd hy ⊢
  have e1 : ((c : ℚ) / (t : ℚ) + 1) / 2 ^ 53 ≤ 2 / 2 ^ 53 := by
    apply div_le_div_of_nonneg_right _ (by positivity)
    linarith
  have e2 : (toDouble ((c : ℚ) / (t : ℚ)) * 100 + 1) / 2 ^ 53 ≤ 102 / 2 ^ 53 := by
    apply div_le_div_of_nonneg_right _ (by positivity)
    have : (2 : ℚ) / 2 ^ 53 ≤ 1 / 100 := by norm_num
    linarith [hd.2]
  have e3 : (302 : ℚ) / 2 ^ 53 ≤ 1 / 10 ^ 12 := by norm_num
  have e4 : (302 : ℚ) / 2 ^ 53 = 102 / 2 ^ 53 + 100 * (2 / 2 ^ 53) := by ring
  constructor <;> linarith [hd.1, hd.2, hy.1, hy.2]

theorem toFixed1_value (x : ℚ) (hx : 0 ≤ x) :
    ∃ n : Nat, toFixed1 x = toString (n / 10) ++ "." ++ toString (n % 10) ∧
      Spec.decimalValue (toFixed1 x) = (n : ℚ) / 10 ∧ |(n : ℚ) / 10 - x| ≤ 1 / 20 ∧
      (n : ℚ) ≤ x * 10 + 1 / 2 ∧ x * 10 + 1 / 2 < (n : ℚ) + 1 := by
  have h0 : 0 ≤ toFixed1.tenths x := by
    unfold toFixed1.tenths
    apply Int.floor_nonneg.2
    linarith
  have hn : (((toFixed1.tenths x).toNat : ℤ) : ℚ) = ((toFixed1.tenths x : ℤ) : ℚ) := by
    rw [Int.toNat_of_nonneg h0]
  have hcast : (((toFixed1.tenths x).toNat : ℕ) : ℚ) = ((toFixed1.tenths x : ℤ) : ℚ) := by
    exact_mod_cast hn
  have h1 : ((toFixed1.tenths x : ℤ) : ℚ) ≤ x * 10 + 1 / 2 := Int.floor_le (x * 10 + 1 / 2)
  have h2 : x * 10 + 1 / 2 < ((toFixed1.tenths x : ℤ) : ℚ) + 1 :=
    Int.lt_floor_add_one (x * 10 + 1 / 2)
  refine ⟨(toFixed1.tenths x).toNat, rfl, ?_, ?_, ?_, ?_⟩
  · show Spec.decimalValue (toString ((toFixed1.tenths x).toNat / 10) ++ "." ++
      toString ((toFixed1.tenths x).toNat % 10)) = _
    rw [decimalValue_render _ _ (Nat.mod_lt _ (by norm_num))]
    have h := Nat.div_add_mod (toFixed1.tenths x).toNat 10
    have hq : (((toFixed1.tenths x).toNat : ℕ) : ℚ)
        = 10 * (((toFixed1.tenths x).toNat / 10 : ℕ) : ℚ)
          + (((toFixed1.tenths x).toNat % 10 : ℕ) : ℚ) := by
      exact_mod_cast h.symm
    rw [hq]
    ring
  · rw [hcast, abs_le]
    constructor <;> linarith
  · rw [hcast]; exact h1
  · rw [hcast]; exact h2

/-! ### The percentages -/

theorem sum_map_near {α : Type} (f g : α → ℚ) (c : ℚ) (l : List α)
    (h : ∀ e ∈ l, |f e - g e| ≤ c) :
    |(l.map f).sum - (l.map g).sum| ≤ (l.length : ℚ) * c := by
  induction l with
  | nil => simp
  | cons a l ih =>
    have ha := h a (List.mem_cons_self a l)
    have hl := ih fun e he => h e (List.mem_cons_of_mem a he)
    simp only [List.map_cons, List.sum_cons, List.length_cons]
    rw [abs_le] at ha hl ⊢
    push_cast
    constructor <;> linarith [ha.1, ha.2, hl.1, hl.2]

theorem sum_share (repos : List Repo) (l : List Nat) :
    (l.map (Spec.share repos)).sum
      = ((l.sum : Nat) : ℚ) / ((Spec.presentLanguages repos).length : ℚ) * 100 := by
  induction l with
  | nil => simp
  | cons a l ih =>
    simp only [List.map_cons, List.sum_cons, ih, Spec.share]
    push_cast
    ring

theorem share_nonneg (repos : List Repo) (c : Nat) : 0 ≤ Spec.share repos c := by
  unfold Spec.share
  positivity

theorem languageCount_le (repos : List Repo) (l : String) :
    Spec.languageCount repos l ≤ (Spec.presentLanguages repos).length := by
  rw [← count_presentLanguages]
  exact List.count_le_length _ _

theorem mem_sorted (repos : List Repo) (sorted : List LanguageEntry)
    (h : ∀ l ∈ Spec.presentLanguages repos, ownKey l = true)
    (hs : analyzeLanguages.sorted repos = some sorted) (e : LanguageEntry) (he : e ∈ sorted) :
    e.count = Spec.languageCount repos e.name ∧
    e.percentage = toFixed1 (doubleMul
      (doubleDiv (e.count : ℚ) ((Spec.presentLanguages repos).length : ℚ)) 100) := by
  obtain ⟨sorted2, hs2, hperm⟩ := sorted_perm repos h
  rw [hs, Option.some.injEq] at hs2
  subst hs2
  have hmem := hperm.subset he
  rw [List.mem_map] at hmem
  obtain ⟨p, hp, rfl⟩ := hmem
  exact ⟨(mem_languageCounts repos p hp).2, rfl⟩

theorem near_half_tenth (c t n : Nat) (x : ℚ) (ht : 0 < t) (hlt : t < 2 ^ 32)
    (hx : |x - (c : ℚ) / (t : ℚ) * 100| ≤ 1 / 10 ^ 12)
    (hn : ((n : ℤ) : ℚ) ≤ x * 10 + 1 / 2) (hn2 : x * 10 + 1 / 2 < ((n : ℤ) : ℚ) + 1) :
    |(n : ℚ) / 10 - (c : ℚ) / (t : ℚ) * 100| ≤ 1 / 20 := by
  have htq : (0 : ℚ) < (t : ℚ) := by exact_mod_cast ht
  have hltq : (t : ℚ) < 2 ^ 32 := by exact_mod_cast hlt
  have hdiv : (c : ℚ) / (t : ℚ) * (t : ℚ) = (c : ℚ) := by field_simp
  rw [abs_le] at hx
  have hnq : ((n : ℤ) : ℚ) = (n : ℚ) := by norm_cast
  rw [hnq] at hn hn2
  have hup : (n : ℚ) * (2 * t) ≤ 2000 * c + t + 20 * (1 / 10 ^ 12) * t := by
    have h1 : (n : ℚ) ≤ ((c : ℚ) / (t : ℚ) * 100 + 1 / 10 ^ 12) * 10 + 1 / 2 := by
      linarith [hx.2]
    have h2 := mul_le_mul_of_nonneg_right h1 (by positivity : (0 : ℚ) ≤ 2 * (t : ℚ))
    have h3 : (((c : ℚ) / (t : ℚ) * 100 + 1 / 10 ^ 12) * 10 + 1 / 2) * (2 * (t : ℚ))
        = 2000 * ((c : ℚ) / (t : ℚ) * (t : ℚ)) + t + 20 * (1 / 10 ^ 12) * t := by ring
    rw [h3, hdiv] at h2
    exact h2
  have hlo : 2000 * (c : ℚ) - 20 * (1 / 10 ^ 12) * t < ((n : ℚ) + 1 / 2) * (2 * t) := by
    have h1 : ((c : ℚ) / (t : ℚ) * 100 - 1 / 10 ^ 12) * 10 < (n : ℚ) + 1 / 2 := by
      linarith [hx.1]
    have h2 := mul_lt_mul_of_pos_right h1 (by positivity : (0 : ℚ) < 2 * (t : ℚ))
    have h3 : (((c : ℚ) / (t : ℚ) * 100 - 1 / 10 ^ 12) * 10) * (2 * (t : ℚ))
        = 2000 * ((c : ℚ) / (t : ℚ) * (t : ℚ)) - 20 * (1 / 10 ^ 12) * t := by ring
    rw [h3, hdiv] at h2
    exact h2
  have hsmall : 20 * (1 / 10 ^ 12) * (t : ℚ) < 1 := by
    have : 20 * (1 / 10 ^ 12) * (t : ℚ) < 20 * (1 / 10 ^ 12) * 2 ^ 32 := by
      apply mul_lt_mul_of_pos_left hltq
      norm_num
    have h2 : (20 : ℚ) * (1 / 10 ^ 12) * 2 ^ 32 < 1 := by norm_num
    linarith
  have hA : 2 * n * t ≤ 2000 * c + t := by
    by_contra hcon
    have h1 : 2000 * c + t + 1 ≤ 2 * n * t := by omega
    have h2 : (2000 : ℚ) * c + t + 1 ≤ 2 * n * t := by exact_mod_cast h1
    nlinarith
  have hB : 2000 * c ≤ 2 * n * t + t := by
    by_contra hcon
    have h1 : 2 * n * t + t + 1 ≤ 2000 * c := by omega
    have h2 : (2 : ℚ) * n * t + t + 1 ≤ 2000 * c := by exact_mod_cast h1
    nlinarith
  have hAq : (2 : ℚ) * n * t ≤ 2000 * c + t := by exact_mod_cast hA
  have hBq : (2000 : ℚ) * c ≤ 2 * n * t + t := by exact_mod_cast hB
  have hkey : (n : ℚ) / 10 - (c : ℚ) / (t : ℚ) * 100
      = (2 * n * t - 2000 * c) / (20 * t) := by
    field_simp
    ring
  rw [hkey, abs_le]
  constructor
  · rw [le_div_iff₀ (by positivity)]
    linarith
  · rw [div_le_iff₀ (by positivity)]
    linarith

theorem presentLanguages_length_le (repos : List Repo) :
    (Spec.presentLanguages repos).length ≤ repos.length := by
  unfold Spec.presentLanguages
  exact List.length_filterMap_le _ _

theorem entry_near (repos : List Repo) (sorted : List LanguageEntry)
    (h : ∀ l ∈ Spec.presentLanguages repos, ownKey l = true)
    (hs : analyzeLanguages.sorted repos = some sorted) (e : LanguageEntry) (he : e ∈ sorted) :
    ∃ n : Nat, e.percentage = toString (n / 10) ++ "." ++ toString (n % 10) ∧
      Spec.decimalValue e.percentage = (n : ℚ) / 10 ∧
      |Spec.decimalValue e.percentage - Spec.share repos e.count| ≤ 1 / 20 + 1 / 10 ^ 12 ∧
      (repos.length < 2 ^ 32 →
        |Spec.decimalValue e.percentage - Spec.share repos e.count| ≤ 1 / 20) := by
  obtain ⟨sorted2, hs2, hperm⟩ := sorted_perm repos h
  rw [hs, Option.some.injEq] at hs2
  subst hs2
  obtain ⟨hc, hp⟩ := mem_sorted repos sorted h hs e he
  have hpos : 0 < (Spec.presentLanguages repos).length := by
    have hmem := hperm.subset he
    rw [List.mem_map] at hmem
    obtain ⟨p, hp2, _⟩ := hmem
    exact List.length_pos_of_mem (mem_languageCounts repos p hp2).1
  have hle : e.count ≤ (Spec.presentLanguages repos).length := by
    rw [hc]; exact languageCount_le repos _
  obtain ⟨h0, hnear⟩ := percentage_near e.count _ hle
  obtain ⟨n, h1, h2, h3, h4, h5⟩ := toFixed1_value _ h0
  rw [← hp] at h1 h2
  refine ⟨n, h1, h2, ?_, ?_⟩
  · rw [h2]
    unfold Spec.share
    rw [abs_le] at h3 hnear ⊢
    constructor <;> linarith [h3.1, h3.2, hnear.1, hnear.2]
  · intro hlen
    rw [h2]
    unfold Spec.share
    have hlt : (Spec.presentLanguages repos).length < 2 ^ 32 :=
      lt_of_le_of_lt (presentLanguages_length_le repos) hlen
    exact near_half_tenth e.count _ n _ hpos hlt hnear (by exact_mod_cast h4)
      (by exact_mod_cast h5)

theorem sum_share_sorted (repos : List Repo) (sorted : List LanguageEntry)
    (h : ∀ l ∈ Spec.presentLanguages repos, ownKey l = true)
    (hne : Spec.presentLanguages repos ≠ [])
    (hs : analyzeLanguages.sorted repos = some sorted) :
    (sorted.map fun e => Spec.share repos e.count).sum = 100 := by
  obtain ⟨sorted2, hs2, hperm⟩ := sorted_perm repos h
  rw [hs, Option.some.injEq] at hs2
  subst hs2
  have hcounts : (sorted.map fun e => e.count).Perm
      ((Spec.firstOccurrences (Spec.presentLanguages repos)).map
        (Spec.languageCount repos)) := by
    have hp := hperm.map fun e : LanguageEntry => e.count
    unfold Spec.languageCounts at hp
    rw [List.map_map, List.map_map] at hp
    exact hp
  have hmap : (sorted.map fun e => Spec.share repos e.count)
      = (sorted.map fun e => e.count).map (Spec.share repos) := by
    rw [List.map_map]
    rfl
  rw [hmap, sum_share, hcounts.sum_eq, sum_counts_firstOccurrences]
  have hpos : ((Spec.presentLanguages repos).length : ℚ) ≠ 0 := by
    have : 0 < (Spec.presentLanguages repos).length := List.length_pos.2 hne
    exact_mod_cast this.ne'
  field_simp

theorem sum_tenths {α : Type} (f : α → ℚ) (l : List α)
    (h : ∀ e ∈ l, ∃ n : Nat, f e = (n : ℚ) / 10) :
    ∃ n : Nat, (l.map f).sum = (n : ℚ) / 10 := by
  induction l with
  | nil => exact ⟨0, by simp⟩
  | cons a l ih =>
    obtain ⟨n, hn⟩ := h a (List.mem_cons_self a l)
    obtain ⟨m, hm⟩ := ih fun e he => h e (List.mem_cons_of_mem a he)
    refine ⟨n + m, ?_⟩
    rw [List.map_cons, List.sum_cons, hn, hm]
    push_cast
    ring

theorem tenths_near_hundred (n : Nat) (h : |(n : ℚ) / 10 - 100| ≤ 6 * (1 / 20 + 1 / 10 ^ 12)) :
    |(n : ℚ) / 10 - 100| ≤ 3 / 10 := by
  rw [abs_le] at h ⊢
  have h1 : (996 : ℚ) < n := by linarith [h.1]
  have h2 : (n : ℚ) < 1004 := by linarith [h.2]
  have h3 : 996 < n := by exact_mod_cast h1
  have h4 : n < 1004 := by exact_mod_cast h2
  have h5 : (997 : ℚ) ≤ n := by exact_mod_cast h3
  have h6 : (n : ℚ) ≤ 1003 := by exact_mod_cast Nat.lt_succ_iff.1 h4
  constructor <;> linarith

/-! ### Eighty repositories in two languages

The shares are 28.75 and 71.25.  The double nearest to 23/80 lies below it, its product
with 100 is 28.749999999999996, and `toFixed(1)` prints "28.7"; the product for 57/80 is
71.25 and is printed "71.3". -/

theorem goAndC_go :
    toFixed1 (doubleMul (doubleDiv ((23 : Nat) : ℚ) ((80 : Nat) : ℚ)) 100) = "28.7" := by
  have h1 : doubleDiv ((23 : Nat) : ℚ) ((80 : Nat) : ℚ)
      = (5179139571476070 : ℤ) * 2 ^ ((-2 : ℤ) - 52) := by
    unfold doubleDiv
    apply toDouble_eq _ (-2) _ (by norm_num) (by norm_num [zpow_neg]) (by norm_num [zpow_neg])
      (by norm_num)
    norm_num [zpow_neg, abs_lt]
  have h2 : doubleMul (doubleDiv ((23 : Nat) : ℚ) ((80 : Nat) : ℚ)) 100
      = (8092405580431359 : ℤ) * 2 ^ ((4 : ℤ) - 52) := by
    unfold doubleMul
    rw [h1]
    apply toDouble_eq _ 4 _ (by norm_num [zpow_neg]) (by norm_num [zpow_neg])
      (by norm_num [zpow_neg]) (by norm_num)
    norm_num [zpow_neg, abs_lt]
  have ht : toFixed1.tenths (doubleMul (doubleDiv ((23 : Nat) : ℚ) ((80 : Nat) : ℚ)) 100)
      = 287 := by
    rw [h2]
    unfold toFixed1.tenths
    rw [Int.floor_eq_iff]
    norm_num [zpow_neg]
  unfold toFixed1
  rw [ht]
  decide

theorem goAndC_c :
    toFixed1 (doubleMul (doubleDiv ((57 : Nat) : ℚ) ((80 : Nat) : ℚ)) 100) = "71.3" := by
  have h1 : doubleDiv ((57 : Nat) : ℚ) ((80 : Nat) : ℚ)
      = (6417629469002957 : ℤ) * 2 ^ ((-1 : ℤ) - 52) := by
    unfold doubleDiv
    apply toDouble_eq _ (-1) _ (by norm_num) (by norm_num [zpow_neg]) (by norm_num [zpow_neg])
      (by norm_num)
    norm_num [zpow_neg, abs_lt]
  have h2 : doubleMul (doubleDiv ((57 : Nat) : ℚ) ((80 : Nat) : ℚ)) 100
      = (5013773022658560 : ℤ) * 2 ^ ((6 : ℤ) - 52) := by
    unfold doubleMul
    rw [h1]
    apply toDouble_eq _ 6 _ (by norm_num [zpow_neg]) (by norm_num [zpow_neg])
      (by norm_num [zpow_neg]) (by norm_num)
    norm_num [zpow_neg, abs_lt]
  have ht : toFixed1.tenths (doubleMul (doubleDiv ((57 : Nat) : ℚ) ((80 : Nat) : ℚ)) 100)
      = 713 := by
    rw [h2]
    unfold toFixed1.tenths
    rw [Int.floor_eq_iff]
    norm_num [zpow_neg]
  unfold toFixed1
  rw [ht]
  decide

/-- Twenty-three repositories in Go and fifty-seven in C: the entry of C comes first with
"71.3", the entry of Go has "28.7", where the share 28.75 rounded to one decimal place
would be 28.8. -/
theorem goAndC_result :
    (analyzeLanguages goAndC).map (List.map fun e => (e.name, e.count, e.percentage))
      = some [("C", 57, "71.3"), ("Go", 23, "28.7")] := by
  have hs := sorted_eq goAndC (by decide)
  have hlen : (Spec.presentLanguages goAndC).length = 80 := by decide
  have hcounts : Spec.languageCounts goAndC = [("Go", 23), ("C", 57)] := by decide
  rw [hlen, hcounts, jsSort_map] at hs
  have hsort : jsSort (fun x y : String × Nat =>
        (((analyzeLanguages.entry 80 y).count : Int)
          - ((analyzeLanguages.entry 80 x).count : Int)))
      [("Go", 23), ("C", 57)] = [("C", 57), ("Go", 23)] := by decide
  rw [hsort] at hs
  unfold analyzeLanguages
  rw [hs]
  simp only [Option.map_some', List.map_cons, List.map_nil, List.take, analyzeLanguages.entry,
    goAndC_go, goAndC_c]

/-- C23 (as amended): for every repository set with at least one present primary language,
none called like a property of `Object.prototype`, the list of `analyzeLanguages` has at
most 6 entries; the percentage of an entry is a decimal writing with one digit after the
point, and the number it denotes is within 0.05 of the share `count / total * 100`, up to
the error of the two double operations (below `10 ^ (-12)`), and within 0.05 itself when
there are fewer than `2 ^ 32` repositories, the bound of an array length; the percentages
sum to the shares of the returned languages within that bound per entry, and that sum of
shares is at most 100; when there are at most 6 distinct present languages it is exactly
100 and the percentages sum to 100 within 0.3.  Of two decimals equally near to the share
the one printed depends on the doubles: for 23 repositories of 80 the share is 28.75 and
the percentage is "28.7". -/
theorem analyzeLanguages_percentages (repos : List Repo)
    (hne : Spec.presentLanguages repos ≠ [])
    (h : ∀ l ∈ Spec.presentLanguages repos, ownKey l = true) :
    ∃ languages : List LanguageEntry,
      analyzeLanguages repos = some languages ∧
      languages.length ≤ 6 ∧
      (∀ e ∈ languages,
        e.percentage = toFixed1 (doubleMul
          (doubleDiv (e.count : ℚ) ((Spec.presentLanguages repos).length : ℚ)) 100) ∧
        (∃ n : Nat, e.percentage = toString (n / 10) ++ "." ++ toString (n % 10) ∧
          Spec.decimalValue e.percentage = (n : ℚ) / 10) ∧
        |Spec.decimalValue e.percentage - Spec.share repos e.count|
          ≤ 1 / 20 + 1 / 10 ^ 12 ∧
        (repos.length < 2 ^ 32 →
          |Spec.decimalValue e.percentage - Spec.share repos e.count| ≤ 1 / 20)) ∧
      |(languages.map fun e => Spec.decimalValue e.percentage).sum
          - (languages.map fun e => Spec.share repos e.count).sum|
        ≤ (languages.length : ℚ) * (1 / 20 + 1 / 10 ^ 12) ∧
      (languages.map fun e => Spec.share repos e.count).sum ≤ 100 ∧
      (Spec.distinctLanguages repos ≤ 6 →
        (languages.map fun e => Spec.share repos e.count).sum = 100 ∧
        |(languages.map fun e => Spec.decimalValue e.percentage).sum - 100| ≤ 3 / 10) ∧
      (analyzeLanguages goAndC).map (List.map fun e => (e.name, e.count, e.percentage))
        = some [("C", 57, "71.3"), ("Go", 23, "28.7")] := by
  obtain ⟨sorted, hs, hperm⟩ := sorted_perm repos h
  have hres : analyzeLanguages repos = some (sorted.take 6) := by
    unfold analyzeLanguages
    rw [hs]
    rfl
  have hsub : (sorted.take 6).Sublist sorted := List.take_sublist 6 sorted
  have hlen : (sorted.take 6).length ≤ 6 := List.length_take_le 6 _
  have hentry : ∀ e ∈ sorted.take 6,
      ∃ n : Nat, e.percentage = toString (n / 10) ++ "." ++ toString (n % 10) ∧
        Spec.decimalValue e.percentage = (n : ℚ) / 10 ∧
        |Spec.decimalValue e.percentage - Spec.share repos e.count| ≤ 1 / 20 + 1 / 10 ^ 12 ∧
        (repos.length < 2 ^ 32 →
          |Spec.decimalValue e.percentage - Spec.share repos e.count| ≤ 1 / 20) :=
    fun e he => entry_near repos sorted h hs e (hsub.subset he)
  have hnear := sum_map_near (fun e : LanguageEntry => Spec.decimalValue e.percentage)
    (fun e : LanguageEntry => Spec.share repos e.count) (1 / 20 + 1 / 10 ^ 12) (sorted.take 6)
    (fun e he => (hentry e he).choose_spec.2.2.1)
  have hsum := sum_share_sorted repos sorted h hne hs
  have hle : ((sorted.take 6).map fun e => Spec.share repos e.count).sum ≤ 100 := by
    have hsl : ((sorted.take 6).map fun e => Spec.share repos e.count).Sublist
        (sorted.map fun e => Spec.share repos e.count) := hsub.map _
    have := hsl.sum_le_sum (fun a ha => by
      rw [List.mem_map] at ha
      obtain ⟨e, _, rfl⟩ := ha
      exact share_nonneg repos e.count)
    rw [hsum] at this
    exact this
  refine ⟨sorted.take 6, hres, hlen, ?_, hnear, hle, ?_, goAndC_result⟩
  · intro e he
    obtain ⟨n, h1, h2, h3, h4⟩ := hentry e he
    exact ⟨(mem_sorted repos sorted h hs e (hsub.subset he)).2, ⟨n, h1, h2⟩, h3, h4⟩
  · intro hd
    have hall : sorted.take 6 = sorted := by
      apply List.take_of_length_le
      rw [hperm.length_eq, List.length_map, languageCounts_length]
      exact hd
    have hsum6 : ((sorted.take 6).map fun e => Spec.share repos e.count).sum = 100 := by
      rw [hall]; exact hsum
    refine ⟨hsum6, ?_⟩
    rw [hsum6] at hnear
    obtain ⟨N, hN⟩ := sum_tenths (fun e : LanguageEntry => Spec.decimalValue e.percentage)
      (sorted.take 6) (fun e he => by
        obtain ⟨n, _, h2, _⟩ := hentry e he
        exact ⟨n, h2⟩)
    rw [hN] at hnear ⊢
    apply tenths_near_hundred
    have hq : ((sorted.take 6).length : ℚ) ≤ 6 := by exact_mod_cast hlen
    have hpos : (0 : ℚ) ≤ 1 / 20 + 1 / 10 ^ 12 := by norm_num
    calc |(N : ℚ) / 10 - 100| ≤ ((sorted.take 6).length : ℚ) * (1 / 20 + 1 / 10 ^ 12) := hnear
      _ ≤ 6 * (1 / 20 + 1 / 10 ^ 12) := mul_le_mul_of_nonneg_right hq hpos

/-- Witness of C23 (as amended) on six repositories in three languages. -/
theorem analyzeLanguages_percentages_witness :
    Spec.presentLanguages mixedLanguages ≠ [] ∧
    (∀ l ∈ Spec.presentLanguages mixedLanguages, ownKey l = true) ∧
    ∃ languages : List LanguageEntry,
      analyzeLanguages mixedLanguages = some languages ∧ languages.length ≤ 6 :=
  ⟨by decide, by decide,
    (analyzeLanguages_percentages mixedLanguages (by decide) (by decide)).imp
      fun _ hl => ⟨hl.1, hl.2.1⟩⟩

theorem seventh_percentage :
    toFixed1 (doubleMul (doubleDiv ((1 : Nat) : ℚ) ((7 : Nat) : ℚ)) 100) = "14.3" := by
  obtain ⟨h0, hnear⟩ := percentage_near 1 7 (by norm_num)
  have ht : toFixed1.tenths (doubleMul (doubleDiv ((1 : Nat) : ℚ) ((7 : Nat) : ℚ)) 100)
      = 143 := by
    unfold toFixed1.tenths
    rw [Int.floor_eq_iff]
    rw [abs_le] at hnear
    push_cast at hnear ⊢
    constructor <;> linarith [hnear.1, hnear.2]
  unfold toFixed1
  rw [ht]
  decide

theorem sevenLanguages_result :
    analyzeLanguages sevenLanguages
      = some ([("C", 1), ("Go", 1), ("Rust", 1), ("Java", 1), ("Ruby", 1), ("PHP", 1)].map
          (analyzeLanguages.entry 7)) := by
  have hs := sorted_eq sevenLanguages (by decide)
  have hlen : (Spec.presentLanguages sevenLanguages).length = 7 := by decide
  have hcounts : Spec.languageCounts sevenLanguages
      = [("C", 1), ("Go", 1), ("Rust", 1), ("Java", 1), ("Ruby", 1), ("PHP", 1),
          ("Swift", 1)] := by decide
  rw [hlen, hcounts, jsSort_map] at hs
  have hsort : jsSort (fun x y : String × Nat =>
        (((analyzeLanguages.entry 7 y).count : Int) - ((analyzeLanguages.entry 7 x).count : Int)))
      [("C", 1), ("Go", 1), ("Rust", 1), ("Java", 1), ("Ruby", 1), ("PHP", 1), ("Swift", 1)]
      = [("C", 1), ("Go", 1), ("Rust", 1), ("Java", 1), ("Ruby", 1), ("PHP", 1),
          ("Swift", 1)] := by decide
  rw [hsort] at hs
  unfold analyzeLanguages
  rw [hs]
  rfl

/-- C23 as stated fails: seven repositories in seven languages have a present language,
none with a name that the object `langCount` treats specially; the six returned
percentages are "14.3" each, they denote 14.3 and sum to 85.8, which is not within 0.3
of 100. -/
theorem sevenLanguages_percentages :
    Spec.presentLanguages sevenLanguages ≠ [] ∧
    (∀ l ∈ Spec.presentLanguages sevenLanguages, ownKey l = true) ∧
    ∃ languages : List LanguageEntry,
      analyzeLanguages sevenLanguages = some languages ∧
      languages.map (fun e => e.percentage)
        = ["14.3", "14.3", "14.3", "14.3", "14.3", "14.3"] ∧
      (languages.map fun e => Spec.decimalValue e.percentage).sum = 429 / 5 ∧
      ¬ |(languages.map fun e => Spec.decimalValue e.percentage).sum - 100| ≤ 3 / 10 := by
  have hpct : ([("C", 1), ("Go", 1), ("Rust", 1), ("Java", 1), ("Ruby", 1), ("PHP", 1)].map
      (analyzeLanguages.entry 7)).map (fun e => e.percentage)
      = ["14.3", "14.3", "14.3", "14.3", "14.3", "14.3"] := by
    simp only [List.map_cons, List.map_nil, analyzeLanguages.entry]
    rw [seventh_percentage]
  have hval : Spec.decimalValue "14.3" = 143 / 10 := by
    have hw : ("14.3" : String) = toString 14 ++ "." ++ toString 3 := by decide
    rw [hw, decimalValue_render 14 3 (by norm_num)]
    norm_num
  have hsum : (([("C", 1), ("Go", 1), ("Rust", 1), ("Java", 1), ("Ruby", 1), ("PHP", 1)].map
      (analyzeLanguages.entry 7)).map fun e => Spec.decimalValue e.percentage).sum
      = 429 / 5 := by
    have hmm : (([("C", 1), ("Go", 1), ("Rust", 1), ("Java", 1), ("Ruby", 1), ("PHP", 1)].map
        (analyzeLanguages.entry 7)).map fun e => Spec.decimalValue e.percentage)
        = ((([("C", 1), ("Go", 1), ("Rust", 1), ("Java", 1), ("Ruby", 1), ("PHP", 1)].map
            (analyzeLanguages.entry 7)).map fun e => e.percentage).map Spec.decimalValue) := by
      rw [List.map_map]
      rfl
    rw [hmm, hpct]
    simp only [List.map_cons, List.map_nil, hval, List.sum_cons, List.sum_nil]
    norm_num
  refine ⟨by decide, by decide, _, sevenLanguages_result, hpct, hsum, ?_⟩
  rw [hsum]
  norm_num [abs_le]

end PortfolioAnalyzer
